import Mathlib

/-!
# LAMA-SCHOOL-ERP: tenant secret cipher and connection manager

A shallow embedding of `services/school/pkg/tenant/crypto.go`,
`services/school/pkg/tenant/manager.go`, the provisioning path of
`services/school/handlers/school_handler.go`,
`services/school/middleware/tenant_resolver.go`, and of the password check of
`services/auth/utils/password.go` and the rate limiter of
`services/auth/middleware/rate_limit.go`.

Go strings and byte slices are lists of bytes.  A Go result pair `(value, error)`
is a Lean pair whose second component is `none` for a nil error.
-/

set_option autoImplicit false

namespace Tenant

/-! ## Bytes and Go strings -/

/-- A Go `byte`. -/
abbrev Byte := Fin 256

/-- A Go `string` / `[]byte`: a finite sequence of bytes. -/
abbrev Bytes := List Byte

/-- The bytes of an ASCII literal. -/
def ascii (s : String) : Bytes := s.toList.map (fun c => Fin.ofNat c.toNat)

/-! ## encoding/base64, `StdEncoding` (RFC 4648 section 4, padded, not strict) -/

/-- The alphabet of `base64.StdEncoding` (`encodeStd` in the Go library). -/
def encodeStd : Bytes :=
  ascii "ABCDEFGHIJKLMNOPQRSTUVWXYZabcdefghijklmnopqrstuvwxyz0123456789+/"

/-- The padding character `=` (`StdPadding`). -/
def padChar : Byte := 61

/-- The character that encodes the 6-bit value `n`. -/
def encChar (n : Nat) : Byte := encodeStd.getD n 0

/-- The 6-bit value a character stands for (`decodeMap`), `none` outside the alphabet. -/
def decodeMap (c : Byte) : Option Nat :=
  if encodeStd.indexOf c < 64 then some (encodeStd.indexOf c) else none

/-- `Encoding.EncodeToString` for a padded encoding whose alphabet is `enc`:
three bytes become four characters, the last group is padded with `=`. -/
def encodeWith (enc : Nat → Byte) : Bytes → Bytes
  | [] => []
  | [a] => [enc (a.val / 4), enc (a.val % 4 * 16), padChar, padChar]
  | [a, b] =>
      [enc (a.val / 4), enc (a.val % 4 * 16 + b.val / 16), enc (b.val % 16 * 4), padChar]
  | a :: b :: c :: rest =>
      enc (a.val / 4) :: enc (a.val % 4 * 16 + b.val / 16) ::
      enc (b.val % 16 * 4 + c.val / 64) :: enc (c.val % 64) :: encodeWith enc rest

/-- `StdEncoding.EncodeToString`. -/
def encodeToString (src : Bytes) : Bytes := encodeWith encChar src

/-- The alphabet of `base64.URLEncoding` (`encodeURL` in the Go library). -/
def encodeURL : Bytes :=
  ascii "ABCDEFGHIJKLMNOPQRSTUVWXYZabcdefghijklmnopqrstuvwxyz0123456789-_"

/-- `URLEncoding.EncodeToString`. -/
def urlEncodeToString (src : Bytes) : Bytes := encodeWith (fun n => encodeURL.getD n 0) src

/-- The decoder skips carriage returns and line feeds wherever they stand. -/
def isNewline (c : Byte) : Bool := c = 10 || c = 13

/-- The byte `n mod 256`. -/
def toByte (n : Nat) : Byte := Fin.ofNat n

/-- Decoding of the text once newlines are removed: full quanta of four
alphabet characters give three bytes; a final quantum may end in `==` (one
byte) or `=` (two bytes), the unused low bits being discarded; anything else
is corrupt input (`none`). -/
def decodeQuanta : Bytes → Option Bytes
  | [] => some []
  | [_] => none
  | [_, _] => none
  | [_, _, _] => none
  | a :: b :: c :: d :: rest =>
      match decodeMap a, decodeMap b with
      | some v0, some v1 =>
          match decodeMap c with
          | some v2 =>
              match decodeMap d with
              | some v3 =>
                  match decodeQuanta rest with
                  | some out =>
                      some (toByte (v0 * 4 + v1 / 16) :: toByte (v1 % 16 * 16 + v2 / 4) ::
                            toByte (v2 % 4 * 64 + v3) :: out)
                  | none => none
              | none =>
                  if d = padChar ∧ rest = [] then
                    some [toByte (v0 * 4 + v1 / 16), toByte (v1 % 16 * 16 + v2 / 4)]
                  else none
          | none =>
              if c = padChar ∧ d = padChar ∧ rest = [] then
                some [toByte (v0 * 4 + v1 / 16)]
              else none
      | _, _ => none

/-- The characters the decoder looks at: everything but newlines. -/
def keep (c : Byte) : Bool := !isNewline c

/-- `StdEncoding.DecodeString`: `none` stands for a `CorruptInputError`. -/
def decodeString (s : Bytes) : Option Bytes :=
  decodeQuanta (s.filter keep)

/-! ## crypto/aes and crypto/cipher -/

/-- `aes.NewCipher` accepts keys of 16, 24 or 32 bytes and rejects every other
length with a `KeySizeError` (`none`). The block is identified with its key. -/
def aesNewCipher (key : Bytes) : Option Bytes :=
  if key.length = 16 ∨ key.length = 24 ∨ key.length = 32 then some key else none

/-- `cipher.NewGCM` fails only for a block size other than 16; an AES block
always has size 16, so the call returns the GCM for that block. -/
def cipherNewGCM (block : Bytes) : Option Bytes := some block

/-- `gcm.NonceSize()` for the standard GCM that `cipher.NewGCM` builds. -/
def gcmNonceSize : Nat := 12

/-- The AEAD that `cipher.NewGCM` returns, as a pair of functions of the key:
`Seal key nonce plaintext additionalData` is the ciphertext followed by the
tag, and `Open key nonce ciphertext additionalData` is `none` when the tag
check fails. -/
structure AEAD where
  Seal : Bytes → Bytes → Bytes → Bytes → Bytes
  Open : Bytes → Bytes → Bytes → Bytes → Option Bytes

/-- The contract of `cipher.AEAD`: what `Seal` produced, `Open` accepts and
turns back into the plaintext (same 32-byte key, 12-byte nonce and additional
data). -/
def AEAD.Correct (G : AEAD) : Prop :=
  ∀ key nonce pt ad, key.length = 32 → nonce.length = gcmNonceSize →
    G.Open key nonce (G.Seal key nonce pt ad) ad = some pt

/-- `gcm.Seal(dst, nonce, plaintext, additionalData)` appends to `dst`. -/
def gcmSeal (G : AEAD) (gcm dst nonce plaintext ad : Bytes) : Bytes :=
  dst ++ G.Seal gcm nonce plaintext ad

/-- `gcm.Open(nil, nonce, ciphertext, additionalData)`. -/
def gcmOpen (G : AEAD) (gcm nonce ciphertext ad : Bytes) : Option Bytes :=
  G.Open gcm nonce ciphertext ad

/-- `io.ReadFull(rand.Reader, buf)` with `len(buf) = n`: the source either
fails (`none`) or supplies bytes, of which the first `n` fill the buffer; a
source that ends early is an error. -/
def readFull (src : Option Bytes) (n : Nat) : Option Bytes :=
  match src with
  | none => none
  | some bs => if n ≤ bs.length then some (bs.take n) else none

/-! ## crypto.go -/

/-- The `fmt.Errorf` sites of crypto.go. -/
inductive CryptoError where
  | decodeBase64      -- "failed to decode base64: ..."
  | cipherBlock       -- "failed to create cipher block: ..."
  | createGCM         -- "failed to create GCM: ..."
  | generateNonce     -- "failed to generate nonce: ..."
  | tooShort          -- "ciphertext too short"
  | decryptionFailed  -- "decryption failed: ..."
  deriving DecidableEq, Repr

/-- A format error: the blob is not validly encoded or is shorter than a nonce. -/
def CryptoError.isFormat : CryptoError → Bool
  | .decodeBase64 => true
  | .tooShort => true
  | _ => false

/-- The struct `Cipher`. -/
structure Cipher where
  key : Bytes
  deriving DecidableEq, Repr

/-- The loop `for len(keyBytes) < 32 { keyBytes = append(keyBytes, 0) }`, run for
at most `fuel` iterations. -/
def padKey : Nat → Bytes → Bytes
  | 0, keyBytes => keyBytes
  | fuel + 1, keyBytes =>
      if keyBytes.length < 32 then padKey fuel (keyBytes ++ [0]) else keyBytes

/-- The function `NewCipher`; the padding loop appends at most 32 bytes. -/
def NewCipher (key : Bytes) : Cipher × Option CryptoError :=
  let keyBytes := key
  let keyBytes :=
    if keyBytes.length < 32 then padKey 32 keyBytes
    else if keyBytes.length > 32 then keyBytes.take 32
    else keyBytes
  ({ key := keyBytes }, none)

/-- The method `Cipher.Encrypt`; `rnd` is what `rand.Reader` supplies. -/
def Cipher.Encrypt (G : AEAD) (c : Cipher) (rnd : Option Bytes) (plaintext : Bytes) :
    Bytes × Option CryptoError :=
  match aesNewCipher c.key with
  | none => ([], some .cipherBlock)
  | some block =>
    match cipherNewGCM block with
    | none => ([], some .createGCM)
    | some gcm =>
      match readFull rnd gcmNonceSize with
      | none => ([], some .generateNonce)
      | some nonce =>
        let ciphertext := gcmSeal G gcm nonce nonce plaintext []
        (encodeToString ciphertext, none)

/-- The method `Cipher.Decrypt`. -/
def Cipher.Decrypt (G : AEAD) (c : Cipher) (ciphertext : Bytes) : Bytes × Option CryptoError :=
  match decodeString ciphertext with
  | none => ([], some .decodeBase64)
  | some ct =>
    match aesNewCipher c.key with
    | none => ([], some .cipherBlock)
    | some block =>
      match cipherNewGCM block with
      | none => ([], some .createGCM)
      | some gcm =>
        let nonceSize := gcmNonceSize
        if ct.length < nonceSize then ([], some .tooShort)
        else
          let nonce := ct.take nonceSize
          let ct := ct.drop nonceSize
          match gcmOpen G gcm nonce ct [] with
          | none => ([], some .decryptionFailed)
          | some plaintext => (plaintext, none)


/-- Tampering with a stored blob: the byte at position `i` has the bits of
`mask` flipped; a position outside the blob leaves it as it is. -/
def flipByte : Bytes → Nat → Byte → Bytes
  | [], _, _ => []
  | b :: bs, 0, mask => (b ^^^ mask) :: bs
  | b :: bs, i + 1, mask => b :: flipByte bs i mask

/-! ## A concrete AEAD for closed examples

A stream cipher with a 16-byte keyed checksum: byte `i` of the plaintext is
shifted by a mask made of the key and the nonce, and the tag is recomputed and
compared on opening, as GCM does. -/

/-- The mask for position `i`. -/
def maskAt (key nonce : Bytes) (i : Nat) : Byte :=
  key.getD (i % 32) 0 + nonce.getD (i % 12) 0

/-- Adds the mask to every byte, starting at position `i`. -/
def addMask (key nonce : Bytes) : Nat → Bytes → Bytes
  | _, [] => []
  | i, b :: bs => (b + maskAt key nonce i) :: addMask key nonce (i + 1) bs

/-- Removes the mask from every byte, starting at position `i`. -/
def subMask (key nonce : Bytes) : Nat → Bytes → Bytes
  | _, [] => []
  | i, b :: bs => (b - maskAt key nonce i) :: subMask key nonce (i + 1) bs

/-- The 16-byte tag of a ciphertext. -/
def sumTag (key nonce ct ad : Bytes) : Bytes :=
  (List.range 16).map
    (fun j => (key ++ nonce ++ ct ++ ad).sum + key.getD j 0 + toByte (ct.length + j))

/-- The example AEAD. -/
def sumAEAD : AEAD where
  Seal key nonce pt ad := addMask key nonce 0 pt ++ sumTag key nonce (addMask key nonce 0 pt) ad
  Open key nonce c ad :=
    if c.length < 16 then none
    else if c.drop (c.length - 16) = sumTag key nonce (c.take (c.length - 16)) ad then
      some (subMask key nonce 0 (c.take (c.length - 16)))
    else none

/-! ## pgxpool and the world outside the process

A `*pgxpool.Pool` is identified by the order in which pools are created.  What
the database server and the random source answer is an `Env`; every call that
leaves the process is appended to the trace of the `World`. -/

/-- A `*pgxpool.Pool`. -/
abbrev Pool := Nat

/-- The fields of `pgxpool.Config` that manager.go sets, with the DSN the
configuration was parsed from. Durations are nanoseconds. -/
structure PoolConfig where
  dsn : Bytes
  MaxConns : Int
  MinConns : Int
  MaxConnLifetime : Int
  ConnectTimeout : Int
  deriving DecidableEq, Repr

/-- The calls that leave the manager, in the order they are made. -/
inductive Event where
  | randRead (n : Nat)                              -- a read of n bytes from crypto/rand
  | encrypt (plaintext : Bytes)                     -- Cipher.Encrypt
  | decrypt (blob : Bytes)                          -- Cipher.Decrypt
  | parseConfig (dsn : Bytes)                       -- pgxpool.ParseConfig
  | newWithConfig (cfg : PoolConfig) (pool : Option Pool)  -- pgxpool.NewWithConfig
  | newPool (dsn : Bytes) (pool : Option Pool)      -- pgxpool.New
  | ping (pool : Pool) (ok : Bool)                  -- Pool.Ping
  | close (pool : Pool)                             -- Pool.Close
  | exec (pool : Pool) (sql : Bytes) (ok : Bool)    -- Pool.Exec
  | migrate (pool : Option Pool) (ok : Bool)        -- RunTenantMigrations
  | insertSchool (pool : Pool) (args : List Bytes) (ok : Bool)  -- INSERT INTO schools
  | queryRow (pool : Pool) (sql : Bytes) (args : List Bytes) (found : Bool)  -- QueryRow(...).Scan
  deriving DecidableEq, Repr

/-- The state outside the manager: how many pools exist, how many reads of the
random source were made, and the trace of calls. -/
structure World where
  nextPool : Nat
  rndReads : Nat
  trace : List Event
  deriving DecidableEq, Repr

/-- Appends a call to the trace. -/
def World.log (w : World) (e : Event) : World := { w with trace := w.trace ++ [e] }

/-- The pool has been closed. -/
def World.closed (w : World) (p : Pool) : Prop := Event.close p ∈ w.trace

/-- The answers of the outside world during one operation. -/
structure Env where
  rand : Nat → Option Bytes               -- what the k-th read of crypto/rand supplies
  parseConfig : Bytes → Option PoolConfig -- pgxpool.ParseConfig
  newWithConfig : PoolConfig → Bool       -- pgxpool.NewWithConfig succeeds
  newPool : Bytes → Bool                  -- pgxpool.New succeeds
  ping : Pool → Bool                      -- Pool.Ping succeeds
  exec : Pool → Bytes → Bool              -- Pool.Exec succeeds
  migrate : Option Pool → Bool            -- RunTenantMigrations succeeds
  insert : Pool → List Bytes → Bool       -- the INSERT ... RETURNING row is scanned

/-- A read of `n` bytes from `crypto/rand`. -/
def World.readRand (env : Env) (w : World) (n : Nat) : Option Bytes × World :=
  (readFull (env.rand w.rndReads) n,
   { w with rndReads := w.rndReads + 1 }.log (.randRead n))

/-! ## manager.go -/

/-- The `fmt.Errorf` sites of manager.go. -/
inductive ManagerError where
  | createCipher (cause : CryptoError)     -- "failed to create cipher: ..."
  | decryptPassword (cause : CryptoError)  -- "failed to decrypt password: ..."
  | parseDSN                               -- "failed to parse DSN: ..."
  | createPool                             -- "failed to create connection pool: ..."
  | pingDatabase                           -- "failed to ping database: ..."
  | encryptPassword (cause : CryptoError)  -- "failed to encrypt password: ..."
  | createUser                             -- "failed to create user: ..."
  | createDatabase                         -- "failed to create database: ..."
  | grantDatabase                          -- "failed to grant database privileges: ..."
  | connectTenant                          -- "failed to connect to tenant database: ..."
  | grantSchema                            -- "failed to grant schema privileges: ..."
  | dropDatabase                           -- "failed to drop database: ..."
  deriving DecidableEq, Repr

/-- A Go `map[string]*pgxpool.Pool`. -/
abbrev PoolMap := List (Bytes × Pool)

/-- The lookup `m[k]`. -/
def mapGet : PoolMap → Bytes → Option Pool
  | [], _ => none
  | (k', v) :: m, k => if k' = k then some v else mapGet m k

/-- The statement `delete(m, k)`. -/
def mapDelete (m : PoolMap) (k : Bytes) : PoolMap := m.filter (fun e => e.1 ≠ k)

/-- The assignment `m[k] = v`. -/
def mapSet (m : PoolMap) (k : Bytes) (v : Pool) : PoolMap := mapDelete m k ++ [(k, v)]

/-- The struct `TenantManager` (the mutex is not a field of the model). -/
structure TenantManager where
  cipher : Cipher
  dbConnections : PoolMap
  maxOpenConns : Int
  maxIdleConns : Int
  connMaxLifetime : Int
  connectionTimeout : Int
  postgresPassword : Bytes
  deriving DecidableEq, Repr

/-- One second, as a `time.Duration`. -/
def second : Int := 1000000000

/-- The function `NewTenantManager`. -/
def NewTenantManager (encryptionKey : Bytes) (maxOpenConns maxIdleConns connMaxLifetime : Int)
    (postgresPassword : Bytes) : Option TenantManager × Option ManagerError :=
  match NewCipher encryptionKey with
  | (_, some err) => (none, some (.createCipher err))
  | (cipher, none) =>
    (some { cipher := cipher
            dbConnections := []
            maxOpenConns := maxOpenConns
            maxIdleConns := maxIdleConns
            connMaxLifetime := connMaxLifetime
            connectionTimeout := 5 * second
            postgresPassword := postgresPassword }, none)

/-- The verb `%d` of `fmt.Sprintf`. -/
def itoa (n : Int) : Bytes := ascii (toString n)

/-- The DSN that `GetConnection` formats:
`postgres://%s:%s@%s:%d/%s?sslmode=disable`. -/
def connDSN (user password host : Bytes) (port : Int) (dbName : Bytes) : Bytes :=
  ascii "postgres://" ++ user ++ ascii ":" ++ password ++ ascii "@" ++ host ++ ascii ":" ++
    itoa port ++ ascii "/" ++ dbName ++ ascii "?sslmode=disable"

/-- Lines 60 to 101 of `GetConnection`: decrypt the password, build the pool
configuration, create the pool and ping it once.  The cache is not touched. -/
def TenantManager.dial (G : AEAD) (env : Env) (tm : TenantManager) (w : World)
    (host : Bytes) (port : Int) (dbName user encryptedPassword : Bytes) :
    (Option Pool × Option ManagerError) × World :=
  -- Decrypt password
  let w := w.log (.decrypt encryptedPassword)
  match tm.cipher.Decrypt G encryptedPassword with
  | (_, some err) => ((none, some (.decryptPassword err)), w)
  | (password, none) =>
    -- Create new connection
    let dsn := connDSN user password host port dbName
    -- Create connection pool
    let w := w.log (.parseConfig dsn)
    match env.parseConfig dsn with
    | none => ((none, some .parseDSN), w)
    | some config =>
      -- Configure pool
      let config := { config with
        MaxConns := tm.maxOpenConns
        MinConns := 1
        MaxConnLifetime := tm.connMaxLifetime
        ConnectTimeout := tm.connectionTimeout }
      -- Connect with timeout
      if env.newWithConfig config then
        let pool := w.nextPool
        let w := { w with nextPool := w.nextPool + 1 }.log (.newWithConfig config (some pool))
        -- Test connection
        let w := w.log (.ping pool (env.ping pool))
        if env.ping pool then ((some pool, none), w)
        else
          let w := w.log (.close pool)
          ((none, some .pingDatabase), w)
      else ((none, some .createPool), w.log (.newWithConfig config none))

/-- Lines 60 to 108 of `GetConnection`: create the pool and, when it answered
the ping, cache it under `schoolCode`. -/
def TenantManager.connect (G : AEAD) (env : Env) (tm : TenantManager) (w : World)
    (schoolCode host : Bytes) (port : Int) (dbName user encryptedPassword : Bytes) :
    (Option Pool × Option ManagerError) × TenantManager × World :=
  match tm.dial G env w host port dbName user encryptedPassword with
  | ((some pool, none), w) =>
    -- Cache the connection
    ((some pool, none), { tm with dbConnections := mapSet tm.dbConnections schoolCode pool }, w)
  | (r, w) => (r, tm, w)

/-- The method `TenantManager.GetConnection`, run without interference from
other goroutines. -/
def TenantManager.GetConnection (G : AEAD) (env : Env) (tm : TenantManager) (w : World)
    (schoolCode host : Bytes) (port : Int) (dbName user encryptedPassword : Bytes) :
    (Option Pool × Option ManagerError) × TenantManager × World :=
  -- Check cache first
  match mapGet tm.dbConnections schoolCode with
  | some conn =>
    -- Verify connection is still alive
    let w := w.log (.ping conn (env.ping conn))
    if env.ping conn then ((some conn, none), tm, w)
    else
      -- Connection is dead, remove from cache and create new one
      let tm := { tm with dbConnections := mapDelete tm.dbConnections schoolCode }
      tm.connect G env w schoolCode host port dbName user encryptedPassword
  | none => tm.connect G env w schoolCode host port dbName user encryptedPassword

/-- The method `Cipher.Encrypt` with its nonce drawn from the random source of
the world. -/
def Cipher.encryptRand (G : AEAD) (env : Env) (c : Cipher) (w : World) (plaintext : Bytes) :
    (Bytes × Option CryptoError) × World :=
  (c.Encrypt G (env.rand w.rndReads) plaintext,
   { w with rndReads := w.rndReads + 1 }.log (.encrypt plaintext))

/-- The method `TenantManager.EncryptPassword`. -/
def TenantManager.EncryptPassword (G : AEAD) (env : Env) (tm : TenantManager) (w : World)
    (password : Bytes) : (Bytes × Option CryptoError) × World :=
  tm.cipher.encryptRand G env w password

/-- The statement that creates the role unless it exists. -/
def createUserSQL (dbUser dbPassword : Bytes) : Bytes :=
  ascii "\n\t\tDO $$\n\t\tBEGIN\n\t\t\tIF NOT EXISTS (SELECT FROM pg_catalog.pg_roles WHERE rolname = '"
    ++ dbUser ++ ascii "') THEN\n\t\t\t\tCREATE USER \"" ++ dbUser ++ ascii "\" WITH PASSWORD '"
    ++ dbPassword ++ ascii "';\n\t\t\tEND IF;\n\t\tEND\n\t\t$$;\n\t"

/-- The statement that creates the tenant database from `template0`. -/
def createDBSQL (dbName : Bytes) : Bytes :=
  ascii "CREATE DATABASE \"" ++ dbName ++ ascii "\" ENCODING 'UTF8' TEMPLATE template0;"

/-- The statement that grants the role all privileges on the database. -/
def grantSQL (dbName dbUser : Bytes) : Bytes :=
  ascii "GRANT ALL PRIVILEGES ON DATABASE \"" ++ dbName ++ ascii "\" TO \"" ++ dbUser ++ ascii "\";"

/-- The DSN of the superuser connection to the new database. -/
def tenantDSN (postgresPassword dbName : Bytes) : Bytes :=
  ascii "postgres://postgres:" ++ postgresPassword ++ ascii "@" ++ ascii "postgres" ++ ascii ":"
    ++ itoa 5432 ++ ascii "/" ++ dbName ++ ascii "?sslmode=disable"

/-- The statements that grant the schema and default privileges. -/
def schemaSQL (dbUser : Bytes) : Bytes :=
  ascii "\n\t\tGRANT ALL ON SCHEMA public TO \"" ++ dbUser
    ++ ascii "\";\n\t\tGRANT ALL PRIVILEGES ON ALL TABLES IN SCHEMA public TO \"" ++ dbUser
    ++ ascii "\";\n\t\tGRANT ALL PRIVILEGES ON ALL SEQUENCES IN SCHEMA public TO \"" ++ dbUser
    ++ ascii "\";\n\t\tALTER DEFAULT PRIVILEGES IN SCHEMA public GRANT ALL ON TABLES TO \"" ++ dbUser
    ++ ascii "\";\n\t\tALTER DEFAULT PRIVILEGES IN SCHEMA public GRANT ALL ON SEQUENCES TO \""
    ++ dbUser ++ ascii "\";\n\t"

/-- The statement that drops the tenant database. -/
def dropDBSQL (dbName : Bytes) : Bytes :=
  ascii "DROP DATABASE IF EXISTS \"" ++ dbName ++ ascii "\" WITH (FORCE);"

/-- The method `TenantManager.CreateTenantDatabase`. -/
def TenantManager.CreateTenantDatabase (G : AEAD) (env : Env) (tm : TenantManager) (w : World)
    (mainDB : Pool) (_schoolCode dbName dbUser dbPassword : Bytes) :
    Option ManagerError × World :=
  -- Encrypt password for storage
  match tm.cipher.encryptRand G env w dbPassword with
  | ((_, some err), w) => (some (.encryptPassword err), w)
  | ((_encryptedPassword, none), w) =>
    -- Create user if it doesn't exist
    let w := w.log (.exec mainDB (createUserSQL dbUser dbPassword)
      (env.exec mainDB (createUserSQL dbUser dbPassword)))
    if !env.exec mainDB (createUserSQL dbUser dbPassword) then (some .createUser, w)
    else
      -- Create database
      let w := w.log (.exec mainDB (createDBSQL dbName) (env.exec mainDB (createDBSQL dbName)))
      if !env.exec mainDB (createDBSQL dbName) then (some .createDatabase, w)
      else
        -- Grant privileges to user on database
        let w := w.log (.exec mainDB (grantSQL dbName dbUser)
          (env.exec mainDB (grantSQL dbName dbUser)))
        if !env.exec mainDB (grantSQL dbName dbUser) then (some .grantDatabase, w)
        else
          -- Connect to the new database to grant schema permissions
          if !env.newPool (tenantDSN tm.postgresPassword dbName) then
            (some .connectTenant, w.log (.newPool (tenantDSN tm.postgresPassword dbName) none))
          else
            let tenantConn := w.nextPool
            let w := { w with nextPool := w.nextPool + 1 }.log
              (.newPool (tenantDSN tm.postgresPassword dbName) (some tenantConn))
            -- Grant schema permissions
            let w := w.log (.exec tenantConn (schemaSQL dbUser)
              (env.exec tenantConn (schemaSQL dbUser)))
            -- the deferred tenantConn.Close() runs on both returns
            if !env.exec tenantConn (schemaSQL dbUser) then
              (some .grantSchema, w.log (.close tenantConn))
            else (none, w.log (.close tenantConn))

/-- The method `TenantManager.DropTenantDatabase`. -/
def TenantManager.DropTenantDatabase (env : Env) (tm : TenantManager) (w : World)
    (mainDB : Pool) (schoolCode dbName : Bytes) :
    Option ManagerError × TenantManager × World :=
  -- Close connection if exists
  let (tm, w) :=
    match mapGet tm.dbConnections schoolCode with
    | some conn =>
      ({ tm with dbConnections := mapDelete tm.dbConnections schoolCode }, w.log (.close conn))
    | none => (tm, w)
  -- Drop database
  let w := w.log (.exec mainDB (dropDBSQL dbName) (env.exec mainDB (dropDBSQL dbName)))
  if !env.exec mainDB (dropDBSQL dbName) then (some .dropDatabase, tm, w)
  else (none, tm, w)

/-- The method `TenantManager.CloseConnection`. -/
def TenantManager.CloseConnection (tm : TenantManager) (w : World) (schoolCode : Bytes) :
    TenantManager × World :=
  match mapGet tm.dbConnections schoolCode with
  | some conn =>
    ({ tm with dbConnections := mapDelete tm.dbConnections schoolCode }, w.log (.close conn))
  | none => (tm, w)

/-- The loop `for _, conn := range tm.dbConnections { conn.Close() }`, in the
order of the entries. -/
def closeEach : PoolMap → World → World
  | [], w => w
  | (_, conn) :: rest, w => closeEach rest (w.log (.close conn))

/-- The method `TenantManager.CloseAllConnections`. -/
def TenantManager.CloseAllConnections (tm : TenantManager) (w : World) :
    TenantManager × World :=
  ({ tm with dbConnections := [] }, closeEach tm.dbConnections w)

/-- What `conn.Stat()` reports: `TotalConns`, `IdleConns` and `AcquiredConns`. -/
structure PoolStat where
  TotalConns : Int
  IdleConns : Int
  AcquiredConns : Int
  deriving DecidableEq, Repr

/-- The method `TenantManager.GetStats`; `none` is the nil map, and `stat` is what
the pools report. -/
def TenantManager.GetStats (stat : Pool → PoolStat) (tm : TenantManager) (schoolCode : Bytes) :
    Option (List (Bytes × Int)) :=
  match mapGet tm.dbConnections schoolCode with
  | some conn =>
    some [(ascii "total_conns", (stat conn).TotalConns),
          (ascii "idle_conns", (stat conn).IdleConns),
          (ascii "acq_count", (stat conn).AcquiredConns),
          (ascii "acquired_conns", (stat conn).AcquiredConns)]
  | none => none

/-- The call is the INSERT of a school record. -/
def Event.isInsertSchool : Event → Bool
  | .insertSchool _ _ _ => true
  | _ => false

/-- The INSERTs of school records made so far. -/
def World.inserts (w : World) : List Event := w.trace.filter Event.isInsertSchool

/-! ## school_handler.go -/

/-- The struct `SchoolHandler`: the control-plane pool and the tenant manager. -/
structure SchoolHandler where
  db : Pool
  tenantManager : TenantManager
  deriving DecidableEq, Repr

/-- The struct `CreateSchoolRequest`, after body parsing and validation. -/
structure CreateSchoolRequest where
  Name : Bytes
  Code : Bytes
  Domain : Bytes
  LogoURL : Bytes
  Timezone : Bytes
  DBUser : Bytes
  DBPassword : Bytes
  deriving DecidableEq, Repr

/-- What the handler answers: a status with an error message, or 201 with the
inserted row. -/
inductive Response where
  | error (status : Nat) (message : Bytes)
  | created (row : List Bytes)
  deriving DecidableEq, Repr

/-- The function `generateRandomPassword`. -/
def generateRandomPassword (env : Env) (w : World) (length : Nat) : Bytes × World :=
  match w.readRand env length with
  | (none, w) => (ascii "defaultPassword123!", w) -- Fallback
  | (some bytes, w) => ((urlEncodeToString bytes).take length, w)

/-- The arguments of the INSERT into `schools`. -/
def insertArgs (req : CreateSchoolRequest) (dbName dbUser encryptedPassword : Bytes) :
    List Bytes :=
  [req.Name, req.Code, dbName, dbUser, encryptedPassword, ascii "postgres", itoa 5432,
   req.Domain, req.LogoURL, req.Timezone, ascii "active"]

/-- The method `SchoolHandler.CreateSchool`, from the point where the request
body has been parsed and validated. -/
def SchoolHandler.CreateSchool (G : AEAD) (env : Env) (h : SchoolHandler) (w : World)
    (req : CreateSchoolRequest) : Response × SchoolHandler × World :=
  -- Auto-generate database credentials if not provided
  let dbUser := if req.DBUser = [] then ascii "school_" ++ req.Code ++ ascii "_user" else req.DBUser
  let (dbPassword, w) :=
    if req.DBPassword = [] then generateRandomPassword env w 16 else (req.DBPassword, w)
  -- Generate database name
  let dbName := ascii "school_" ++ req.Code ++ ascii "_db"
  -- Encrypt password
  match h.tenantManager.EncryptPassword G env w dbPassword with
  | ((_, some _), w) => (.error 500 (ascii "Failed to process school setup"), h, w)
  | ((encryptedPassword, none), w) =>
    -- Create tenant database
    match h.tenantManager.CreateTenantDatabase G env w h.db req.Code dbName dbUser dbPassword with
    | (some _, w) => (.error 500 (ascii "Failed to create database"), h, w)
    | (none, w) =>
      -- Get tenant connection and run migrations
      match h.tenantManager.GetConnection G env w req.Code (ascii "postgres") 5432 dbName dbUser
          encryptedPassword with
      | ((_, some _), tm, w) =>
        -- Try to drop the database since migrations failed
        let (_, tm, w) := tm.DropTenantDatabase env w h.db req.Code dbName
        (.error 500 (ascii "Failed to connect to database"), { h with tenantManager := tm }, w)
      | ((tenantDB, none), tm, w) =>
        -- Run tenant migrations
        let w := w.log (.migrate tenantDB (env.migrate tenantDB))
        if !env.migrate tenantDB then
          let (_, tm, w) := tm.DropTenantDatabase env w h.db req.Code dbName
          (.error 500 (ascii "Failed to initialize database schema"),
            { h with tenantManager := tm }, w)
        else
          -- Insert school record in main database
          let args := insertArgs req dbName dbUser encryptedPassword
          let w := w.log (.insertSchool h.db args (env.insert h.db args))
          if !env.insert h.db args then
            let (_, tm, w) := tm.DropTenantDatabase env w h.db req.Code dbName
            (.error 500 (ascii "Failed to save school record"), { h with tenantManager := tm }, w)
          else (.created args, { h with tenantManager := tm }, w)

/-! ## Interleaved calls of `GetConnection`

Between two critical sections of `dbMutex` other goroutines may run.  A call is
cut at the points where it takes or releases the mutex; the lookup under the read
lock, the delete and the insert under the write lock are each one step, and so
are the ping of a cached pool and the creation of a pool, which do not touch the
cache. -/

/-- Where a call of `GetConnection` stands. -/
inductive Pc where
  | start                  -- before the lookup under the read lock (line 45)
  | probe (conn : Pool)    -- an entry was found, before its ping (line 49)
  | evict                  -- the ping failed, before the delete under the write lock (line 53)
  | dial                   -- before the decryption (line 61)
  | store (pool : Pool)    -- the new pool answered, before the insert under the write lock (line 104)
  | done (r : Option Pool × Option ManagerError)  -- returned
  deriving DecidableEq, Repr

/-- The arguments of a call of `GetConnection`. -/
structure CallArgs where
  schoolCode : Bytes
  host : Bytes
  port : Int
  dbName : Bytes
  user : Bytes
  encryptedPassword : Bytes
  deriving DecidableEq, Repr

/-- One step of a call of `GetConnection`. -/
def TenantManager.stepCall (G : AEAD) (env : Env) (a : CallArgs) (pc : Pc)
    (tm : TenantManager) (w : World) : Pc × TenantManager × World :=
  match pc with
  | .start =>
    match mapGet tm.dbConnections a.schoolCode with
    | some conn => (.probe conn, tm, w)
    | none => (.dial, tm, w)
  | .probe conn =>
    let w := w.log (.ping conn (env.ping conn))
    if env.ping conn then (.done (some conn, none), tm, w) else (.evict, tm, w)
  | .evict => (.dial, { tm with dbConnections := mapDelete tm.dbConnections a.schoolCode }, w)
  | .dial =>
    match tm.dial G env w a.host a.port a.dbName a.user a.encryptedPassword with
    | ((some pool, none), w) => (.store pool, tm, w)
    | (r, w) => (.done r, tm, w)
  | .store pool =>
    (.done (some pool, none),
      { tm with dbConnections := mapSet tm.dbConnections a.schoolCode pool }, w)
  | .done r => (.done r, tm, w)

/-- A call run alone for `n` steps. -/
def TenantManager.runCall (G : AEAD) (env : Env) (a : CallArgs) :
    Nat → Pc → TenantManager → World → Pc × TenantManager × World
  | 0, pc, tm, w => (pc, tm, w)
  | n + 1, pc, tm, w =>
    match tm.stepCall G env a pc w with
    | (pc, tm, w) => TenantManager.runCall G env a n pc tm w

/-- Several calls of `GetConnection` with the same arguments in flight on one
manager. -/
structure Sys where
  pcs : List Pc
  tm : TenantManager
  w : World
  deriving DecidableEq, Repr

/-- The call numbered `i` makes its next step. -/
def Sys.step (G : AEAD) (env : Env) (a : CallArgs) (S : Sys) (i : Nat) : Sys :=
  match S.pcs[i]? with
  | none => S
  | some pc =>
    match S.tm.stepCall G env a pc S.w with
    | (pc, tm, w) => { pcs := S.pcs.set i pc, tm := tm, w := w }

/-- The calls step in the order the schedule gives. -/
def Sys.run (G : AEAD) (env : Env) (a : CallArgs) (S : Sys) (schedule : List Nat) : Sys :=
  schedule.foldl (Sys.step G env a) S

/-- The entries of the cache under a tenant code. -/
def entriesFor (m : PoolMap) (code : Bytes) : PoolMap := m.filter (fun e => e.1 = code)

/-- The system in which `n` callers are about to call `GetConnection`. -/
def Sys.init (n : Nat) (tm : TenantManager) (w : World) : Sys :=
  { pcs := List.replicate n .start, tm := tm, w := w }

/-- What holds of a call in flight when every caller started on a cache without
an entry for `code`: a pool that a caller probes, is about to store or has returned
was created after the world `w0`, answered its ping, and (for a probed or returned
pool) the cache has an entry for `code`; no caller is about to evict, and a
caller that returned has either a pool or an error. -/
def ThreadOk (env : Env) (code : Bytes) (w0 : World) (m : PoolMap) : Pc → Prop
  | .start => True
  | .dial => True
  | .probe conn => env.ping conn = true ∧ w0.nextPool ≤ conn ∧ (mapGet m code).isSome
  | .evict => False
  | .store p => env.ping p = true ∧ w0.nextPool ≤ p
  | .done (some p, none) => env.ping p = true ∧ w0.nextPool ≤ p ∧ (mapGet m code).isSome
  | .done (none, some _) => True
  | .done _ => False

/-- The invariant of the interleaved first-time calls for `code`. -/
def Sys.Inv (env : Env) (code : Bytes) (w0 : World) (S : Sys) : Prop :=
  (∀ q, mapGet S.tm.dbConnections code = some q → env.ping q = true ∧ w0.nextPool ≤ q) ∧
  (∀ pc ∈ S.pcs, ThreadOk env code w0 S.tm.dbConnections pc) ∧
  w0.nextPool ≤ S.w.nextPool ∧
  (∀ p, S.w.closed p → w0.closed p ∨ env.ping p = false) ∧
  (entriesFor S.tm.dbConnections code).length ≤ 1

/-! ## A concrete environment for closed examples -/

/-- An environment in which every call succeeds, except the pings and statements
that the two arguments make fail. -/
def exampleEnv (ping : Pool → Bool) (exec : Pool → Bytes → Bool) : Env where
  rand := fun _ => some (ascii "0123456789abcdef")
  parseConfig := fun dsn =>
    some { dsn := dsn, MaxConns := 4, MinConns := 0, MaxConnLifetime := 3600 * second,
           ConnectTimeout := 0 }
  newWithConfig := fun _ => true
  newPool := fun _ => true
  ping := ping
  exec := exec
  migrate := fun _ => true
  insert := fun _ _ => true

/-- A manager built by `NewTenantManager` semantics whose cache holds the given
entries. -/
def exampleManager (cache : PoolMap) : TenantManager where
  cipher := (NewCipher (ascii "tenant-secret")).1
  dbConnections := cache
  maxOpenConns := 10
  maxIdleConns := 2
  connMaxLifetime := 1800 * second
  connectionTimeout := 5 * second
  postgresPassword := ascii "postgres"

/-- A world in which `n` pools have been created and nothing else happened. -/
def exampleWorld (n : Nat) : World := { nextPool := n, rndReads := 0, trace := [] }

/-- The stored form of the password `pwd` under the example manager. -/
def exampleBlob : Bytes :=
  ((NewCipher (ascii "tenant-secret")).1.Encrypt sumAEAD (some (ascii "0123456789ab"))
    (ascii "pwd")).1

/-- The arguments with which the tenant `eis` is resolved in the examples. -/
def exampleArgs : CallArgs where
  schoolCode := ascii "eis"
  host := ascii "postgres"
  port := 5432
  dbName := ascii "school_eis_db"
  user := ascii "school_eis_user"
  encryptedPassword := exampleBlob

/-- The handler of the examples: the control-plane pool is pool 0. -/
def exampleHandler : SchoolHandler := { db := 0, tenantManager := exampleManager [] }

/-- A request that registers the school `eis` with a supplied password. -/
def exampleRequest : CreateSchoolRequest where
  Name := ascii "Example International School"
  Code := ascii "eis"
  Domain := ascii "eis.example.org"
  LogoURL := []
  Timezone := ascii "UTC"
  DBUser := []
  DBPassword := ascii "s3cr3t"

/-! ## unicode/utf8: how `range` reads a string and `string([]rune)` writes one -/

/-- A Go `rune`, as the loop `for _, c := range s` yields it. -/
abbrev Rune := Nat

/-- The rune `utf8.RuneError` (U+FFFD). -/
def runeError : Rune := 0xFFFD

/-- The last step of `utf8.DecodeRuneInString` for a four-byte encoding. -/
def decodeRune4 (s0 s1 s2 : Byte) : Bytes → Rune × Nat
  | [] => (runeError, 1)
  | s3 :: _ =>
    if s3.val < 0x80 ∨ 0xBF < s3.val then (runeError, 1)
    else (s0.val % 8 * 262144 + s1.val % 64 * 4096 + s2.val % 64 * 64 + s3.val % 64, 4)

/-- The step of `utf8.DecodeRuneInString` that reads the third byte. -/
def decodeRune3 (s0 s1 : Byte) : Bytes → Rune × Nat
  | [] => (runeError, 1)
  | s2 :: rest =>
    if s2.val < 0x80 ∨ 0xBF < s2.val then (runeError, 1)
    else if s0.val < 0xF0 then (s0.val % 16 * 4096 + s1.val % 64 * 64 + s2.val % 64, 3)
    else decodeRune4 s0 s1 s2 rest

/-- The step of `utf8.DecodeRuneInString` that reads the second byte, whose
accepted range depends on the first (`acceptRanges`). -/
def decodeRune2 (s0 : Byte) : Bytes → Rune × Nat
  | [] => (runeError, 1)
  | s1 :: rest =>
    if s1.val < (if s0.val = 0xE0 then 0xA0 else if s0.val = 0xF0 then 0x90 else 0x80) ∨
        (if s0.val = 0xED then 0x9F else if s0.val = 0xF4 then 0x8F else 0xBF) < s1.val then
      (runeError, 1)
    else if s0.val < 0xE0 then (s0.val % 32 * 64 + s1.val % 64, 2)
    else decodeRune3 s0 s1 rest

/-- `utf8.DecodeRuneInString`: the rune at the head of the string and its width
in bytes; bytes that do not start a valid encoding give `(RuneError, 1)`. -/
def decodeRune : Bytes → Rune × Nat
  | [] => (runeError, 0)
  | s0 :: rest =>
    if s0.val < 0x80 then (s0.val, 1)
    else if s0.val < 0xC2 ∨ 0xF5 ≤ s0.val then (runeError, 1)
    else decodeRune2 s0 rest

/-- The runes that `for _, c := range s` yields, for at most `fuel` iterations. -/
def rangeRunes : Nat → Bytes → List Rune
  | 0, _ => []
  | _ + 1, [] => []
  | fuel + 1, s0 :: rest =>
    (decodeRune (s0 :: rest)).1 :: rangeRunes fuel ((s0 :: rest).drop (decodeRune (s0 :: rest)).2)

/-- `utf8.AppendRune`: the encoding of one rune; surrogates and values beyond
U+10FFFF are written as `RuneError`. -/
def encodeRune (r : Rune) : Bytes :=
  if r < 0x80 then [toByte r]
  else if r < 0x800 then [toByte (0xC0 + r / 64), toByte (0x80 + r % 64)]
  else if 0x10FFFF < r ∨ (0xD800 ≤ r ∧ r ≤ 0xDFFF) then [0xEF, 0xBF, 0xBD]
  else if r < 0x10000 then
    [toByte (0xE0 + r / 4096), toByte (0x80 + r / 64 % 64), toByte (0x80 + r % 64)]
  else
    [toByte (0xF0 + r / 262144), toByte (0x80 + r / 4096 % 64), toByte (0x80 + r / 64 % 64),
     toByte (0x80 + r % 64)]

/-- The conversion `string(runes)`. -/
def stringOfRunes (rs : List Rune) : Bytes := rs.flatMap encodeRune

/-- `utf8.ValidString`, for at most `fuel` runes: no position decodes to
`(RuneError, 1)`. -/
def validUTF8 : Nat → Bytes → Bool
  | 0, s => s = []
  | _ + 1, [] => true
  | fuel + 1, s0 :: rest =>
    !((decodeRune (s0 :: rest)).1 = runeError ∧ (decodeRune (s0 :: rest)).2 = 1) &&
      validUTF8 fuel ((s0 :: rest).drop (decodeRune (s0 :: rest)).2)

/-! ## tenant_resolver.go -/

/-- The function `extractSubdomain`. -/
def extractSubdomain (hostname : Bytes) : Bytes :=
  if hostname = [] ∨ hostname = ascii "localhost" then []
  -- For localhost:port, return empty
  else if hostname = ascii "localhost" ∨ (hostname.length > 0 ∧ hostname.head? = some 91) then []
  else
    -- the loop appends runes up to the first '.' or ':'
    let parts := (rangeRunes hostname.length hostname).takeWhile (fun c => !(c = 46 || c = 58))
    let subdomain := stringOfRunes parts
    if subdomain = ascii "www" ∨ subdomain = ascii "api" ∨ subdomain = [] then []
    else subdomain


/-- What a decoding step that is not an error gives: a rune of at least 0x80
whose encoding is the bytes read, all of them at least 0x80. -/
def MultiOk (s : Bytes) (d : Rune × Nat) : Prop :=
  0x80 ≤ d.1 ∧ encodeRune d.1 = s.take d.2 ∧ ∀ b ∈ s.take d.2, 0x80 ≤ b.val

/-- What the middleware reads of a `*fiber.Ctx`: `c.Path()`, `c.Method()`,
`c.Get(key)`, `c.Query(key)` (both give the empty string for a key that is absent)
and `c.Hostname()`. -/
structure Request where
  path : Bytes
  method : Bytes
  get : Bytes → Bytes
  query : Bytes → Bytes
  hostname : Bytes

/-- The function `extractTenantCode`. -/
def extractTenantCode (c : Request) : Bytes :=
  -- Try header first
  if c.get (ascii "X-Tenant-Code") ≠ [] then c.get (ascii "X-Tenant-Code")
  -- Try query parameter
  else if c.query (ascii "tenant_code") ≠ [] then c.query (ascii "tenant_code")
  -- Try from subdomain
  else if extractSubdomain c.hostname ≠ [] then extractSubdomain c.hostname
  else []

/-- The slice `skipPaths` of `shouldSkipTenantResolution`. -/
def skipPaths : List Bytes :=
  [ascii "/health",
   ascii "/api/v1/schools",
   ascii "/api/v1/schools/",
   ascii "/api/v1/auth",
   ascii "/api/v1/metrics",
   ascii "/api/v1/readiness",
   ascii "/api/v1/liveness"]

/-- The condition of the loop over `skipPaths`: the path is the entry, or the
entry ends in `/` and is a proper prefix of the path. -/
def matchesSkipPath (path skipPath : Bytes) : Bool :=
  path = skipPath ||
    (skipPath.length > 0 && skipPath.getD (skipPath.length - 1) 0 = 47 &&
      path.length > skipPath.length && path.take skipPath.length = skipPath)

/-- The function `shouldSkipTenantResolution`. -/
def shouldSkipTenantResolution (c : Request) : Bool :=
  if skipPaths.any (matchesSkipPath c.path) then true
  -- For POST/PUT/DELETE to /api/v1/schools, skip (SuperAdmin operations)
  else if (c.method = ascii "POST" ∨ c.method = ascii "PUT" ∨ c.method = ascii "DELETE") ∧
      c.path = ascii "/api/v1/schools" then true
  else false

/-- The struct `TenantResolverConfig`. -/
structure TenantResolverConfig where
  TenantManager : TenantManager
  MainDB : Pool
  DBHost : Bytes
  DBPort : Int

/-- A row of the table `schools` of the control plane (database/migrations.go),
without its id and timestamps. -/
structure SchoolRow where
  name : Bytes
  code : Bytes
  db_name : Bytes
  db_user : Bytes
  db_password : Bytes
  db_host : Bytes
  db_port : Int
  domain : Bytes
  logo_url : Bytes
  timezone : Bytes
  status : Bytes
  deriving DecidableEq, Repr

/-- The query of the resolver. -/
def credentialsSQL : Bytes :=
  ascii "SELECT db_user, db_password FROM schools WHERE code = $1 AND status = 'active'"

/-- What `QueryRow(ctx, query, tenantCode).Scan(&dbUser, &encryptedPassword)` reads
from the table: the two columns of the first row with that code and status
`active`, or `none` when `Scan` returns an error because there is no such row. -/
def queryCredentials (schools : List SchoolRow) (tenantCode : Bytes) : Option (Bytes × Bytes) :=
  (schools.find? (fun r => r.code = tenantCode ∧ r.status = ascii "active")).map
    (fun r => (r.db_user, r.db_password))

/-- What the middleware does with the request: it calls `c.Next()`, with the tenant
code and pool it stored in the locals if it resolved a tenant, or it answers with a
status and a JSON object. -/
inductive ResolverOutcome where
  | next (locals : Option (Bytes × Option Pool))
  | respond (status : Nat) (body : List (Bytes × Bytes))
  deriving DecidableEq, Repr

/-- The handler that `NewTenantResolver(cfg)` returns, run on the table `schools`. -/
def NewTenantResolver (G : AEAD) (env : Env) (cfg : TenantResolverConfig)
    (schools : List SchoolRow) (w : World) (c : Request) :
    ResolverOutcome × TenantManager × World :=
  -- Skip tenant resolution for non-protected endpoints
  if shouldSkipTenantResolution c then (.next none, cfg.TenantManager, w)
  else
    -- Extract tenant code from request
    let tenantCode := extractTenantCode c
    if tenantCode = [] then
      (.respond 400
        [(ascii "error", ascii "Tenant code is required"),
         (ascii "details", ascii "Provide tenant code via header (X-Tenant-Code), query parameter (tenant_code), or subdomain")],
        cfg.TenantManager, w)
    else
      -- Fetch school credentials from main database
      let w := w.log (.queryRow cfg.MainDB credentialsSQL [tenantCode]
        (queryCredentials schools tenantCode).isSome)
      match queryCredentials schools tenantCode with
      | none =>
        (.respond 404
          [(ascii "error", ascii "School not found or inactive"),
           (ascii "tenant_code", tenantCode)],
          cfg.TenantManager, w)
      | some (dbUser, encryptedPassword) =>
        -- Get or create tenant database connection
        match cfg.TenantManager.GetConnection G env w tenantCode cfg.DBHost cfg.DBPort
            (ascii "school_" ++ tenantCode ++ ascii "_db") dbUser encryptedPassword with
        | ((_, some _), tm, w) =>
          (.respond 500
            [(ascii "error", ascii "Failed to connect to tenant database"),
             (ascii "tenant_code", tenantCode)],
            tm, w)
        | ((tenantDB, none), tm, w) =>
          -- Store tenant info in context
          (.next (some (tenantCode, tenantDB)), tm, w)

/-- A request of the examples: a GET of `/api/v1/students` with the given
`X-Tenant-Code` header, `tenant_code` query parameter and host. -/
def exampleRequestTo (header query host : Bytes) : Request where
  path := ascii "/api/v1/students"
  method := ascii "GET"
  get := fun k => if k = ascii "X-Tenant-Code" then header else []
  query := fun k => if k = ascii "tenant_code" then query else []
  hostname := host

/-- A row of `schools` for the tenant `eis`, with the given host, port, database
name and status. -/
def exampleRow (host : Bytes) (port : Int) (dbName status : Bytes) : SchoolRow where
  name := ascii "Example International School"
  code := ascii "eis"
  db_name := dbName
  db_user := ascii "school_eis_user"
  db_password := exampleBlob
  db_host := host
  db_port := port
  domain := ascii "eis.example.org"
  logo_url := []
  timezone := ascii "UTC"
  status := status

/-- The resolver configuration of the examples. -/
def exampleConfig : TenantResolverConfig where
  TenantManager := exampleManager []
  MainDB := 0
  DBHost := ascii "postgres"
  DBPort := 5432

/-! ## Sequences of calls on the manager -/

/-- A call of one of the methods of the manager that touch the cache. -/
inductive ManagerCall where
  | getConnection (a : CallArgs)
  | closeConnection (schoolCode : Bytes)
  | closeAllConnections
  | dropTenantDatabase (mainDB : Pool) (schoolCode dbName : Bytes)
  deriving DecidableEq, Repr

/-- One call, answered by the environment `env`. -/
def TenantManager.call (G : AEAD) (s : TenantManager × World) (c : Env × ManagerCall) :
    TenantManager × World :=
  match c.2 with
  | .getConnection a =>
    (s.1.GetConnection G c.1 s.2 a.schoolCode a.host a.port a.dbName a.user a.encryptedPassword).2
  | .closeConnection schoolCode => s.1.CloseConnection s.2 schoolCode
  | .closeAllConnections => s.1.CloseAllConnections s.2
  | .dropTenantDatabase mainDB schoolCode dbName =>
    (s.1.DropTenantDatabase c.1 s.2 mainDB schoolCode dbName).2

/-- The calls one after the other, each with the answers of its own environment. -/
def TenantManager.calls (G : AEAD) (tm : TenantManager) (w : World)
    (cs : List (Env × ManagerCall)) : TenantManager × World :=
  cs.foldl (TenantManager.call G) (tm, w)

/-- The invariant of the cache: every cached pool exists and has not been
closed, every pool that was closed exists, and no pool is cached twice. -/
def CacheInv (tm : TenantManager) (w : World) : Prop :=
  (∀ e ∈ tm.dbConnections, e.2 < w.nextPool ∧ ¬ w.closed e.2) ∧
  (∀ p, w.closed p → p < w.nextPool) ∧
  (tm.dbConnections.map Prod.snd).Nodup

/-- The call is one of `Cipher.Encrypt`. -/
def Event.isEncrypt : Event → Bool
  | .encrypt _ => true
  | _ => false

/-- The call is a read of the random source. -/
def Event.isRandRead : Event → Bool
  | .randRead _ => true
  | _ => false

/-! ## unicode: the character classes of `password.go` -/

/-- The range tables `unicode.Upper`, `unicode.Lower`, `unicode.Number`,
`unicode.Punct` and `unicode.Symbol`, which the Go library consults for runes
beyond Latin-1. -/
structure UnicodeTables where
  Upper : Rune → Bool
  Lower : Rune → Bool
  Number : Rune → Bool
  Punct : Rune → Bool
  Symbol : Rune → Bool

/-- `unicode.MaxLatin1`. -/
def MaxLatin1 : Rune := 0xFF

/-- `unicode.IsUpper`: for Latin-1 the table `properties` marks `A` to `Z` and
U+00C0 to U+00DE without the sign U+00D7 as upper case letters. -/
def IsUpper (U : UnicodeTables) (r : Rune) : Bool :=
  if r ≤ MaxLatin1 then
    (0x41 ≤ r && r ≤ 0x5A) || (0xC0 ≤ r && r ≤ 0xDE && r != 0xD7)
  else U.Upper r

/-- `unicode.IsLower`: for Latin-1 the table `properties` marks `a` to `z`, the
micro sign U+00B5 and U+00DF to U+00FF without the sign U+00F7 as lower case
letters. -/
def IsLower (U : UnicodeTables) (r : Rune) : Bool :=
  if r ≤ MaxLatin1 then
    (0x61 ≤ r && r ≤ 0x7A) || r == 0xB5 || (0xDF ≤ r && r ≤ 0xFF && r != 0xF7)
  else U.Lower r

/-- `unicode.IsNumber`: for Latin-1 the digits, the superscripts U+00B2, U+00B3,
U+00B9 and the fractions U+00BC to U+00BE. -/
def IsNumber (U : UnicodeTables) (r : Rune) : Bool :=
  if r ≤ MaxLatin1 then
    (0x30 ≤ r && r ≤ 0x39) || r == 0xB2 || r == 0xB3 || r == 0xB9 || (0xBC ≤ r && r ≤ 0xBE)
  else U.Number r

/-- The Latin-1 runes that the table `properties` marks as punctuation. -/
def latin1Punct : List Rune :=
  [0x21, 0x22, 0x23, 0x25, 0x26, 0x27, 0x28, 0x29, 0x2A, 0x2C, 0x2D, 0x2E, 0x2F, 0x3A, 0x3B,
   0x3F, 0x40, 0x5B, 0x5C, 0x5D, 0x5F, 0x7B, 0x7D, 0xA1, 0xA7, 0xAB, 0xB6, 0xB7, 0xBB, 0xBF]

/-- The Latin-1 runes that the table `properties` marks as symbols. -/
def latin1Symbol : List Rune :=
  [0x24, 0x2B, 0x3C, 0x3D, 0x3E, 0x5E, 0x60, 0x7C, 0x7E, 0xA2, 0xA3, 0xA4, 0xA5, 0xA6, 0xA8,
   0xA9, 0xAC, 0xAE, 0xAF, 0xB0, 0xB1, 0xB4, 0xB8, 0xD7, 0xF7]

/-- `unicode.IsPunct`. -/
def IsPunct (U : UnicodeTables) (r : Rune) : Bool :=
  if r ≤ MaxLatin1 then latin1Punct.contains r else U.Punct r

/-- `unicode.IsSymbol`. -/
def IsSymbol (U : UnicodeTables) (r : Rune) : Bool :=
  if r ≤ MaxLatin1 then latin1Symbol.contains r else U.Symbol r

/-! ## password.go -/

/-- The struct `PasswordComplexityError`. -/
structure PasswordComplexityError where
  Message : Bytes
  deriving DecidableEq, Repr

/-- The variables `hasUpper`, `hasLower`, `hasNumber` and `hasSpecial`. -/
structure PasswordFlags where
  hasUpper : Bool
  hasLower : Bool
  hasNumber : Bool
  hasSpecial : Bool
  deriving DecidableEq, Repr

/-- The body of the loop over the runes of the password: the `switch` takes the
first case that holds. -/
def classifyChar (U : UnicodeTables) (f : PasswordFlags) (char : Rune) : PasswordFlags :=
  if IsUpper U char then { f with hasUpper := true }
  else if IsLower U char then { f with hasLower := true }
  else if IsNumber U char then { f with hasNumber := true }
  else if IsPunct U char || IsSymbol U char then { f with hasSpecial := true }
  else f

/-- The slice `commonPasswords`. -/
def commonPasswords : List Bytes :=
  [ascii "Password1!", ascii "Qwerty123!", ascii "Admin123!", ascii "Welcome1!"]

/-- The function `ValidatePasswordComplexity`; `none` is the nil error. -/
def ValidatePasswordComplexity (U : UnicodeTables) (password : Bytes) :
    Option PasswordComplexityError :=
  if password.length < 8 then
    some { Message := ascii "Password must be at least 8 characters long" }
  else
    let flags := (rangeRunes password.length password).foldl (classifyChar U)
      { hasUpper := false, hasLower := false, hasNumber := false, hasSpecial := false }
    if !flags.hasUpper then
      some { Message := ascii "Password must contain at least one uppercase letter" }
    else if !flags.hasLower then
      some { Message := ascii "Password must contain at least one lowercase letter" }
    else if !flags.hasNumber then
      some { Message := ascii "Password must contain at least one number" }
    else if !flags.hasSpecial then
      some { Message := ascii "Password must contain at least one special character" }
    -- Check for common weak passwords
    else if commonPasswords.any (fun weak => password = weak) then
      some { Message := ascii "Password is too common, please choose a stronger password" }
    else none

/-! ## rate_limit.go -/

/-- A `time.Time`: an instant on the clock of the process, in nanoseconds since
the zero value `time.Time{}`.  `Before` and `After` are the strict order. -/
abbrev Time := Int

/-- One minute, as a `time.Duration`. -/
def minute : Int := 60 * second

/-- One hour, as a `time.Duration`. -/
def hour : Int := 60 * minute

/-- The struct `Visitor`. -/
structure Visitor where
  requests : List Time
  blockedUntil : Time
  deriving DecidableEq, Repr

/-- The struct `RateLimiter` (the mutex is not a field of the model); the map
`visitors` gives the visitor stored under an IP, if there is one. -/
structure RateLimiter where
  visitors : Bytes → Option Visitor
  limit : Int
  window : Int

/-- The function `NewRateLimiter`; the cleanup goroutine it starts is the event
`cleanup` of a run. -/
def NewRateLimiter (limit : Int) (window : Int) : RateLimiter :=
  { visitors := fun _ => none, limit := limit, window := window }

/-- The function `AuthRateLimiter`. -/
def AuthRateLimiter : RateLimiter := NewRateLimiter 5 (15 * minute)

/-- The function `GeneralRateLimiter`. -/
def GeneralRateLimiter : RateLimiter := NewRateLimiter 100 (1 * minute)

/-- The assignment `rl.visitors[ip] = visitor`. -/
def setVisitor (m : Bytes → Option Visitor) (ip : Bytes) (visitor : Visitor) :
    Bytes → Option Visitor :=
  fun k => if k = ip then some visitor else m k

/-- The method `RateLimiter.Allow`, called when `time.Now()` is `now`.  The calls
of the security logger are left out. -/
def RateLimiter.Allow (rl : RateLimiter) (now : Time) (ip : Bytes) : Bool × RateLimiter :=
  match rl.visitors ip with
  | none =>
    let visitor : Visitor := { requests := [now], blockedUntil := 0 }
    (true, { rl with visitors := setVisitor rl.visitors ip visitor })
  | some visitor =>
    -- Check if IP is temporarily blocked
    if now < visitor.blockedUntil then (false, rl)
    else
      -- Remove requests outside the window
      let cutoff := now - rl.window
      let validRequests := visitor.requests.filter (fun reqTime => cutoff < reqTime)
      -- Check if limit exceeded
      if (validRequests.length : Int) ≥ rl.limit then
        -- Block for 15 minutes after exceeding limit
        let visitor := { visitor with blockedUntil := now + 15 * minute }
        (false, { rl with visitors := setVisitor rl.visitors ip visitor })
      else
        -- Add current request
        let visitor := { visitor with requests := validRequests ++ [now] }
        (true, { rl with visitors := setVisitor rl.visitors ip visitor })

/-- The condition under which the loop of `cleanup` deletes a visitor. -/
def Visitor.stale (visitor : Visitor) (now : Time) : Bool :=
  match visitor.requests.getLast? with
  | none => true
  | some last => last < now - 24 * hour && visitor.blockedUntil < now

/-- One tick of the method `RateLimiter.cleanup`, when `time.Now()` is `now`. -/
def RateLimiter.cleanup (rl : RateLimiter) (now : Time) : RateLimiter :=
  { rl with visitors := fun ip => (rl.visitors ip).filter (fun visitor => !visitor.stale now) }

/-- What happens to a rate limiter: a request calls `Allow`, or the ticker of the
cleanup goroutine fires. -/
inductive LimiterEvent where
  | allow (now : Time) (ip : Bytes)
  | cleanup (now : Time)
  deriving DecidableEq, Repr

/-- When the event happens. -/
def LimiterEvent.time : LimiterEvent → Time
  | .allow now _ => now
  | .cleanup now => now

/-- The event is a tick of the cleanup goroutine. -/
def LimiterEvent.isCleanup : LimiterEvent → Bool
  | .allow _ _ => false
  | .cleanup _ => true

/-- What a call of `Allow` returned. -/
structure Decision where
  time : Time
  ip : Bytes
  allowed : Bool
  deriving DecidableEq, Repr

/-- One event, with the decisions taken so far. -/
def RateLimiter.step (s : RateLimiter × List Decision) (e : LimiterEvent) :
    RateLimiter × List Decision :=
  match e with
  | .allow now ip =>
    ((s.1.Allow now ip).2, s.2 ++ [{ time := now, ip := ip, allowed := (s.1.Allow now ip).1 }])
  | .cleanup now => (s.1.cleanup now, s.2)

/-- The events in their order, mutually excluded by the mutex. -/
def RateLimiter.run (rl : RateLimiter) (es : List LimiterEvent) : RateLimiter × List Decision :=
  es.foldl RateLimiter.step (rl, [])

/-- The times of the calls of `ip` that returned true. -/
def grantedTimes (log : List Decision) (ip : Bytes) : List Time :=
  (log.filter (fun d => d.ip = ip ∧ d.allowed = true)).map Decision.time

/-- How many calls of `ip` with a time from `lo` to `hi` returned true. -/
def granted (log : List Decision) (ip : Bytes) (lo hi : Time) : Nat :=
  ((grantedTimes log ip).filter (fun t => lo ≤ t ∧ t ≤ hi)).length

/-- The request times stored for an IP. -/
def storedRequests (rl : RateLimiter) (ip : Bytes) : List Time :=
  match rl.visitors ip with
  | none => []
  | some visitor => visitor.requests

/-- What links the times `G` granted to an IP so far and the request times `st`
stored for it, at the time `T` of the last event: the granted times are the stored
ones and older ones that have left the window; no stored time is later than `T` or
than the last stored one; at most `L` are stored; and no span shorter than `W`
holds more than `L` granted times. -/
def WindowInv (L W : Int) (T : Time) (G st : List Time) : Prop :=
  (∃ old, G.Perm (old ++ st) ∧ ∀ a ∈ old, a + W ≤ T) ∧
  (∀ a ∈ st, a ≤ T) ∧
  (st.length : Int) ≤ L ∧
  (∀ l, st.getLast? = some l → ∀ a ∈ st, a ≤ l) ∧
  (∀ lo hi : Int, hi - lo < W → ((G.filter (fun t => lo ≤ t ∧ t ≤ hi)).length : Int) ≤ L)

/-- The invariant of a run, for one IP, at the time `T` of the last event. -/
def LimiterInv (ip : Bytes) (L W : Int) (T : Time) (s : RateLimiter × List Decision) : Prop :=
  s.1.limit = L ∧ s.1.window = W ∧ WindowInv L W T (grantedTimes s.2 ip) (storedRequests s.1 ip)

/-! ## Lemmas on base64 -/

theorem decodeMap_encChar : ∀ n : Fin 64, decodeMap (encChar n.val) = some n.val := by
  decide

theorem encChar_ne_pad : ∀ n : Fin 64, encChar n.val ≠ padChar := by
  decide

theorem encChar_not_newline : ∀ n : Fin 64, isNewline (encChar n.val) = false := by
  decide

theorem decodeMap_enc (n : Nat) (h : n < 64) : decodeMap (encChar n) = some n :=
  decodeMap_encChar ⟨n, h⟩

theorem decodeMap_pad : decodeMap padChar = none := by decide

theorem toByte_val (a : Byte) (n : Nat) (h : n = a.val) : toByte n = a := by
  subst h
  apply Fin.ext
  simp [toByte, Fin.ofNat, Nat.mod_eq_of_lt a.isLt]

theorem filter_encodeToString (bs : Bytes) :
    (encodeToString bs).filter keep = encodeToString bs := by
  unfold encodeToString
  rw [List.filter_eq_self]
  induction bs using encodeWith.induct encChar with
  | case1 => simp [encodeWith]
  | case2 a =>
      intro c hc
      simp only [encodeToString, encodeWith, List.mem_cons, List.mem_singleton, List.mem_nil_iff,
        or_false] at hc
      have h1 := encChar_not_newline ⟨a.val / 4, by omega⟩
      have h2 := encChar_not_newline ⟨a.val % 4 * 16, by omega⟩
      have h3 : isNewline padChar = false := by decide
      rcases hc with rfl | rfl | rfl | rfl <;> simp_all [keep]
  | case3 a b =>
      intro c hc
      simp only [encodeToString, encodeWith, List.mem_cons, List.mem_singleton, List.mem_nil_iff,
        or_false] at hc
      have h1 := encChar_not_newline ⟨a.val / 4, by omega⟩
      have h2 := encChar_not_newline ⟨a.val % 4 * 16 + b.val / 16, by omega⟩
      have h3 := encChar_not_newline ⟨b.val % 16 * 4, by omega⟩
      have h4 : isNewline padChar = false := by decide
      rcases hc with rfl | rfl | rfl | rfl <;> simp_all [keep]
  | case4 a b c rest ih =>
      intro x hx
      simp only [encodeToString, encodeWith, List.mem_cons] at hx
      have h1 := encChar_not_newline ⟨a.val / 4, by omega⟩
      have h2 := encChar_not_newline ⟨a.val % 4 * 16 + b.val / 16, by omega⟩
      have h3 := encChar_not_newline ⟨b.val % 16 * 4 + c.val / 64, by omega⟩
      have h4 := encChar_not_newline ⟨c.val % 64, by omega⟩
      rcases hx with rfl | rfl | rfl | rfl | hx
      · simp_all [keep]
      · simp_all [keep]
      · simp_all [keep]
      · simp_all [keep]
      · exact ih x hx

theorem decodeQuanta_encodeToString (bs : Bytes) :
    decodeQuanta (encodeToString bs) = some bs := by
  unfold encodeToString
  induction bs using encodeWith.induct encChar with
  | case1 => simp [encodeToString, encodeWith, decodeQuanta]
  | case2 a =>
      simp only [encodeToString, encodeWith, decodeQuanta]
      rw [decodeMap_enc _ (by omega), decodeMap_enc _ (by omega), decodeMap_pad]
      simp only [and_self, if_true]
      congr 2
      exact toByte_val a _ (by omega)
  | case3 a b =>
      simp only [encodeToString, encodeWith, decodeQuanta]
      rw [decodeMap_enc _ (by omega), decodeMap_enc _ (by omega), decodeMap_enc _ (by omega),
        decodeMap_pad]
      simp only [and_self, if_true]
      rw [toByte_val a _ (by omega), toByte_val b _ (by omega)]
  | case4 a b c rest ih =>
      simp only [encodeToString, encodeWith, decodeQuanta]
      rw [decodeMap_enc _ (by omega), decodeMap_enc _ (by omega), decodeMap_enc _ (by omega),
        decodeMap_enc _ (by omega), ih]
      simp only
      rw [toByte_val a _ (by omega), toByte_val b _ (by omega), toByte_val c _ (by omega)]

/-- Decoding what `EncodeToString` produced gives the bytes back. -/
theorem decodeString_encodeToString (bs : Bytes) :
    decodeString (encodeToString bs) = some bs := by
  rw [decodeString, filter_encodeToString, decodeQuanta_encodeToString]

theorem flipByte_length (b : Bytes) (i : Nat) (m : Byte) :
    (flipByte b i m).length = b.length := by
  induction b generalizing i with
  | nil => rfl
  | cons x xs ih => cases i <;> simp [flipByte, ih]

theorem subMask_addMask (key nonce : Bytes) (i : Nat) (bs : Bytes) :
    subMask key nonce i (addMask key nonce i bs) = bs := by
  induction bs generalizing i with
  | nil => rfl
  | cons b bs ih => simp [addMask, subMask, ih]

theorem sumTag_length (key nonce ct ad : Bytes) : (sumTag key nonce ct ad).length = 16 := by
  simp [sumTag]

theorem sumAEAD_correct : sumAEAD.Correct := by
  intro key nonce pt ad _ _
  have hl := sumTag_length key nonce (addMask key nonce 0 pt) ad
  simp only [sumAEAD]
  rw [if_neg (by simp only [List.length_append]; omega)]
  have hlen : (addMask key nonce 0 pt ++ sumTag key nonce (addMask key nonce 0 pt) ad).length - 16
      = (addMask key nonce 0 pt).length := by
    simp only [List.length_append]; omega
  rw [hlen, List.drop_left, List.take_left, if_pos rfl, subMask_addMask]

theorem padKey_eq (fuel : Nat) (kb : Bytes) (h : 32 - kb.length ≤ fuel) :
    padKey fuel kb = kb ++ List.replicate (32 - kb.length) 0 := by
  induction fuel generalizing kb with
  | zero =>
      have h0 : 32 - kb.length = 0 := by omega
      simp [padKey, h0]
  | succ n ih =>
      unfold padKey
      split
      · next hlt =>
          rw [ih _ (by simp only [List.length_append, List.length_singleton]; omega)]
          have h1 : 32 - kb.length = (32 - (kb ++ [0]).length) + 1 := by
            simp only [List.length_append, List.length_singleton]; omega
          rw [h1, List.replicate_succ, List.append_assoc]
          rfl
      · next hge =>
          have h0 : 32 - kb.length = 0 := by omega
          simp [h0]

theorem NewCipher_key_length (s : Bytes) : (NewCipher s).1.key.length = 32 := by
  simp only [NewCipher]
  split
  · next hlt =>
      rw [padKey_eq _ _ (by omega)]
      simp only [List.length_append, List.length_replicate]; omega
  · split
    · next hgt => simp only [List.length_take]; omega
    · omega

theorem aesNewCipher_of_length (key : Bytes) (h : key.length = 32) :
    aesNewCipher key = some key := by
  simp [aesNewCipher, h]

theorem Decrypt_unfold (G : AEAD) (c : Cipher) (hk : c.key.length = 32) (s : Bytes) :
    c.Decrypt G s =
      match decodeString s with
      | none => ([], some .decodeBase64)
      | some ct =>
        if ct.length < gcmNonceSize then ([], some .tooShort)
        else
          match G.Open c.key (ct.take gcmNonceSize) (ct.drop gcmNonceSize) [] with
          | none => ([], some .decryptionFailed)
          | some plaintext => (plaintext, none) := by
  simp only [Cipher.Decrypt, aesNewCipher_of_length _ hk, cipherNewGCM, gcmOpen]

theorem Encrypt_unfold (G : AEAD) (c : Cipher) (hk : c.key.length = 32) (nonce p : Bytes)
    (hn : nonce.length = gcmNonceSize) :
    c.Encrypt G (some nonce) p = (encodeToString (nonce ++ G.Seal c.key nonce p []), none) := by
  simp only [Cipher.Encrypt, aesNewCipher_of_length _ hk, cipherNewGCM, readFull, gcmSeal]
  rw [if_pos (by omega)]
  simp only
  rw [← hn, List.take_length]

/-! ## Secret Cipher: claims C1 to C4 -/

/-- C1: for every key `k`, plaintext `p` and 12-byte nonce drawn from the random
source, `NewCipher k` and `Encrypt` under it succeed, and `Decrypt` under the same
cipher applied to the blob that `Encrypt` returned succeeds and returns exactly `p`
(for every AEAD that honours the `Seal`/`Open` contract). -/
theorem decrypt_encrypt_roundtrip (G : AEAD) (hG : G.Correct) (k p nonce : Bytes)
    (hn : nonce.length = 12) :
    (NewCipher k).2 = none ∧
      ((NewCipher k).1.Encrypt G (some nonce) p).2 = none ∧
      (NewCipher k).1.Decrypt G (((NewCipher k).1.Encrypt G (some nonce) p).1) = (p, none) := by
  refine ⟨rfl, ?_⟩
  have hk := NewCipher_key_length k
  rw [Encrypt_unfold G _ hk nonce p hn, Decrypt_unfold G _ hk]
  refine ⟨rfl, ?_⟩
  simp only [decodeString_encodeToString]
  rw [if_neg (by simp only [List.length_append, gcmNonceSize]; omega)]
  have h12 : gcmNonceSize = nonce.length := hn.symm
  rw [h12, List.take_left, List.drop_left, hG _ _ _ _ hk hn]

theorem decrypt_encrypt_roundtrip_witness :
    sumAEAD.Correct ∧ (ascii "0123456789ab").length = 12 ∧
    (NewCipher (ascii "tenant-secret")).2 = none ∧
    ((NewCipher (ascii "tenant-secret")).1.Encrypt sumAEAD (some (ascii "0123456789ab"))
      (ascii "s3cr3t")).2 = none ∧
    (NewCipher (ascii "tenant-secret")).1.Decrypt sumAEAD
      (((NewCipher (ascii "tenant-secret")).1.Encrypt sumAEAD (some (ascii "0123456789ab"))
        (ascii "s3cr3t")).1) = (ascii "s3cr3t", none) :=
  ⟨sumAEAD_correct, by decide,
    decrypt_encrypt_roundtrip sumAEAD sumAEAD_correct _ _ _ (by decide)⟩

/-- C3: for every input string `s`, if `s` is not valid standard base64, or decodes
to fewer than 12 bytes, `Decrypt` returns a format error; and whenever `Decrypt`
returns an error its plaintext result is the empty string. -/
theorem decrypt_format_error (G : AEAD) (k s : Bytes) :
    ((decodeString s = none ∨ ∃ ct, decodeString s = some ct ∧ ct.length < 12) →
      ∃ e, (NewCipher k).1.Decrypt G s = ([], some e) ∧ e.isFormat = true) ∧
    (((NewCipher k).1.Decrypt G s).2 ≠ none → ((NewCipher k).1.Decrypt G s).1 = []) := by
  have hk := NewCipher_key_length k
  rw [Decrypt_unfold G _ hk]
  constructor
  · rintro (h | ⟨ct, h, hlt⟩)
    · exact ⟨.decodeBase64, by simp only [h], rfl⟩
    · refine ⟨.tooShort, ?_, rfl⟩
      simp only [h]
      rw [if_pos (by simpa [gcmNonceSize] using hlt)]
  · cases decodeString s with
    | none => intro _; rfl
    | some ct =>
        simp only
        by_cases hlt : ct.length < gcmNonceSize
        · rw [if_pos hlt]; intro _; rfl
        · rw [if_neg hlt]
          cases G.Open _ (ct.take gcmNonceSize) (ct.drop gcmNonceSize) [] with
          | none => intro _; rfl
          | some pt => intro herr; exact absurd rfl herr

theorem decrypt_format_error_witness :
    (∃ e, (NewCipher (ascii "tenant-secret")).1.Decrypt sumAEAD (ascii "not base64!")
        = ([], some e) ∧ e.isFormat = true) ∧
    (∃ e, (NewCipher (ascii "tenant-secret")).1.Decrypt sumAEAD (ascii "c2hvcnQ=")
        = ([], some e) ∧ e.isFormat = true) :=
  ⟨(decrypt_format_error sumAEAD (ascii "tenant-secret") (ascii "not base64!")).1
      (Or.inl (by decide)),
   (decrypt_format_error sumAEAD (ascii "tenant-secret") (ascii "c2hvcnQ=")).1
      (Or.inr ⟨ascii "short", by decide, by decide⟩)⟩

/-- C4: for every secret `s`, `NewCipher s` succeeds and its key has exactly 32
bytes: the first 32 bytes of `s` when `len(s) >= 32`, and `s` followed by
`32 - len(s)` zero bytes when `len(s) < 32`. -/
theorem NewCipher_key (s : Bytes) :
    (NewCipher s).2 = none ∧ (NewCipher s).1.key.length = 32 ∧
      (32 ≤ s.length → (NewCipher s).1.key = s.take 32) ∧
      (s.length < 32 → (NewCipher s).1.key = s ++ List.replicate (32 - s.length) 0) := by
  refine ⟨rfl, NewCipher_key_length s, ?_, ?_⟩
  · intro h
    simp only [NewCipher]
    rw [if_neg (by omega)]
    split
    · rfl
    · next hng =>
        have : s.length = 32 := by omega
        rw [← this, List.take_length]
  · intro h
    simp only [NewCipher]
    rw [if_pos h, padKey_eq _ _ (by omega)]

theorem NewCipher_key_witness :
    (NewCipher (ascii "tenant-secret")).1.key
        = ascii "tenant-secret" ++ List.replicate 19 0 ∧
    (NewCipher (ascii "0123456789abcdef0123456789abcdef-and-more")).1.key
        = ascii "0123456789abcdef0123456789abcdef" :=
  ⟨(NewCipher_key (ascii "tenant-secret")).2.2.2 (by decide),
   (NewCipher_key (ascii "0123456789abcdef0123456789abcdef-and-more")).2.2.1 (by decide)⟩

/-! ## Lemmas on the connection cache -/

theorem mapGet_mapDelete_self (m : PoolMap) (k : Bytes) : mapGet (mapDelete m k) k = none := by
  induction m with
  | nil => rfl
  | cons e m ih =>
      obtain ⟨k', v⟩ := e
      by_cases h : k' = k
      · simpa [mapDelete, List.filter_cons, h] using ih
      · simpa [mapDelete, List.filter_cons, h, mapGet] using ih

theorem mapGet_append (m₁ m₂ : PoolMap) (k : Bytes) :
    mapGet (m₁ ++ m₂) k = (mapGet m₁ k).orElse (fun _ => mapGet m₂ k) := by
  induction m₁ with
  | nil => rfl
  | cons e m ih =>
      obtain ⟨k', v⟩ := e
      by_cases h : k' = k
      · simp [mapGet, h]
      · simp [mapGet, h, ih]

theorem mapGet_mapSet_self (m : PoolMap) (k : Bytes) (v : Pool) :
    mapGet (mapSet m k v) k = some v := by
  simp [mapSet, mapGet_append, mapGet_mapDelete_self, mapGet]

theorem mapDelete_of_mapGet_none (m : PoolMap) (k : Bytes) (h : mapGet m k = none) :
    mapDelete m k = m := by
  induction m with
  | nil => rfl
  | cons e m ih =>
      obtain ⟨k', v⟩ := e
      by_cases hk : k' = k
      · simp [mapGet, hk] at h
      · simp only [mapGet, hk, if_false] at h
        have := ih h
        simp only [mapDelete] at this ⊢
        rw [List.filter_cons_of_pos (by simpa using hk), this]

/-- The two ways `dial` ends: with the pool it created, which is the next pool
of the world and answered the ping, or with an error and no pool. -/
theorem dial_cases (G : AEAD) (env : Env) (tm : TenantManager) (w : World)
    (host : Bytes) (port : Int) (dbName user enc : Bytes) :
    (∃ w', tm.dial G env w host port dbName user enc = ((some w.nextPool, none), w') ∧
        env.ping w.nextPool = true ∧ w'.nextPool = w.nextPool + 1) ∨
    (∃ e w', tm.dial G env w host port dbName user enc = ((none, some e), w') ∧
        w'.nextPool ≤ w.nextPool + 1) := by
  unfold TenantManager.dial
  rcases hd : tm.cipher.Decrypt G enc with ⟨password, _ | err⟩
  · simp only
    cases hp : env.parseConfig (connDSN user password host port dbName) with
    | none => exact Or.inr ⟨_, _, rfl, by simp [World.log]⟩
    | some config =>
        simp only
        by_cases hn : env.newWithConfig { config with
            MaxConns := tm.maxOpenConns, MinConns := 1,
            MaxConnLifetime := tm.connMaxLifetime, ConnectTimeout := tm.connectionTimeout } = true
        · rw [if_pos hn]
          by_cases hping : env.ping w.nextPool = true
          · left
            simp only [World.log, hping, if_true]
            exact ⟨_, rfl, trivial, rfl⟩
          · right
            simp only [World.log, hping]
            exact ⟨_, _, rfl, le_refl _⟩
        · rw [if_neg hn]
          exact Or.inr ⟨_, _, rfl, by simp [World.log]⟩
  · exact Or.inr ⟨_, _, rfl, by simp [World.log]⟩

/-- The two ways `connect` ends: the created pool is returned and cached, or an
error is returned and the cache is as it was. -/
theorem connect_cases (G : AEAD) (env : Env) (tm : TenantManager) (w : World)
    (code host : Bytes) (port : Int) (dbName user enc : Bytes) :
    (∃ w', tm.connect G env w code host port dbName user enc =
        ((some w.nextPool, none),
          { tm with dbConnections := mapSet tm.dbConnections code w.nextPool }, w') ∧
        env.ping w.nextPool = true) ∨
    (∃ e w', tm.connect G env w code host port dbName user enc = ((none, some e), tm, w')) := by
  unfold TenantManager.connect
  rcases dial_cases G env tm w host port dbName user enc with ⟨w', h, hp, _⟩ | ⟨e, w', h, _⟩
  · rw [h]; exact Or.inl ⟨w', rfl, hp⟩
  · rw [h]; exact Or.inr ⟨e, w', rfl⟩

/-! ## Connection Pool Cache: claims C5 to C9 -/

/-- C5: if the cache holds a pool for `tenantCode` and that pool's ping succeeds,
`GetConnection` returns that same pool with a nil error and leaves the manager, and
so the cache, unchanged; the only call it makes is that ping: no decryption, no
pool creation.  This holds for every host, port, database name, user and
encrypted password, decryptable or not. -/
theorem getConnection_cache_hit (G : AEAD) (env : Env) (tm : TenantManager) (w : World)
    (code host : Bytes) (port : Int) (dbName user enc : Bytes) (conn : Pool)
    (hc : mapGet tm.dbConnections code = some conn) (hp : env.ping conn = true) :
    (tm.GetConnection G env w code host port dbName user enc).1 = (some conn, none) ∧
    (tm.GetConnection G env w code host port dbName user enc).2.1 = tm ∧
    (tm.GetConnection G env w code host port dbName user enc).2.2.trace
      = w.trace ++ [Event.ping conn true] ∧
    (tm.GetConnection G env w code host port dbName user enc).2.2.nextPool = w.nextPool := by
  simp [TenantManager.GetConnection, hc, hp, World.log]

theorem getConnection_cache_hit_witness :
    ((exampleManager [(ascii "eis", 3)]).cipher.Decrypt sumAEAD (ascii "not a blob")).2 ≠ none ∧
    ((exampleManager [(ascii "eis", 3)]).GetConnection sumAEAD
        (exampleEnv (fun _ => true) (fun _ _ => true)) (exampleWorld 4)
        (ascii "eis") (ascii "postgres") 5432 (ascii "school_eis_db") (ascii "school_eis_user")
        (ascii "not a blob")).1 = (some 3, none) ∧
    ((exampleManager [(ascii "eis", 3)]).GetConnection sumAEAD
        (exampleEnv (fun _ => true) (fun _ _ => true)) (exampleWorld 4)
        (ascii "eis") (ascii "postgres") 5432 (ascii "school_eis_db") (ascii "school_eis_user")
        (ascii "not a blob")).2.1 = exampleManager [(ascii "eis", 3)] ∧
    ((exampleManager [(ascii "eis", 3)]).GetConnection sumAEAD
        (exampleEnv (fun _ => true) (fun _ _ => true)) (exampleWorld 4)
        (ascii "eis") (ascii "postgres") 5432 (ascii "school_eis_db") (ascii "school_eis_user")
        (ascii "not a blob")).2.2.trace = [] ++ [Event.ping 3 true] ∧
    ((exampleManager [(ascii "eis", 3)]).GetConnection sumAEAD
        (exampleEnv (fun _ => true) (fun _ _ => true)) (exampleWorld 4)
        (ascii "eis") (ascii "postgres") 5432 (ascii "school_eis_db") (ascii "school_eis_user")
        (ascii "not a blob")).2.2.nextPool = 4 :=
  ⟨by decide,
   getConnection_cache_hit sumAEAD (exampleEnv (fun _ => true) (fun _ _ => true))
     (exampleManager [(ascii "eis", 3)]) (exampleWorld 4) (ascii "eis") (ascii "postgres") 5432
     (ascii "school_eis_db") (ascii "school_eis_user") (ascii "not a blob") 3
     (by decide) rfl⟩

/-- C6: if the cache holds a pool `P` for `tenantCode` (a pool that exists, so
numbered below the next pool of the world) and the ping of `P` fails, then
`GetConnection` does not return `P`: either it returns the pool it has just created,
which answered its ping and is then the cached entry for `tenantCode`, or it returns
an error and the cache has no entry for `tenantCode`. -/
theorem getConnection_dead_entry (G : AEAD) (env : Env) (tm : TenantManager) (w : World)
    (code host : Bytes) (port : Int) (dbName user enc : Bytes) (P : Pool)
    (hc : mapGet tm.dbConnections code = some P) (hp : env.ping P = false)
    (hP : P < w.nextPool) :
    (tm.GetConnection G env w code host port dbName user enc).1.1 ≠ some P ∧
    (((tm.GetConnection G env w code host port dbName user enc).1 = (some w.nextPool, none) ∧
        env.ping w.nextPool = true ∧
        mapGet (tm.GetConnection G env w code host port dbName user enc).2.1.dbConnections code
          = some w.nextPool) ∨
     (∃ e, (tm.GetConnection G env w code host port dbName user enc).1 = (none, some e) ∧
        mapGet (tm.GetConnection G env w code host port dbName user enc).2.1.dbConnections code
          = none)) := by
  have hG : tm.GetConnection G env w code host port dbName user enc =
      TenantManager.connect G env
        { tm with dbConnections := mapDelete tm.dbConnections code }
        (w.log (.ping P false)) code host port dbName user enc := by
    simp [TenantManager.GetConnection, hc, hp]
  rw [hG]
  rcases connect_cases G env { tm with dbConnections := mapDelete tm.dbConnections code }
      (w.log (.ping P false)) code host port dbName user enc with ⟨w', h, hping⟩ | ⟨e, w', h⟩
  · rw [h]
    have hnext : (w.log (.ping P false)).nextPool = w.nextPool := rfl
    rw [hnext] at hping ⊢
    refine ⟨?_, Or.inl ⟨rfl, hping, ?_⟩⟩
    · intro heq
      have heq' : w.nextPool = P := Option.some.inj heq
      exact (Nat.ne_of_lt hP) heq'.symm
    · exact mapGet_mapSet_self _ _ _
  · rw [h]
    refine ⟨by simp, Or.inr ⟨e, rfl, ?_⟩⟩
    exact mapGet_mapDelete_self _ _

theorem getConnection_dead_entry_witness :
    ((exampleManager [(ascii "eis", 3)]).GetConnection sumAEAD
        (exampleEnv (fun p => decide (p ≠ 3)) (fun _ _ => true)) (exampleWorld 4)
        (ascii "eis") (ascii "postgres") 5432 (ascii "school_eis_db") (ascii "school_eis_user")
        exampleBlob).1 = (some 4, none) ∧
    ((exampleManager [(ascii "eis", 3)]).GetConnection sumAEAD
        (exampleEnv (fun p => decide (p ≠ 3)) (fun _ _ => true)) (exampleWorld 4)
        (ascii "eis") (ascii "postgres") 5432 (ascii "school_eis_db") (ascii "school_eis_user")
        exampleBlob).1.1 ≠ some 3 :=
  ⟨by decide,
   (getConnection_dead_entry sumAEAD (exampleEnv (fun p => decide (p ≠ 3)) (fun _ _ => true))
     (exampleManager [(ascii "eis", 3)]) (exampleWorld 4) (ascii "eis") (ascii "postgres") 5432
     (ascii "school_eis_db") (ascii "school_eis_user") exampleBlob 3
     (by decide) (by decide) (by decide)).1⟩

/-- When the password does not decrypt, `connect` stops right after the
decryption. -/
theorem connect_decrypt_fails (G : AEAD) (env : Env) (tm : TenantManager) (w : World)
    (code host : Bytes) (port : Int) (dbName user enc : Bytes) (e : CryptoError)
    (hdec : (tm.cipher.Decrypt G enc).2 = some e) :
    tm.connect G env w code host port dbName user enc
      = ((none, some (.decryptPassword e)), tm, w.log (.decrypt enc)) := by
  unfold TenantManager.connect TenantManager.dial
  rcases hd : tm.cipher.Decrypt G enc with ⟨password, _ | err⟩
  · rw [hd] at hdec; simp at hdec
  · rw [hd] at hdec
    simp only [Option.some.injEq] at hdec
    subst hdec
    rfl

/-- C8: on a cache miss, or after the eviction of a dead entry, if decrypting
`encryptedPassword` fails then `GetConnection` returns an error, and the trace of
calls grows by the decryption alone (after the failed ping in the eviction case):
no DSN is parsed, no pool is created and none is pinged. -/
theorem getConnection_decrypt_fails (G : AEAD) (env : Env) (tm : TenantManager) (w : World)
    (code host : Bytes) (port : Int) (dbName user enc : Bytes) (e : CryptoError)
    (hdec : (tm.cipher.Decrypt G enc).2 = some e) :
    (mapGet tm.dbConnections code = none →
      tm.GetConnection G env w code host port dbName user enc
        = ((none, some (.decryptPassword e)), tm, w.log (.decrypt enc))) ∧
    (∀ conn, mapGet tm.dbConnections code = some conn → env.ping conn = false →
      tm.GetConnection G env w code host port dbName user enc
        = ((none, some (.decryptPassword e)),
           { tm with dbConnections := mapDelete tm.dbConnections code },
           (w.log (.ping conn false)).log (.decrypt enc))) := by
  constructor
  · intro hmiss
    simp only [TenantManager.GetConnection, hmiss]
    exact connect_decrypt_fails G env tm w code host port dbName user enc e hdec
  · intro conn hc hp
    simp only [TenantManager.GetConnection, hc, hp]
    exact connect_decrypt_fails G env _ _ code host port dbName user enc e hdec

theorem getConnection_decrypt_fails_witness :
    ((exampleManager []).cipher.Decrypt sumAEAD (ascii "not a blob")).2
        = some .decodeBase64 ∧
    (exampleManager []).GetConnection sumAEAD
        (exampleEnv (fun _ => true) (fun _ _ => true)) (exampleWorld 4)
        (ascii "eis") (ascii "postgres") 5432 (ascii "school_eis_db") (ascii "school_eis_user")
        (ascii "not a blob")
      = ((none, some (.decryptPassword .decodeBase64)), exampleManager [],
          (exampleWorld 4).log (.decrypt (ascii "not a blob"))) :=
  ⟨by decide,
   (getConnection_decrypt_fails sumAEAD (exampleEnv (fun _ => true) (fun _ _ => true))
     (exampleManager []) (exampleWorld 4) (ascii "eis") (ascii "postgres") 5432
     (ascii "school_eis_db") (ascii "school_eis_user") (ascii "not a blob") .decodeBase64
     (by decide)).1 (by decide)⟩

/-- When the new pool does not answer its ping, `connect` closes it and leaves the
cache as it is. -/
theorem connect_ping_fails (G : AEAD) (env : Env) (tm : TenantManager) (w : World)
    (code host : Bytes) (port : Int) (dbName user enc password : Bytes) (config : PoolConfig)
    (hdec : tm.cipher.Decrypt G enc = (password, none))
    (hparse : env.parseConfig (connDSN user password host port dbName) = some config)
    (hnew : env.newWithConfig { config with
        MaxConns := tm.maxOpenConns, MinConns := 1,
        MaxConnLifetime := tm.connMaxLifetime, ConnectTimeout := tm.connectionTimeout } = true)
    (hping : env.ping w.nextPool = false) :
    tm.connect G env w code host port dbName user enc
      = ((none, some .pingDatabase), tm,
          { w with
            nextPool := w.nextPool + 1
            trace := w.trace ++
              [Event.decrypt enc, Event.parseConfig (connDSN user password host port dbName),
               Event.newWithConfig { config with
                  MaxConns := tm.maxOpenConns, MinConns := 1,
                  MaxConnLifetime := tm.connMaxLifetime,
                  ConnectTimeout := tm.connectionTimeout } (some w.nextPool),
               Event.ping w.nextPool false, Event.close w.nextPool] }) := by
  unfold TenantManager.connect TenantManager.dial
  simp only [hdec, hparse, World.log, hnew, hping, if_true, List.append_assoc,
    List.singleton_append, List.cons_append, List.nil_append]
  simp

/-- C9: if the first ping of the newly created pool fails, `GetConnection` closes
that pool, returns the ping error and does not insert the pool into the cache: the
cache is the one before the call without the evicted entry, and has no entry for
`tenantCode`. -/
theorem getConnection_first_ping_fails (G : AEAD) (env : Env) (tm : TenantManager) (w : World)
    (code host : Bytes) (port : Int) (dbName user enc password : Bytes) (config : PoolConfig)
    (hmiss : mapGet tm.dbConnections code = none ∨
      ∃ conn, mapGet tm.dbConnections code = some conn ∧ env.ping conn = false)
    (hdec : tm.cipher.Decrypt G enc = (password, none))
    (hparse : env.parseConfig (connDSN user password host port dbName) = some config)
    (hnew : env.newWithConfig { config with
        MaxConns := tm.maxOpenConns, MinConns := 1,
        MaxConnLifetime := tm.connMaxLifetime, ConnectTimeout := tm.connectionTimeout } = true)
    (hping : env.ping w.nextPool = false) :
    (tm.GetConnection G env w code host port dbName user enc).1 = (none, some .pingDatabase) ∧
    (∃ cfg, Event.newWithConfig cfg (some w.nextPool) ∈
      (tm.GetConnection G env w code host port dbName user enc).2.2.trace) ∧
    (tm.GetConnection G env w code host port dbName user enc).2.2.closed w.nextPool ∧
    (tm.GetConnection G env w code host port dbName user enc).2.1.dbConnections
      = mapDelete tm.dbConnections code ∧
    mapGet (tm.GetConnection G env w code host port dbName user enc).2.1.dbConnections code
      = none := by
  rcases hmiss with hmiss | ⟨conn, hc, hp⟩
  · have hG : tm.GetConnection G env w code host port dbName user enc
        = tm.connect G env w code host port dbName user enc := by
      simp only [TenantManager.GetConnection, hmiss]
    have h := connect_ping_fails G env tm w code host port dbName user enc password config
      hdec hparse hnew hping
    rw [hG, h]
    refine ⟨rfl, ⟨{ config with
        MaxConns := tm.maxOpenConns, MinConns := 1,
        MaxConnLifetime := tm.connMaxLifetime, ConnectTimeout := tm.connectionTimeout }, ?_⟩,
      ?_, (mapDelete_of_mapGet_none _ _ hmiss).symm, hmiss⟩
    · simp
    · simp [World.closed]
  · have hG : tm.GetConnection G env w code host port dbName user enc
        = TenantManager.connect G env
            { tm with dbConnections := mapDelete tm.dbConnections code }
            (w.log (.ping conn false)) code host port dbName user enc := by
      simp only [TenantManager.GetConnection, hc, hp]
      rfl
    have h := connect_ping_fails G env
      { tm with dbConnections := mapDelete tm.dbConnections code }
      (w.log (.ping conn false)) code host port dbName user enc password config
      hdec hparse hnew hping
    rw [hG, h]
    refine ⟨rfl, ⟨{ config with
        MaxConns := tm.maxOpenConns, MinConns := 1,
        MaxConnLifetime := tm.connMaxLifetime, ConnectTimeout := tm.connectionTimeout }, ?_⟩,
      ?_, rfl, mapGet_mapDelete_self _ _⟩
    · simp [World.log]
    · simp [World.closed, World.log]

theorem getConnection_first_ping_fails_witness :
    ((exampleManager []).GetConnection sumAEAD
        (exampleEnv (fun p => decide (p ≠ 4)) (fun _ _ => true)) (exampleWorld 4)
        (ascii "eis") (ascii "postgres") 5432 (ascii "school_eis_db") (ascii "school_eis_user")
        exampleBlob).1 = (none, some .pingDatabase) ∧
    ((exampleManager []).GetConnection sumAEAD
        (exampleEnv (fun p => decide (p ≠ 4)) (fun _ _ => true)) (exampleWorld 4)
        (ascii "eis") (ascii "postgres") 5432 (ascii "school_eis_db") (ascii "school_eis_user")
        exampleBlob).2.2.closed 4 ∧
    ((exampleManager []).GetConnection sumAEAD
        (exampleEnv (fun p => decide (p ≠ 4)) (fun _ _ => true)) (exampleWorld 4)
        (ascii "eis") (ascii "postgres") 5432 (ascii "school_eis_db") (ascii "school_eis_user")
        exampleBlob).2.1.dbConnections = [] :=
  have h := getConnection_first_ping_fails sumAEAD
    (exampleEnv (fun p => decide (p ≠ 4)) (fun _ _ => true)) (exampleManager [])
    (exampleWorld 4) (ascii "eis") (ascii "postgres") 5432 (ascii "school_eis_db")
    (ascii "school_eis_user") exampleBlob (ascii "pwd")
    { dsn := connDSN (ascii "school_eis_user") (ascii "pwd") (ascii "postgres") 5432
        (ascii "school_eis_db"),
      MaxConns := 4, MinConns := 0, MaxConnLifetime := 3600 * second, ConnectTimeout := 0 }
    (Or.inl (by decide)) (by decide) rfl rfl (by decide)
  ⟨h.1, h.2.2.1, h.2.2.2.1⟩

/-! ## Interleaved calls: claim C7 -/

/-- A call that runs alone through its steps is the method `GetConnection`: five
steps from the start reach `done` with the result, the manager and the world of
`GetConnection`. -/
theorem runCall_eq_GetConnection (G : AEAD) (env : Env) (tm : TenantManager) (w : World)
    (a : CallArgs) :
    TenantManager.runCall G env a 5 .start tm w
      = (.done (tm.GetConnection G env w a.schoolCode a.host a.port a.dbName a.user
            a.encryptedPassword).1,
         (tm.GetConnection G env w a.schoolCode a.host a.port a.dbName a.user
            a.encryptedPassword).2) := by
  have hconn : ∀ (tm : TenantManager) (w : World) (n : Nat),
      TenantManager.runCall G env a (n + 2) .dial tm w
        = (.done (tm.connect G env w a.schoolCode a.host a.port a.dbName a.user
              a.encryptedPassword).1,
           (tm.connect G env w a.schoolCode a.host a.port a.dbName a.user
              a.encryptedPassword).2) := by
    intro tm w n
    have hdone : ∀ (k : Nat) r (tm : TenantManager) (w : World),
        TenantManager.runCall G env a k (.done r) tm w = (.done r, tm, w) := by
      intro k
      induction k with
      | zero => intros; rfl
      | succ k ih => intro r tm w; simp only [TenantManager.runCall, TenantManager.stepCall, ih]
    rcases dial_cases G env tm w a.host a.port a.dbName a.user a.encryptedPassword with
      ⟨w', h, _, _⟩ | ⟨e, w', h, _⟩
    · simp only [TenantManager.runCall, TenantManager.stepCall, TenantManager.connect, h, hdone]
    · simp only [TenantManager.runCall, TenantManager.stepCall, TenantManager.connect, h, hdone]
  cases hc : mapGet tm.dbConnections a.schoolCode with
  | none =>
      have h1 : TenantManager.runCall G env a 5 .start tm w
          = TenantManager.runCall G env a 4 .dial tm w := by
        simp only [TenantManager.runCall, TenantManager.stepCall, hc]
      rw [h1, hconn tm w 2]
      simp only [TenantManager.GetConnection, hc]
  | some conn =>
      by_cases hp : env.ping conn = true
      · simp [TenantManager.runCall, TenantManager.stepCall, TenantManager.GetConnection, hc, hp]
      · have h1 : TenantManager.runCall G env a 5 .start tm w
            = TenantManager.runCall G env a 2 .dial
                { tm with dbConnections := mapDelete tm.dbConnections a.schoolCode }
                (w.log (.ping conn (env.ping conn))) := by
          simp only [TenantManager.runCall, TenantManager.stepCall, hc, hp]
          simp
        rw [h1, hconn _ _ 0]
        simp only [TenantManager.GetConnection, hc, hp]
        simp

theorem dial_world (G : AEAD) (env : Env) (tm : TenantManager) (w : World)
    (host : Bytes) (port : Int) (dbName user enc : Bytes) :
    w.nextPool ≤ (tm.dial G env w host port dbName user enc).2.nextPool ∧
    ∀ p, (tm.dial G env w host port dbName user enc).2.closed p →
      w.closed p ∨ env.ping p = false := by
  unfold TenantManager.dial
  rcases hd : tm.cipher.Decrypt G enc with ⟨password, _ | err⟩
  · simp only
    cases hp : env.parseConfig (connDSN user password host port dbName) with
    | none => simp only [World.log, World.closed]; exact ⟨le_refl _, by simp; exact fun _ h => Or.inl h⟩
    | some config =>
        simp only
        by_cases hn : env.newWithConfig { config with
            MaxConns := tm.maxOpenConns, MinConns := 1,
            MaxConnLifetime := tm.connMaxLifetime, ConnectTimeout := tm.connectionTimeout } = true
        · rw [if_pos hn]
          by_cases hping : env.ping w.nextPool = true
          · simp only [World.log, World.closed, hping, if_true]; exact ⟨by simp, by simp; exact fun _ h => Or.inl h⟩
          · simp only [World.log, World.closed, hping]
            refine ⟨by simp, ?_⟩
            intro p hp
            simp only [Bool.false_eq_true, if_false, List.append_assoc, List.mem_append,
              List.mem_singleton, List.mem_cons, reduceCtorEq, Event.close.injEq,
              List.mem_nil_iff, or_false, false_or] at hp
            rcases hp with hp | hp
            · exact Or.inl hp
            · right; subst hp; simpa using hping
        · rw [if_neg hn]
          simp only [World.log, World.closed]; exact ⟨le_refl _, by simp; exact fun _ h => Or.inl h⟩
  · simp only [World.log, World.closed]; exact ⟨le_refl _, by simp; exact fun _ h => Or.inl h⟩

theorem entriesFor_mapSet (m : PoolMap) (k : Bytes) (v : Pool) :
    entriesFor (mapSet m k v) k = [(k, v)] := by
  have h : (mapDelete m k).filter (fun e => decide (e.1 = k)) = [] := by
    simp [mapDelete, List.filter_filter]
  simp [entriesFor, mapSet, List.filter_append, h]

theorem threadOk_mono (env : Env) (code : Bytes) (w0 : World) (m m' : PoolMap)
    (h : (mapGet m code).isSome → (mapGet m' code).isSome) (pc : Pc)
    (hpc : ThreadOk env code w0 m pc) : ThreadOk env code w0 m' pc := by
  cases pc with
  | start => trivial
  | dial => trivial
  | probe conn => exact ⟨hpc.1, hpc.2.1, h hpc.2.2⟩
  | evict => exact hpc
  | store p => exact hpc
  | done r =>
      obtain ⟨p, e⟩ := r
      cases p <;> cases e
      · exact hpc
      · trivial
      · exact ⟨hpc.1, hpc.2.1, h hpc.2.2⟩
      · exact hpc

/-- Every step of every caller keeps the invariant. -/
theorem Sys.step_inv (G : AEAD) (env : Env) (a : CallArgs) (w0 : World) (S : Sys) (i : Nat)
    (hS : S.Inv env a.schoolCode w0) : (S.step G env a i).Inv env a.schoolCode w0 := by
  obtain ⟨hcache, hthreads, hnext, hclosed, hcount⟩ := hS
  unfold Sys.step
  cases hi : S.pcs[i]? with
  | none => exact ⟨hcache, hthreads, hnext, hclosed, hcount⟩
  | some pc =>
      have hmem : pc ∈ S.pcs := List.getElem?_mem hi
      have hpc := hthreads pc hmem
      have hset : ∀ (pc' : Pc) (m' : PoolMap),
          ((mapGet S.tm.dbConnections a.schoolCode).isSome →
            (mapGet m' a.schoolCode).isSome) →
          ThreadOk env a.schoolCode w0 m' pc' →
          ∀ x ∈ S.pcs.set i pc', ThreadOk env a.schoolCode w0 m' x := by
        intro pc' m' hm hok x hx
        rcases List.mem_or_eq_of_mem_set hx with hx | rfl
        · exact threadOk_mono env _ w0 _ _ hm x (hthreads x hx)
        · exact hok
      cases pc with
      | start =>
          simp only [TenantManager.stepCall]
          cases hc : mapGet S.tm.dbConnections a.schoolCode with
          | none =>
              exact ⟨hcache, hset .dial _ id trivial, hnext, hclosed, hcount⟩
          | some conn =>
              have hq := hcache conn hc
              exact ⟨hcache, hset (.probe conn) _ id ⟨hq.1, hq.2, by simp [hc]⟩,
                hnext, hclosed, hcount⟩
      | probe conn =>
          simp only [TenantManager.stepCall, hpc.1, if_true]
          refine ⟨hcache, hset _ _ id ⟨hpc.1, hpc.2.1, hpc.2.2⟩, hnext, ?_, hcount⟩
          intro p hp
          simp only [World.closed, World.log, List.mem_append, List.mem_singleton,
            reduceCtorEq, or_false] at hp
          exact hclosed p hp
      | evict => exact absurd hpc id
      | dial =>
          simp only [TenantManager.stepCall]
          have hw := dial_world G env S.tm S.w a.host a.port a.dbName a.user a.encryptedPassword
          rcases dial_cases G env S.tm S.w a.host a.port a.dbName a.user a.encryptedPassword with
            ⟨w', h, hping, _⟩ | ⟨e, w', h, _⟩
          · rw [h] at hw
            simp only [h]
            refine ⟨hcache, hset _ _ id ⟨hping, hnext⟩, le_trans hnext hw.1, ?_, hcount⟩
            intro p hp
            rcases hw.2 p hp with hp | hp
            · exact hclosed p hp
            · exact Or.inr hp
          · rw [h] at hw
            simp only [h]
            refine ⟨hcache, hset _ _ id trivial, le_trans hnext hw.1, ?_, hcount⟩
            intro p hp
            rcases hw.2 p hp with hp | hp
            · exact hclosed p hp
            · exact Or.inr hp
      | store p =>
          simp only [TenantManager.stepCall]
          have hsome : (mapGet (mapSet S.tm.dbConnections a.schoolCode p) a.schoolCode).isSome := by
            simp [mapGet_mapSet_self]
          refine ⟨?_, hset _ _ (fun _ => hsome) ⟨hpc.1, hpc.2, hsome⟩, hnext, hclosed, ?_⟩
          · intro q hq
            rw [mapGet_mapSet_self] at hq
            cases hq
            exact hpc
          · simp [entriesFor_mapSet]
      | done r =>
          simp only [TenantManager.stepCall]
          have hsame : S.pcs.set i (.done r) = S.pcs := by
            apply List.ext_getElem?
            intro j
            by_cases hj : i = j
            · subst hj
              rw [List.getElem?_set_eq_of_lt _ (by
                rcases List.getElem?_eq_some_iff.mp hi with ⟨hlt, _⟩; exact hlt), hi]
            · rw [List.getElem?_set_ne hj]
          rw [hsame]
          exact ⟨hcache, hthreads, hnext, hclosed, hcount⟩

/-- Every schedule keeps the invariant. -/
theorem Sys.run_inv (G : AEAD) (env : Env) (a : CallArgs) (w0 : World) (schedule : List Nat)
    (S : Sys) (hS : S.Inv env a.schoolCode w0) :
    (S.run G env a schedule).Inv env a.schoolCode w0 := by
  induction schedule generalizing S with
  | nil => exact hS
  | cons i rest ih =>
      simp only [Sys.run, List.foldl_cons]
      exact ih _ (Sys.step_inv G env a w0 S i hS)

theorem Sys.init_inv (env : Env) (code : Bytes) (n : Nat) (tm : TenantManager) (w0 : World)
    (hmiss : mapGet tm.dbConnections code = none) : (Sys.init n tm w0).Inv env code w0 := by
  refine ⟨?_, ?_, le_refl _, fun p hp => Or.inl hp, ?_⟩
  · intro q hq
    simp only [Sys.init] at hq
    rw [hmiss] at hq
    cases hq
  · intro pc hpc
    simp only [Sys.init] at hpc
    rw [List.eq_of_mem_replicate hpc]
    trivial
  · simp only [Sys.init, entriesFor]
    have : tm.dbConnections.filter (fun e => decide (e.1 = code)) = [] := by
      rw [List.filter_eq_nil_iff]
      intro e he
      have hall : ∀ (m : PoolMap), mapGet m code = none → ∀ e ∈ m, e.1 ≠ code := by
        intro m
        induction m with
        | nil => intro _ e he; cases he
        | cons x m ih =>
            obtain ⟨k', v⟩ := x
            intro hm e he
            by_cases hk : k' = code
            · simp [mapGet, hk] at hm
            · simp only [mapGet, hk, if_false] at hm
              rcases List.mem_cons.mp he with rfl | he
              · exact hk
              · exact ih hm e he
      simpa using hall _ hmiss e he
    rw [this]
    simp

theorem entriesFor_pos (m : PoolMap) (k : Bytes) (h : (mapGet m k).isSome) :
    1 ≤ (entriesFor m k).length := by
  induction m with
  | nil => simp [mapGet] at h
  | cons e m ih =>
      obtain ⟨k', v⟩ := e
      by_cases hk : k' = k
      · simp [entriesFor, List.filter_cons, hk]
      · simp only [mapGet, hk, if_false] at h
        have := ih h
        simpa [entriesFor, List.filter_cons, hk] using this

/-- C7 as stated fails.  Two callers resolve the uncached tenant `eis` at the same
time; both miss, both create a pool (4 and 5) that answers its ping, and both
insert.  The cache is left with pool 5, the first caller has returned pool 4, and
pool 4 was never closed. -/
theorem concurrent_first_calls_leak_a_pool :
    (Sys.run sumAEAD (exampleEnv (fun _ => true) (fun _ _ => true)) exampleArgs
        (Sys.init 2 (exampleManager []) (exampleWorld 4)) [0, 1, 0, 1, 0, 1]).pcs
      = [.done (some 4, none), .done (some 5, none)] ∧
    (Sys.run sumAEAD (exampleEnv (fun _ => true) (fun _ _ => true)) exampleArgs
        (Sys.init 2 (exampleManager []) (exampleWorld 4)) [0, 1, 0, 1, 0, 1]).tm.dbConnections
      = [(ascii "eis", 5)] ∧
    Event.close 4 ∉
      (Sys.run sumAEAD (exampleEnv (fun _ => true) (fun _ _ => true)) exampleArgs
        (Sys.init 2 (exampleManager []) (exampleWorld 4)) [0, 1, 0, 1, 0, 1]).w.trace := by
  decide

/-- C7, amended: for `n` concurrent first-time `GetConnection` calls for the same
tenant code, under every schedule (a pool answering its pings the same way
throughout), the cache never holds more than one pool for the code, and holds
exactly one once a caller has returned a pool; every pool returned or cached was
created by these calls and answered its ping.  But no pool that answered its ping
is closed by these calls: a caller whose pool is ready inserts it unconditionally,
overwriting any entry another caller inserted meanwhile, and returns its own pool,
so the pools that lost the race stay open outside the cache. -/
theorem concurrent_first_calls (G : AEAD) (env : Env) (a : CallArgs) (n : Nat)
    (tm : TenantManager) (w0 : World) (schedule : List Nat)
    (hmiss : mapGet tm.dbConnections a.schoolCode = none) :
    (entriesFor ((Sys.init n tm w0).run G env a schedule).tm.dbConnections
        a.schoolCode).length ≤ 1 ∧
    (∀ r, Pc.done r ∈ ((Sys.init n tm w0).run G env a schedule).pcs →
      (∃ e, r = (none, some e)) ∨
      (∃ p, r = (some p, none) ∧ w0.nextPool ≤ p ∧ env.ping p = true ∧
        (entriesFor ((Sys.init n tm w0).run G env a schedule).tm.dbConnections
          a.schoolCode).length = 1)) ∧
    (∀ q, mapGet ((Sys.init n tm w0).run G env a schedule).tm.dbConnections a.schoolCode
        = some q → w0.nextPool ≤ q ∧ env.ping q = true) ∧
    (∀ p, env.ping p = true → ¬ w0.closed p →
      ¬ ((Sys.init n tm w0).run G env a schedule).w.closed p) ∧
    (∀ (tm' : TenantManager) (w' : World) (pool : Pool),
      tm'.stepCall G env a (.store pool) w'
        = (.done (some pool, none),
            { tm' with dbConnections := mapSet tm'.dbConnections a.schoolCode pool }, w')) := by
  obtain ⟨hcache, hthreads, _, hclosed, hcount⟩ :=
    Sys.run_inv G env a w0 schedule _ (Sys.init_inv env a.schoolCode n tm w0 hmiss)
  refine ⟨hcount, ?_, ?_, ?_, fun _ _ _ => rfl⟩
  · intro r hr
    have hok := hthreads _ hr
    obtain ⟨p, e⟩ := r
    cases p <;> cases e
    · exact absurd hok id
    · exact Or.inl ⟨_, rfl⟩
    · refine Or.inr ⟨_, rfl, hok.2.1, hok.1, ?_⟩
      have := entriesFor_pos _ _ hok.2.2
      omega
    · exact absurd hok id
  · intro q hq
    exact ⟨(hcache q hq).2, (hcache q hq).1⟩
  · intro p hp hnot hcl
    rcases hclosed p hcl with h | h
    · exact hnot h
    · rw [hp] at h; cases h

theorem concurrent_first_calls_witness :
    mapGet (exampleManager []).dbConnections exampleArgs.schoolCode = none ∧
    ((∃ e, ((some 4, none) : Option Pool × Option ManagerError) = (none, some e)) ∨
      (∃ p, ((some 4, none) : Option Pool × Option ManagerError) = (some p, none) ∧
        (exampleWorld 4).nextPool ≤ p ∧
        (exampleEnv (fun _ => true) (fun _ _ => true)).ping p = true ∧
        (entriesFor ((Sys.init 2 (exampleManager []) (exampleWorld 4)).run sumAEAD
          (exampleEnv (fun _ => true) (fun _ _ => true)) exampleArgs
          [0, 1, 0, 1, 0, 1]).tm.dbConnections exampleArgs.schoolCode).length = 1)) :=
  ⟨by decide,
   (concurrent_first_calls sumAEAD (exampleEnv (fun _ => true) (fun _ _ => true)) exampleArgs 2
      (exampleManager []) (exampleWorld 4) [0, 1, 0, 1, 0, 1] (by decide)).2.1
      (some 4, none) (by decide)⟩

/-! ## Tenant Provisioner: claim C10 -/

set_option maxRecDepth 100000 in
/-- C10 fails on the code.  The role and the database are created and the GRANT on
the database (step 3) fails: `CreateTenantDatabase` returns its error,
`CreateSchool` answers 500 "Failed to create database", and the calls made are the
two encryptions and the three statements; no `DROP DATABASE` is issued for the
database that was created, and no school record is inserted.  On the sibling path
where the schema initialization (step 5) fails, the same handler does issue the
`DROP DATABASE`. -/
theorem createSchool_grant_failure_keeps_database :
    (exampleHandler.CreateSchool sumAEAD
        (exampleEnv (fun _ => true)
          (fun _ sql => decide (sql ≠ grantSQL (ascii "school_eis_db") (ascii "school_eis_user"))))
        (exampleWorld 1) exampleRequest).1
      = .error 500 (ascii "Failed to create database") ∧
    (exampleHandler.CreateSchool sumAEAD
        (exampleEnv (fun _ => true)
          (fun _ sql => decide (sql ≠ grantSQL (ascii "school_eis_db") (ascii "school_eis_user"))))
        (exampleWorld 1) exampleRequest).2.2.trace
      = [Event.encrypt (ascii "s3cr3t"),
         Event.encrypt (ascii "s3cr3t"),
         Event.exec 0 (createUserSQL (ascii "school_eis_user") (ascii "s3cr3t")) true,
         Event.exec 0 (createDBSQL (ascii "school_eis_db")) true,
         Event.exec 0 (grantSQL (ascii "school_eis_db") (ascii "school_eis_user")) false] ∧
    (exampleHandler.CreateSchool sumAEAD
        { exampleEnv (fun _ => true) (fun _ _ => true) with migrate := fun _ => false }
        (exampleWorld 1) exampleRequest).1
      = .error 500 (ascii "Failed to initialize database schema") ∧
    Event.exec 0 (dropDBSQL (ascii "school_eis_db")) true ∈
      (exampleHandler.CreateSchool sumAEAD
        { exampleEnv (fun _ => true) (fun _ _ => true) with migrate := fun _ => false }
        (exampleWorld 1) exampleRequest).2.2.trace := by
  decide

/-! ## Teardown, drain and nonce claims: C11, C12, C18, C19, C20 -/

theorem mapGet_mapDelete_ne (m : PoolMap) (code k : Bytes) (h : k ≠ code) :
    mapGet (mapDelete m code) k = mapGet m k := by
  induction m with
  | nil => rfl
  | cons e m ih =>
      obtain ⟨k', v⟩ := e
      unfold mapDelete at ih ⊢
      by_cases hk : k' = code
      · have hkk : ¬ k' = k := by rw [hk]; exact fun h' => h h'.symm
        rw [List.filter_cons_of_neg (by simp [hk]), ih]
        simp [mapGet, hkk]
      · rw [List.filter_cons_of_pos (by simp [hk])]
        by_cases hkk : k' = k
        · simp [mapGet, hkk]
        · simp only [mapGet, hkk, if_false]; exact ih

theorem closeEach_trace (m : PoolMap) (w : World) :
    (closeEach m w).trace = w.trace ++ m.map (fun e => Event.close e.2) := by
  induction m generalizing w with
  | nil => simp [closeEach]
  | cons e m ih =>
      obtain ⟨k, v⟩ := e
      simp [closeEach, ih, World.log]

theorem mem_of_mapGet (m : PoolMap) (k : Bytes) (p : Pool) (h : mapGet m k = some p) :
    (k, p) ∈ m := by
  induction m with
  | nil => simp [mapGet] at h
  | cons e m ih =>
      obtain ⟨k', v⟩ := e
      by_cases hk : k' = k
      · simp only [mapGet, hk, if_true, Option.some.injEq] at h
        subst h; subst hk
        exact List.mem_cons_self _ _
      · simp only [mapGet, hk, if_false] at h
        exact List.mem_cons_of_mem _ (ih h)

/-- C18: `CloseConnection(code)` closes and removes exactly the cached entry for
`code`: afterwards the cache has no entry for `code`, the entry of every other code
is what it was, and the only pool newly closed is the one that was cached under
`code`; when `code` was not cached the call changes nothing, and calling it a
second time changes nothing more. -/
theorem closeConnection_frame (tm : TenantManager) (w : World) (code : Bytes) :
    (mapGet tm.dbConnections code = none → tm.CloseConnection w code = (tm, w)) ∧
    (∀ conn, mapGet tm.dbConnections code = some conn →
      tm.CloseConnection w code
        = ({ tm with dbConnections := mapDelete tm.dbConnections code },
            w.log (.close conn))) ∧
    mapGet (tm.CloseConnection w code).1.dbConnections code = none ∧
    (∀ k, k ≠ code →
      mapGet (tm.CloseConnection w code).1.dbConnections k = mapGet tm.dbConnections k) ∧
    (∀ p, (tm.CloseConnection w code).2.closed p ↔
      (w.closed p ∨ mapGet tm.dbConnections code = some p)) ∧
    (tm.CloseConnection w code).1.CloseConnection (tm.CloseConnection w code).2 code
      = tm.CloseConnection w code := by
  have hnone : mapGet tm.dbConnections code = none → tm.CloseConnection w code = (tm, w) := by
    intro h; simp only [TenantManager.CloseConnection, h]
  have hsome : ∀ conn, mapGet tm.dbConnections code = some conn →
      tm.CloseConnection w code
        = ({ tm with dbConnections := mapDelete tm.dbConnections code },
            w.log (.close conn)) := by
    intro conn h; simp only [TenantManager.CloseConnection, h]
  refine ⟨hnone, hsome, ?_⟩
  cases hc : mapGet tm.dbConnections code with
  | none =>
      rw [hnone hc]
      refine ⟨hc, fun _ _ => rfl, fun p => by simp, ?_⟩
      exact hnone hc
  | some conn =>
      rw [hsome conn hc]
      refine ⟨mapGet_mapDelete_self _ _, fun k hk => mapGet_mapDelete_ne _ _ _ hk, ?_, ?_⟩
      · intro p
        simp [World.closed, World.log, eq_comm]
      · simp only [TenantManager.CloseConnection, mapGet_mapDelete_self]

theorem closeConnection_frame_witness :
    (exampleManager [(ascii "eis", 3), (ascii "abc", 2)]).CloseConnection (exampleWorld 4)
        (ascii "eis")
      = (exampleManager [(ascii "abc", 2)], (exampleWorld 4).log (.close 3)) ∧
    (exampleManager [(ascii "abc", 2)]).CloseConnection (exampleWorld 4) (ascii "eis")
      = (exampleManager [(ascii "abc", 2)], exampleWorld 4) :=
  ⟨(closeConnection_frame (exampleManager [(ascii "eis", 3), (ascii "abc", 2)])
      (exampleWorld 4) (ascii "eis")).2.1 3 (by decide),
   (closeConnection_frame (exampleManager [(ascii "abc", 2)]) (exampleWorld 4)
      (ascii "eis")).1 (by decide)⟩

/-- C19: after `CloseAllConnections` the cache is empty, every pool that was
cached before the call has been closed, and `GetStats` returns nil for every
tenant code. -/
theorem closeAllConnections_drains (tm : TenantManager) (w : World) :
    (tm.CloseAllConnections w).1.dbConnections = [] ∧
    (∀ code p, mapGet tm.dbConnections code = some p → (tm.CloseAllConnections w).2.closed p) ∧
    (∀ e ∈ tm.dbConnections, (tm.CloseAllConnections w).2.closed e.2) ∧
    (∀ (stat : Pool → PoolStat) (code : Bytes),
      (tm.CloseAllConnections w).1.GetStats stat code = none) := by
  have hall : ∀ e ∈ tm.dbConnections, (tm.CloseAllConnections w).2.closed e.2 := by
    intro e he
    simp only [TenantManager.CloseAllConnections, World.closed, closeEach_trace]
    exact List.mem_append_right _ (List.mem_map.mpr ⟨e, he, rfl⟩)
  refine ⟨rfl, ?_, hall, fun _ _ => rfl⟩
  intro code p h
  exact hall (code, p) (mem_of_mapGet _ _ _ h)

theorem closeAllConnections_drains_witness :
    ((exampleManager [(ascii "eis", 3), (ascii "abc", 2)]).CloseAllConnections
      (exampleWorld 4)).2.closed 2 :=
  (closeAllConnections_drains (exampleManager [(ascii "eis", 3), (ascii "abc", 2)])
    (exampleWorld 4)).2.1 (ascii "abc") 2 (by decide)

theorem encodeToString_injective (a b : Bytes) (h : encodeToString a = encodeToString b) :
    a = b := by
  have := congrArg decodeString h
  rw [decodeString_encodeToString, decodeString_encodeToString] at this
  exact Option.some.inj this

theorem Decrypt_Encrypt (G : AEAD) (hG : G.Correct) (c : Cipher) (hk : c.key.length = 32)
    (p nonce : Bytes) (hn : nonce.length = 12) :
    c.Decrypt G (c.Encrypt G (some nonce) p).1 = (p, none) := by
  rw [Encrypt_unfold G _ hk nonce p hn, Decrypt_unfold G _ hk]
  simp only [decodeString_encodeToString]
  rw [if_neg (by simp only [List.length_append, gcmNonceSize]; omega)]
  have h12 : gcmNonceSize = nonce.length := hn.symm
  rw [h12, List.take_left, List.drop_left, hG _ _ _ _ hk hn]

/-- C20: for every key and plaintext `p`, two calls of `Encrypt(p)` that draw
different 12-byte nonces both succeed, return different blobs, and both blobs
decrypt to `p` (for every AEAD that honours the `Seal`/`Open` contract). -/
theorem encrypt_distinct_nonces (G : AEAD) (hG : G.Correct) (k p nonce₁ nonce₂ : Bytes)
    (h₁ : nonce₁.length = 12) (h₂ : nonce₂.length = 12) (hne : nonce₁ ≠ nonce₂) :
    ((NewCipher k).1.Encrypt G (some nonce₁) p).2 = none ∧
    ((NewCipher k).1.Encrypt G (some nonce₂) p).2 = none ∧
    ((NewCipher k).1.Encrypt G (some nonce₁) p).1
      ≠ ((NewCipher k).1.Encrypt G (some nonce₂) p).1 ∧
    (NewCipher k).1.Decrypt G ((NewCipher k).1.Encrypt G (some nonce₁) p).1 = (p, none) ∧
    (NewCipher k).1.Decrypt G ((NewCipher k).1.Encrypt G (some nonce₂) p).1 = (p, none) := by
  have hk := NewCipher_key_length k
  refine ⟨?_, ?_, ?_, Decrypt_Encrypt G hG _ hk p nonce₁ h₁, Decrypt_Encrypt G hG _ hk p nonce₂ h₂⟩
  · rw [Encrypt_unfold G _ hk nonce₁ p h₁]
  · rw [Encrypt_unfold G _ hk nonce₂ p h₂]
  · rw [Encrypt_unfold G _ hk nonce₁ p h₁, Encrypt_unfold G _ hk nonce₂ p h₂]
    intro heq
    have hbytes := encodeToString_injective _ _ heq
    have htake := congrArg (List.take 12) hbytes
    rw [← h₁, List.take_left] at htake
    rw [h₁, ← h₂, List.take_left] at htake
    exact hne htake

theorem encrypt_distinct_nonces_witness :
    sumAEAD.Correct ∧
    ((NewCipher (ascii "tenant-secret")).1.Encrypt sumAEAD (some (ascii "0123456789ab"))
        (ascii "pwd")).1
      ≠ ((NewCipher (ascii "tenant-secret")).1.Encrypt sumAEAD (some (ascii "ba9876543210"))
        (ascii "pwd")).1 :=
  ⟨sumAEAD_correct,
   (encrypt_distinct_nonces sumAEAD sumAEAD_correct (ascii "tenant-secret") (ascii "pwd")
      (ascii "0123456789ab") (ascii "ba9876543210") (by decide) (by decide) (by decide)).2.2.1⟩

theorem inserts_log (w : World) (e : Event) (he : e.isInsertSchool = false) :
    (w.log e).inserts = w.inserts := by
  simp [World.inserts, World.log, List.filter_append, he]

theorem generateRandomPassword_inserts (env : Env) (w : World) (n : Nat) :
    (generateRandomPassword env w n).2.inserts = w.inserts := by
  unfold generateRandomPassword World.readRand
  split <;> rename_i h <;> simp only [Prod.mk.injEq] at h <;> obtain ⟨_, rfl⟩ := h <;>
    exact inserts_log _ _ rfl

theorem encryptRand_inserts (G : AEAD) (env : Env) (c : Cipher) (w : World) (p : Bytes) :
    (c.encryptRand G env w p).2.inserts = w.inserts :=
  inserts_log _ _ rfl

theorem CreateTenantDatabase_inserts (G : AEAD) (env : Env) (tm : TenantManager) (w : World)
    (mainDB : Pool) (code dbName dbUser dbPassword : Bytes) :
    (tm.CreateTenantDatabase G env w mainDB code dbName dbUser dbPassword).2.inserts
      = w.inserts := by
  unfold TenantManager.CreateTenantDatabase
  have h0 := encryptRand_inserts G env tm.cipher w dbPassword
  rcases hr : tm.cipher.encryptRand G env w dbPassword with ⟨⟨_, _ | err⟩, w1⟩
  · rw [hr] at h0
    simp only at h0 ⊢
    repeat' split
    all_goals simp [World.inserts, World.log, List.filter_append, Event.isInsertSchool] at h0 ⊢
    all_goals exact h0
  · rw [hr] at h0
    exact h0

theorem dial_inserts (G : AEAD) (env : Env) (tm : TenantManager) (w : World)
    (host : Bytes) (port : Int) (dbName user enc : Bytes) :
    (tm.dial G env w host port dbName user enc).2.inserts = w.inserts := by
  unfold TenantManager.dial
  rcases hd : tm.cipher.Decrypt G enc with ⟨password, _ | err⟩
  · simp only
    cases hp : env.parseConfig (connDSN user password host port dbName) with
    | none => simp [World.inserts, World.log, List.filter_append, Event.isInsertSchool]
    | some config =>
        simp only
        by_cases hn : env.newWithConfig { config with
            MaxConns := tm.maxOpenConns, MinConns := 1,
            MaxConnLifetime := tm.connMaxLifetime, ConnectTimeout := tm.connectionTimeout } = true
        · rw [if_pos hn]
          by_cases hping : env.ping w.nextPool = true
          · simp [World.inserts, World.log, List.filter_append, Event.isInsertSchool, hping]
          · simp [World.inserts, World.log, List.filter_append, Event.isInsertSchool, hping]
        · rw [if_neg hn]
          simp [World.inserts, World.log, List.filter_append, Event.isInsertSchool]
  · simp [World.inserts, World.log, List.filter_append, Event.isInsertSchool]

theorem connect_inserts (G : AEAD) (env : Env) (tm : TenantManager) (w : World)
    (code host : Bytes) (port : Int) (dbName user enc : Bytes) :
    (tm.connect G env w code host port dbName user enc).2.2.inserts = w.inserts := by
  have h := dial_inserts G env tm w host port dbName user enc
  unfold TenantManager.connect
  split
  · next pool w' heq => rw [heq] at h; exact h
  · next r w' _ heq => rw [heq] at h; exact h

theorem GetConnection_inserts (G : AEAD) (env : Env) (tm : TenantManager) (w : World)
    (code host : Bytes) (port : Int) (dbName user enc : Bytes) :
    (tm.GetConnection G env w code host port dbName user enc).2.2.inserts = w.inserts := by
  unfold TenantManager.GetConnection
  split
  · next conn _ =>
      simp only
      split
      · exact inserts_log _ _ rfl
      · rw [connect_inserts]; exact inserts_log _ _ rfl
  · exact connect_inserts _ _ _ _ _ _ _ _ _ _

/-- A successful `GetConnection` returns a pool, and that pool is the cached entry. -/
theorem GetConnection_ok_cached (G : AEAD) (env : Env) (tm : TenantManager) (w : World)
    (code host : Bytes) (port : Int) (dbName user enc : Bytes)
    (hok : (tm.GetConnection G env w code host port dbName user enc).1.2 = none) :
    ∃ p, (tm.GetConnection G env w code host port dbName user enc).1.1 = some p ∧
      mapGet (tm.GetConnection G env w code host port dbName user enc).2.1.dbConnections code
        = some p := by
  unfold TenantManager.GetConnection at hok ⊢
  have hconn : ∀ (tm : TenantManager) (w : World),
      (tm.connect G env w code host port dbName user enc).1.2 = none →
      ∃ p, (tm.connect G env w code host port dbName user enc).1.1 = some p ∧
        mapGet (tm.connect G env w code host port dbName user enc).2.1.dbConnections code
          = some p := by
    intro tm w h
    rcases connect_cases G env tm w code host port dbName user enc with ⟨w', h', _⟩ | ⟨e, w', h'⟩
    · rw [h']; exact ⟨_, rfl, mapGet_mapSet_self _ _ _⟩
    · rw [h'] at h; cases h
  cases hc : mapGet tm.dbConnections code with
  | none => simp only [hc] at hok ⊢; exact hconn _ _ hok
  | some conn =>
      simp only [hc] at hok ⊢
      by_cases hp : env.ping conn = true
      · simp only [hp, if_true] at hok ⊢
        exact ⟨conn, rfl, hc⟩
      · simp only [hp] at hok ⊢
        exact hconn _ _ hok

/-- What `DropTenantDatabase` does, in one equation. -/
theorem DropTenantDatabase_eq (env : Env) (tm : TenantManager) (w : World) (mainDB : Pool)
    (code dbName : Bytes) :
    tm.DropTenantDatabase env w mainDB code dbName
      = (if env.exec mainDB (dropDBSQL dbName) then none else some .dropDatabase,
         { tm with dbConnections := mapDelete tm.dbConnections code },
         { w with trace := w.trace ++
            (match mapGet tm.dbConnections code with
              | some conn => [Event.close conn]
              | none => []) ++
            [Event.exec mainDB (dropDBSQL dbName) (env.exec mainDB (dropDBSQL dbName))] }) := by
  unfold TenantManager.DropTenantDatabase
  cases hc : mapGet tm.dbConnections code with
  | none =>
      rw [mapDelete_of_mapGet_none _ _ hc]
      by_cases he : env.exec mainDB (dropDBSQL dbName) = true <;> simp [he, World.log]
  | some conn =>
      by_cases he : env.exec mainDB (dropDBSQL dbName) = true <;> simp [he, World.log]

/-- C12: `DropTenantDatabase(code, dbName)` first closes the cached pool for `code`,
if there is one, and only then executes on the control-plane pool the statement
`DROP DATABASE IF EXISTS "<dbName>" WITH (FORCE);` (the trace grows by exactly
these calls, in this order).  It returns nil when the statement succeeds and the
drop error when it fails; in both cases the cache has no entry for `code`, the
entry of every other code is what it was, and the pools closed are those closed
before and the pool that was cached under `code`, no other. -/
theorem dropTenantDatabase_frame (env : Env) (tm : TenantManager) (w : World) (mainDB : Pool)
    (code dbName : Bytes) :
    (tm.DropTenantDatabase env w mainDB code dbName).2.2.trace
      = w.trace ++
        (match mapGet tm.dbConnections code with
          | some conn => [Event.close conn]
          | none => []) ++
        [Event.exec mainDB (ascii "DROP DATABASE IF EXISTS \"" ++ dbName ++ ascii "\" WITH (FORCE);")
          (env.exec mainDB
            (ascii "DROP DATABASE IF EXISTS \"" ++ dbName ++ ascii "\" WITH (FORCE);"))] ∧
    (tm.DropTenantDatabase env w mainDB code dbName).1
      = (if env.exec mainDB
            (ascii "DROP DATABASE IF EXISTS \"" ++ dbName ++ ascii "\" WITH (FORCE);")
          then none else some .dropDatabase) ∧
    mapGet (tm.DropTenantDatabase env w mainDB code dbName).2.1.dbConnections code = none ∧
    (∀ k, k ≠ code →
      mapGet (tm.DropTenantDatabase env w mainDB code dbName).2.1.dbConnections k
        = mapGet tm.dbConnections k) ∧
    (∀ p, (tm.DropTenantDatabase env w mainDB code dbName).2.2.closed p ↔
      (w.closed p ∨ mapGet tm.dbConnections code = some p)) := by
  have hsql : ascii "DROP DATABASE IF EXISTS \"" ++ dbName ++ ascii "\" WITH (FORCE);"
      = dropDBSQL dbName := rfl
  rw [hsql, DropTenantDatabase_eq]
  refine ⟨rfl, rfl, mapGet_mapDelete_self _ _, fun k hk => mapGet_mapDelete_ne _ _ _ hk, ?_⟩
  intro p
  cases hc : mapGet tm.dbConnections code with
  | none => simp [World.closed]
  | some conn => simp [World.closed, eq_comm]

/-- C11: in `CreateSchool`, when the password was encrypted, `CreateTenantDatabase`
succeeded (role, database and grants), `GetConnection` returned the tenant pool and
`RunTenantMigrations` then fails on it, the handler answers 500 "Failed to
initialize database schema" and, by the time it returns, `DropTenantDatabase` has
been executed for the tenant: after the failed migration the only calls made are
the close of the tenant pool and the statement
`DROP DATABASE IF EXISTS "school_<code>_db" WITH (FORCE);` on the control-plane
pool, the cache has no entry for the code, and no INSERT of a school record was
made. -/
theorem createSchool_migration_failure (G : AEAD) (env : Env) (h : SchoolHandler) (w : World)
    (req : CreateSchoolRequest) (dbUser dbPassword enc : Bytes) (w1 w2 w3 w4 : World)
    (tenantDB : Option Pool) (tm : TenantManager)
    (hu : (if req.DBUser = [] then ascii "school_" ++ req.Code ++ ascii "_user" else req.DBUser)
      = dbUser)
    (hpw : (if req.DBPassword = [] then generateRandomPassword env w 16 else (req.DBPassword, w))
      = (dbPassword, w1))
    (henc : h.tenantManager.EncryptPassword G env w1 dbPassword = ((enc, none), w2))
    (hcreate : h.tenantManager.CreateTenantDatabase G env w2 h.db req.Code
      (ascii "school_" ++ req.Code ++ ascii "_db") dbUser dbPassword = (none, w3))
    (hconn : h.tenantManager.GetConnection G env w3 req.Code (ascii "postgres") 5432
      (ascii "school_" ++ req.Code ++ ascii "_db") dbUser enc = ((tenantDB, none), tm, w4))
    (hmig : env.migrate tenantDB = false) :
    (h.CreateSchool G env w req).1
      = .error 500 (ascii "Failed to initialize database schema") ∧
    (∃ pool, tenantDB = some pool ∧
      (h.CreateSchool G env w req).2.2.trace
        = w4.trace ++
          [Event.migrate (some pool) false,
           Event.close pool,
           Event.exec h.db
             (ascii "DROP DATABASE IF EXISTS \"" ++ (ascii "school_" ++ req.Code ++ ascii "_db")
               ++ ascii "\" WITH (FORCE);")
             (env.exec h.db
               (ascii "DROP DATABASE IF EXISTS \"" ++ (ascii "school_" ++ req.Code ++ ascii "_db")
                 ++ ascii "\" WITH (FORCE);"))]) ∧
    mapGet (h.CreateSchool G env w req).2.1.tenantManager.dbConnections req.Code = none ∧
    (h.CreateSchool G env w req).2.2.inserts = w.inserts := by
  have hsql : ascii "DROP DATABASE IF EXISTS \"" ++ (ascii "school_" ++ req.Code ++ ascii "_db")
      ++ ascii "\" WITH (FORCE);" = dropDBSQL (ascii "school_" ++ req.Code ++ ascii "_db") := rfl
  rw [hsql]
  have hw1 : w1.inserts = w.inserts := by
    have : (if req.DBPassword = [] then generateRandomPassword env w 16
        else (req.DBPassword, w)).2.inserts = w.inserts := by
      split
      · exact generateRandomPassword_inserts env w 16
      · rfl
    rw [hpw] at this
    exact this
  have hw2 : w2.inserts = w.inserts := by
    have := encryptRand_inserts G env h.tenantManager.cipher w1 dbPassword
    unfold TenantManager.EncryptPassword at henc
    rw [henc] at this
    exact this.trans hw1
  have hw3 : w3.inserts = w.inserts := by
    have := CreateTenantDatabase_inserts G env h.tenantManager w2 h.db req.Code
      (ascii "school_" ++ req.Code ++ ascii "_db") dbUser dbPassword
    rw [hcreate] at this
    exact this.trans hw2
  have hw4 : w4.inserts = w.inserts := by
    have := GetConnection_inserts G env h.tenantManager w3 req.Code (ascii "postgres") 5432
      (ascii "school_" ++ req.Code ++ ascii "_db") dbUser enc
    rw [hconn] at this
    exact this.trans hw3
  obtain ⟨p, hp, hcached⟩ := GetConnection_ok_cached G env h.tenantManager w3 req.Code
    (ascii "postgres") 5432 (ascii "school_" ++ req.Code ++ ascii "_db") dbUser enc
    (by rw [hconn])
  rw [hconn] at hp hcached
  simp only at hp hcached
  subst hp
  have hrun : h.CreateSchool G env w req
      = (.error 500 (ascii "Failed to initialize database schema"),
          { h with tenantManager :=
              (tm.DropTenantDatabase env (w4.log (.migrate (some p) false)) h.db req.Code
                (ascii "school_" ++ req.Code ++ ascii "_db")).2.1 },
          (tm.DropTenantDatabase env (w4.log (.migrate (some p) false)) h.db req.Code
            (ascii "school_" ++ req.Code ++ ascii "_db")).2.2) := by
    unfold SchoolHandler.CreateSchool
    simp only [hu, hpw, henc, hcreate, hconn, hmig, Bool.not_false, if_true]
  rw [hrun]
  simp only [DropTenantDatabase_eq, hcached, World.log]
  refine ⟨trivial, ⟨p, rfl, by simp⟩, mapGet_mapDelete_self _ _, ?_⟩
  rw [← hw4]
  simp [World.inserts, List.filter_append, Event.isInsertSchool]

set_option maxRecDepth 100000 in
theorem createSchool_migration_failure_witness :
    (exampleHandler.CreateSchool sumAEAD
        { exampleEnv (fun _ => true) (fun _ _ => true) with migrate := fun _ => false }
        (exampleWorld 1) exampleRequest).1
      = .error 500 (ascii "Failed to initialize database schema") ∧
    (exampleHandler.CreateSchool sumAEAD
        { exampleEnv (fun _ => true) (fun _ _ => true) with migrate := fun _ => false }
        (exampleWorld 1) exampleRequest).2.2.inserts = [] :=
  ⟨(createSchool_migration_failure sumAEAD
      { exampleEnv (fun _ => true) (fun _ _ => true) with migrate := fun _ => false }
      exampleHandler (exampleWorld 1) exampleRequest
      (ascii "school_eis_user") (ascii "s3cr3t")
      (exampleHandler.tenantManager.EncryptPassword sumAEAD
        { exampleEnv (fun _ => true) (fun _ _ => true) with migrate := fun _ => false }
        (exampleWorld 1) (ascii "s3cr3t")).1.1
      (exampleWorld 1)
      (exampleHandler.tenantManager.EncryptPassword sumAEAD
        { exampleEnv (fun _ => true) (fun _ _ => true) with migrate := fun _ => false }
        (exampleWorld 1) (ascii "s3cr3t")).2
      (exampleHandler.tenantManager.CreateTenantDatabase sumAEAD
        { exampleEnv (fun _ => true) (fun _ _ => true) with migrate := fun _ => false }
        (exampleHandler.tenantManager.EncryptPassword sumAEAD
          { exampleEnv (fun _ => true) (fun _ _ => true) with migrate := fun _ => false }
          (exampleWorld 1) (ascii "s3cr3t")).2
        0 (ascii "eis") (ascii "school_eis_db") (ascii "school_eis_user") (ascii "s3cr3t")).2
      (exampleHandler.tenantManager.GetConnection sumAEAD
        { exampleEnv (fun _ => true) (fun _ _ => true) with migrate := fun _ => false }
        (exampleHandler.tenantManager.CreateTenantDatabase sumAEAD
          { exampleEnv (fun _ => true) (fun _ _ => true) with migrate := fun _ => false }
          (exampleHandler.tenantManager.EncryptPassword sumAEAD
            { exampleEnv (fun _ => true) (fun _ _ => true) with migrate := fun _ => false }
            (exampleWorld 1) (ascii "s3cr3t")).2
          0 (ascii "eis") (ascii "school_eis_db") (ascii "school_eis_user") (ascii "s3cr3t")).2
        (ascii "eis") (ascii "postgres") 5432 (ascii "school_eis_db") (ascii "school_eis_user")
        (exampleHandler.tenantManager.EncryptPassword sumAEAD
          { exampleEnv (fun _ => true) (fun _ _ => true) with migrate := fun _ => false }
          (exampleWorld 1) (ascii "s3cr3t")).1.1).2.2
      (some 2)
      (exampleManager [(ascii "eis", 2)])
      (by decide) (by decide) (by decide) (by decide) (by decide) rfl).1,
   by decide⟩

/-! ## Lemmas on UTF-8 -/

theorem decodeRune_ascii (s0 : Byte) (rest : Bytes) (h : s0.val < 0x80) :
    decodeRune (s0 :: rest) = (s0.val, 1) := by
  simp [decodeRune, h]

theorem decodeRune4_ok (s0 s1 s2 : Byte) (rest : Bytes)
    (h0 : 0xF0 ≤ s0.val ∧ s0.val < 0xF5)
    (h1 : (if s0.val = 0xF0 then 0x90 else 0x80) ≤ s1.val ∧
      s1.val ≤ (if s0.val = 0xF4 then 0x8F else 0xBF))
    (h2 : 0x80 ≤ s2.val ∧ s2.val ≤ 0xBF)
    (hv : ¬((decodeRune4 s0 s1 s2 rest).1 = runeError ∧ (decodeRune4 s0 s1 s2 rest).2 = 1)) :
    MultiOk (s0 :: s1 :: s2 :: rest) (decodeRune4 s0 s1 s2 rest) := by
  cases rest with
  | nil => exact absurd ⟨rfl, rfl⟩ hv
  | cons s3 tail =>
    simp only [decodeRune4] at hv ⊢
    by_cases h3 : s3.val < 0x80 ∨ 0xBF < s3.val
    · rw [if_pos h3] at hv; exact absurd ⟨rfl, rfl⟩ hv
    rw [if_neg h3]
    have hs1 : 0x80 ≤ s1.val ∧ s1.val ≤ 0xBF := by split_ifs at h1 <;> omega
    have hlo : 0x10000 ≤ s0.val % 8 * 262144 + s1.val % 64 * 4096 + s2.val % 64 * 64
        + s3.val % 64 := by
      split_ifs at h1 <;> omega
    have hhi : s0.val % 8 * 262144 + s1.val % 64 * 4096 + s2.val % 64 * 64 + s3.val % 64
        ≤ 0x10FFFF := by
      split_ifs at h1 <;> omega
    show 0x80 ≤ s0.val % 8 * 262144 + s1.val % 64 * 4096 + s2.val % 64 * 64 + s3.val % 64 ∧
      encodeRune (s0.val % 8 * 262144 + s1.val % 64 * 4096 + s2.val % 64 * 64 + s3.val % 64)
        = [s0, s1, s2, s3] ∧ ∀ b ∈ [s0, s1, s2, s3], 0x80 ≤ b.val
    refine ⟨by omega, ?_, ?_⟩
    · have e1 : ¬ (s0.val % 8 * 262144 + s1.val % 64 * 4096 + s2.val % 64 * 64 + s3.val % 64
          < 0x80) := by omega
      have e2 : ¬ (s0.val % 8 * 262144 + s1.val % 64 * 4096 + s2.val % 64 * 64 + s3.val % 64
          < 0x800) := by omega
      have e3 : ¬ (0x10FFFF < s0.val % 8 * 262144 + s1.val % 64 * 4096 + s2.val % 64 * 64
          + s3.val % 64 ∨
          (0xD800 ≤ s0.val % 8 * 262144 + s1.val % 64 * 4096 + s2.val % 64 * 64 + s3.val % 64 ∧
           s0.val % 8 * 262144 + s1.val % 64 * 4096 + s2.val % 64 * 64 + s3.val % 64
            ≤ 0xDFFF)) := by omega
      have e4 : ¬ (s0.val % 8 * 262144 + s1.val % 64 * 4096 + s2.val % 64 * 64 + s3.val % 64
          < 0x10000) := by omega
      simp only [encodeRune]
      rw [if_neg e1, if_neg e2, if_neg e3, if_neg e4]
      rw [toByte_val s0 _ (by omega), toByte_val s1 _ (by omega), toByte_val s2 _ (by omega),
        toByte_val s3 _ (by omega)]
    · intro b hb
      simp only [List.mem_cons, List.not_mem_nil, or_false] at hb
      rcases hb with rfl | rfl | rfl | rfl <;> omega

theorem decodeRune3_ok (s0 s1 : Byte) (rest : Bytes)
    (h0 : 0xE0 ≤ s0.val ∧ s0.val < 0xF5)
    (h1 : (if s0.val = 0xE0 then 0xA0 else if s0.val = 0xF0 then 0x90 else 0x80) ≤ s1.val ∧
      s1.val ≤ (if s0.val = 0xED then 0x9F else if s0.val = 0xF4 then 0x8F else 0xBF))
    (hv : ¬((decodeRune3 s0 s1 rest).1 = runeError ∧ (decodeRune3 s0 s1 rest).2 = 1)) :
    MultiOk (s0 :: s1 :: rest) (decodeRune3 s0 s1 rest) := by
  cases rest with
  | nil => exact absurd ⟨rfl, rfl⟩ hv
  | cons s2 tail =>
    simp only [decodeRune3] at hv ⊢
    by_cases h2 : s2.val < 0x80 ∨ 0xBF < s2.val
    · rw [if_pos h2] at hv; exact absurd ⟨rfl, rfl⟩ hv
    rw [if_neg h2] at hv ⊢
    by_cases h3 : s0.val < 0xF0
    · rw [if_pos h3]
      have hs1 : 0x80 ≤ s1.val ∧ s1.val ≤ 0xBF := by split_ifs at h1 <;> omega
      have hlo : 0x800 ≤ s0.val % 16 * 4096 + s1.val % 64 * 64 + s2.val % 64 := by
        split_ifs at h1 <;> omega
      have hsur : ¬ (0xD800 ≤ s0.val % 16 * 4096 + s1.val % 64 * 64 + s2.val % 64 ∧
          s0.val % 16 * 4096 + s1.val % 64 * 64 + s2.val % 64 ≤ 0xDFFF) := by
        split_ifs at h1 <;> omega
      show 0x80 ≤ s0.val % 16 * 4096 + s1.val % 64 * 64 + s2.val % 64 ∧
        encodeRune (s0.val % 16 * 4096 + s1.val % 64 * 64 + s2.val % 64) = [s0, s1, s2] ∧
        ∀ b ∈ [s0, s1, s2], 0x80 ≤ b.val
      refine ⟨by omega, ?_, ?_⟩
      · have e1 : ¬ (s0.val % 16 * 4096 + s1.val % 64 * 64 + s2.val % 64 < 0x80) := by omega
        have e2 : ¬ (s0.val % 16 * 4096 + s1.val % 64 * 64 + s2.val % 64 < 0x800) := by omega
        have e3 : ¬ (0x10FFFF < s0.val % 16 * 4096 + s1.val % 64 * 64 + s2.val % 64 ∨
            (0xD800 ≤ s0.val % 16 * 4096 + s1.val % 64 * 64 + s2.val % 64 ∧
             s0.val % 16 * 4096 + s1.val % 64 * 64 + s2.val % 64 ≤ 0xDFFF)) := by omega
        have e4 : s0.val % 16 * 4096 + s1.val % 64 * 64 + s2.val % 64 < 0x10000 := by omega
        simp only [encodeRune]
        rw [if_neg e1, if_neg e2, if_neg e3, if_pos e4]
        rw [toByte_val s0 _ (by omega), toByte_val s1 _ (by omega), toByte_val s2 _ (by omega)]
      · intro b hb
        simp only [List.mem_cons, List.not_mem_nil, or_false] at hb
        rcases hb with rfl | rfl | rfl <;> omega
    · rw [if_neg h3] at hv ⊢
      refine decodeRune4_ok s0 s1 s2 tail ⟨by omega, h0.2⟩ ?_ ⟨by omega, by omega⟩ hv
      split_ifs at h1 ⊢ <;> omega

theorem decodeRune2_ok (s0 : Byte) (rest : Bytes) (h0 : 0xC2 ≤ s0.val ∧ s0.val < 0xF5)
    (hv : ¬((decodeRune2 s0 rest).1 = runeError ∧ (decodeRune2 s0 rest).2 = 1)) :
    MultiOk (s0 :: rest) (decodeRune2 s0 rest) := by
  cases rest with
  | nil => exact absurd ⟨rfl, rfl⟩ hv
  | cons s1 tail =>
    simp only [decodeRune2] at hv ⊢
    by_cases h1 : s1.val < (if s0.val = 0xE0 then 0xA0 else if s0.val = 0xF0 then 0x90 else 0x80) ∨
        (if s0.val = 0xED then 0x9F else if s0.val = 0xF4 then 0x8F else 0xBF) < s1.val
    · rw [if_pos h1] at hv; exact absurd ⟨rfl, rfl⟩ hv
    rw [if_neg h1] at hv ⊢
    by_cases h2 : s0.val < 0xE0
    · rw [if_pos h2]
      have hs1 : 0x80 ≤ s1.val ∧ s1.val ≤ 0xBF := by split_ifs at h1 <;> omega
      show 0x80 ≤ s0.val % 32 * 64 + s1.val % 64 ∧
        encodeRune (s0.val % 32 * 64 + s1.val % 64) = [s0, s1] ∧
        ∀ b ∈ [s0, s1], 0x80 ≤ b.val
      refine ⟨by omega, ?_, ?_⟩
      · have e1 : ¬ (s0.val % 32 * 64 + s1.val % 64 < 0x80) := by omega
        have e2 : s0.val % 32 * 64 + s1.val % 64 < 0x800 := by omega
        simp only [encodeRune]
        rw [if_neg e1, if_pos e2]
        rw [toByte_val s0 _ (by omega), toByte_val s1 _ (by omega)]
      · intro b hb
        simp only [List.mem_cons, List.not_mem_nil, or_false] at hb
        rcases hb with rfl | rfl <;> omega
    · rw [if_neg h2] at hv ⊢
      refine decodeRune3_ok s0 s1 tail ⟨by omega, h0.2⟩ ?_ hv
      constructor <;> · split_ifs at h1 ⊢ <;> omega

/-- A decoding step that starts at a byte of at least 0x80 and is not an error. -/
theorem decodeRune_multi (s0 : Byte) (rest : Bytes) (h0 : 0x80 ≤ s0.val)
    (hv : ¬((decodeRune (s0 :: rest)).1 = runeError ∧ (decodeRune (s0 :: rest)).2 = 1)) :
    MultiOk (s0 :: rest) (decodeRune (s0 :: rest)) := by
  simp only [decodeRune] at hv ⊢
  rw [if_neg (by omega)] at hv ⊢
  by_cases h1 : s0.val < 0xC2 ∨ 0xF5 ≤ s0.val
  · rw [if_pos h1] at hv; exact absurd ⟨rfl, rfl⟩ hv
  rw [if_neg h1] at hv ⊢
  exact decodeRune2_ok s0 rest ⟨by omega, by omega⟩ hv

theorem encodeRune_ne_nil (r : Rune) : encodeRune r ≠ [] := by
  unfold encodeRune
  split_ifs <;> simp

theorem takeWhile_append_of_all {α : Type} (p : α → Bool) (a b : List α)
    (h : ∀ x ∈ a, p x = true) : (a ++ b).takeWhile p = a ++ b.takeWhile p := by
  induction a with
  | nil => rfl
  | cons x xs ih =>
      have hx := h x (List.mem_cons_self _ _)
      simp only [List.cons_append, List.takeWhile_cons, hx, if_true]
      rw [ih (fun y hy => h y (List.mem_cons_of_mem _ hy))]

/-- For a string that is valid UTF-8, the runes that the loop collects up to the
first `.` or `:`, written back as a string, are the bytes of the string up to the
first `.` or `:`. -/
theorem label_of_valid (fuel : Nat) (s : Bytes) (hf : s.length ≤ fuel)
    (hv : validUTF8 fuel s = true) :
    stringOfRunes ((rangeRunes fuel s).takeWhile (fun c => !(c = 46 || c = 58)))
      = s.takeWhile (fun b => !(b = 46 || b = 58)) := by
  induction fuel generalizing s with
  | zero =>
      have : s = [] := List.eq_nil_of_length_eq_zero (by omega)
      subst this
      rfl
  | succ fuel ih =>
      cases s with
      | nil => rfl
      | cons s0 rest =>
        simp only [validUTF8, Bool.and_eq_true, Bool.not_eq_true', decide_eq_false_iff_not] at hv
        obtain ⟨hnerr, hrest⟩ := hv
        by_cases h0 : s0.val < 0x80
        · have hd := decodeRune_ascii s0 rest h0
          rw [hd] at hrest
          simp only [rangeRunes, hd, List.drop_succ_cons, List.drop_zero] at hrest ⊢
          have hsep : (s0.val = 46 ∨ s0.val = 58) ↔ (s0 = 46 ∨ s0 = 58) := by
            constructor
            · rintro (h | h)
              · exact Or.inl (Fin.ext h)
              · exact Or.inr (Fin.ext h)
            · rintro (h | h)
              · subst h; exact Or.inl rfl
              · subst h; exact Or.inr rfl
          by_cases hs : s0.val = 46 ∨ s0.val = 58
          · have hs' := hsep.mp hs
            have e1 : (!(decide (s0.val = 46) || decide (s0.val = 58))) = false := by
              rcases hs with h | h <;> simp [h]
            have e2 : (!(decide (s0 = 46) || decide (s0 = 58))) = false := by
              rcases hs' with h | h <;> simp [h]
            rw [List.takeWhile_cons, List.takeWhile_cons]
            simp only [e1, e2]
            rfl
          · have hs' : ¬ (s0 = 46 ∨ s0 = 58) := fun h => hs (hsep.mpr h)
            have e1 : (!(decide (s0.val = 46) || decide (s0.val = 58))) = true := by
              simpa using hs
            have e2 : (!(decide (s0 = 46) || decide (s0 = 58))) = true := by
              simpa using hs'
            rw [List.takeWhile_cons, List.takeWhile_cons]
            simp only [e1, e2, if_true]
            have henc : encodeRune s0.val = [s0] := by
              simp only [encodeRune]
              rw [if_pos h0, toByte_val s0 _ rfl]
            simp only [stringOfRunes, List.flatMap_cons, henc, List.singleton_append]
            congr 1
            exact ih rest (by simpa using hf) hrest
        · have hm := decodeRune_multi s0 rest (by omega) hnerr
          obtain ⟨hbig, henc, hbytes⟩ := hm
          have hsize : 1 ≤ (decodeRune (s0 :: rest)).2 := by
            rcases Nat.eq_zero_or_pos (decodeRune (s0 :: rest)).2 with hz | hz
            · rw [hz, List.take_zero] at henc
              exact absurd henc (encodeRune_ne_nil _)
            · exact hz
          have e1 : (!(decide ((decodeRune (s0 :: rest)).1 = 46) ||
              decide ((decodeRune (s0 :: rest)).1 = 58))) = true := by
            have hbig' : (128 : Nat) ≤ (decodeRune (s0 :: rest)).1 := hbig
            have h46 : (decodeRune (s0 :: rest)).1 ≠ 46 := by
              intro h; rw [h] at hbig'; exact absurd hbig' (by decide)
            have h58 : (decodeRune (s0 :: rest)).1 ≠ 58 := by
              intro h; rw [h] at hbig'; exact absurd hbig' (by decide)
            simp [h46, h58]
          simp only [rangeRunes]
          rw [List.takeWhile_cons]
          simp only [e1, if_true]
          simp only [stringOfRunes, List.flatMap_cons]
          have hsplit : s0 :: rest = (s0 :: rest).take (decodeRune (s0 :: rest)).2
              ++ (s0 :: rest).drop (decodeRune (s0 :: rest)).2 :=
            (List.take_append_drop _ _).symm
          conv_rhs => rw [hsplit]
          rw [takeWhile_append_of_all _ _ _ (by
            intro b hb
            have hb' := hbytes b hb
            have h46 : b ≠ 46 := by intro h; subst h; revert hb'; decide
            have h58 : b ≠ 58 := by intro h; subst h; revert hb'; decide
            simp [h46, h58]), henc]
          congr 1
          refine ih _ ?_ hrest
          simp only [List.length_drop]
          simp only [List.length_cons] at hf ⊢
          omega

/-! ## Tenant Resolver: claims C13 to C17 -/

/-- C13: `extractTenantCode` returns the `X-Tenant-Code` header whenever it is not
empty, whatever the query parameter and the host are; otherwise the `tenant_code`
query parameter whenever it is not empty, whatever the host is; otherwise
`extractSubdomain` of the host.  In particular a request with header `A` and a host
whose subdomain is `B` resolves to `A`. -/
theorem extractTenantCode_precedence (c : Request) :
    (c.get (ascii "X-Tenant-Code") ≠ [] →
      extractTenantCode c = c.get (ascii "X-Tenant-Code")) ∧
    (c.get (ascii "X-Tenant-Code") = [] → c.query (ascii "tenant_code") ≠ [] →
      extractTenantCode c = c.query (ascii "tenant_code")) ∧
    (c.get (ascii "X-Tenant-Code") = [] → c.query (ascii "tenant_code") = [] →
      extractTenantCode c = extractSubdomain c.hostname) ∧
    (c.get (ascii "X-Tenant-Code") = ascii "A" → extractSubdomain c.hostname = ascii "B" →
      extractTenantCode c = ascii "A") := by
  refine ⟨?_, ?_, ?_, ?_⟩
  · intro h
    simp only [extractTenantCode, if_pos h]
  · intro h1 h2
    simp only [extractTenantCode]
    rw [if_neg (by rw [h1]; exact fun h => h rfl), if_pos h2]
  · intro h1 h2
    simp only [extractTenantCode]
    rw [if_neg (by rw [h1]; exact fun h => h rfl), if_neg (by rw [h2]; exact fun h => h rfl)]
    by_cases h3 : extractSubdomain c.hostname = []
    · rw [if_neg (by rw [h3]; exact fun h => h rfl), h3]
    · rw [if_pos h3]
  · intro h1 _
    simp only [extractTenantCode]
    rw [if_pos (by rw [h1]; decide), h1]

theorem extractTenantCode_precedence_witness :
    extractSubdomain (exampleRequestTo (ascii "A") [] (ascii "B.school-erp.com")).hostname
      = ascii "B" ∧
    extractTenantCode (exampleRequestTo (ascii "A") [] (ascii "B.school-erp.com")) = ascii "A" ∧
    extractTenantCode (exampleRequestTo [] (ascii "q") (ascii "B.school-erp.com")) = ascii "q" ∧
    extractTenantCode (exampleRequestTo [] [] (ascii "B.school-erp.com")) = ascii "B" :=
  ⟨by decide,
   (extractTenantCode_precedence
      (exampleRequestTo (ascii "A") [] (ascii "B.school-erp.com"))).2.2.2 (by decide) (by decide),
   (extractTenantCode_precedence
      (exampleRequestTo [] (ascii "q") (ascii "B.school-erp.com"))).2.1 (by decide) (by decide),
   (extractTenantCode_precedence
      (exampleRequestTo [] [] (ascii "B.school-erp.com"))).2.2.1 (by decide) (by decide)⟩

/-- C14 as stated fails.  A host that begins with `[` (an IPv6 literal) is neither
empty nor a localhost host and its leftmost label `[2001` is not empty, `www` or
`api`, yet `extractSubdomain` returns the empty string.  And for a host that is not
valid UTF-8 the loop reads `RuneError`, so the result is the encoding of U+FFFD and
not a prefix of the host. -/
theorem extractSubdomain_not_leftmost_label :
    (extractSubdomain (ascii "[2001:db8::1]:443") = [] ∧
      (ascii "[2001:db8::1]:443").takeWhile (fun b => !(b = 46 || b = 58)) = ascii "[2001") ∧
    (extractSubdomain (255 :: ascii ".example.com") = [0xEF, 0xBF, 0xBD] ∧
      (255 :: ascii ".example.com").takeWhile (fun b => !(b = 46 || b = 58)) = [255]) := by
  decide

/-- C14, amended: for every hostname `h` that is valid UTF-8 and does not begin
with `localhost:`, `extractSubdomain(h)` is the leftmost label of `h`, the longest
prefix of `h` that contains neither `.` nor `:`, except that the result is the
empty string when `h` is empty, is exactly `localhost` or begins with `[`, or when
that label is empty, `www` or `api`. -/
theorem extractSubdomain_leftmost_label (h : Bytes) (hv : validUTF8 h.length h = true)
    (_hport : h.take 10 ≠ ascii "localhost:") :
    extractSubdomain h =
      if h = [] ∨ h = ascii "localhost" ∨ h.head? = some 91 then []
      else if h.takeWhile (fun b => !(b = 46 || b = 58)) = [] ∨
          h.takeWhile (fun b => !(b = 46 || b = 58)) = ascii "www" ∨
          h.takeWhile (fun b => !(b = 46 || b = 58)) = ascii "api" then []
      else h.takeWhile (fun b => !(b = 46 || b = 58)) := by
  have hl := label_of_valid h.length h (le_refl _) hv
  unfold extractSubdomain
  simp only [hl]
  have hlen : h ≠ [] → h.length > 0 := fun hne => List.length_pos.mpr hne
  split_ifs <;> first | rfl | (exfalso; tauto)

theorem extractSubdomain_leftmost_label_witness :
    validUTF8 (ascii "eis.school-erp.com").length (ascii "eis.school-erp.com") = true ∧
    (ascii "eis.school-erp.com").take 10 ≠ ascii "localhost:" ∧
    extractSubdomain (ascii "eis.school-erp.com") = ascii "eis" :=
  ⟨by decide, by decide,
   (extractSubdomain_leftmost_label (ascii "eis.school-erp.com") (by decide)
      (by decide)).trans (by decide)⟩


/-- C15 fails on the code at the paths under `/api/v1/auth/`.  For every request
whose path is `/api/v1/auth/login`, whatever its method, the function returns
false: the entry `/api/v1/auth` does not end in `/`, so it exempts that exact path
only.  The other paths of the claim are exempt: the six exact paths, and every
path under `/api/v1/schools/`. -/
theorem shouldSkip_auth_login :
    (∀ c : Request, c.path = ascii "/api/v1/auth/login" →
      shouldSkipTenantResolution c = false) ∧
    (∀ c : Request,
      c.path ∈ [ascii "/health", ascii "/api/v1/schools", ascii "/api/v1/auth",
        ascii "/api/v1/metrics", ascii "/api/v1/readiness", ascii "/api/v1/liveness"] →
      shouldSkipTenantResolution c = true) ∧
    (∀ (c : Request) (rest : Bytes), c.path = ascii "/api/v1/schools/" ++ rest →
      shouldSkipTenantResolution c = true) := by
  refine ⟨?_, ?_, ?_⟩
  · intro c hc
    unfold shouldSkipTenantResolution
    rw [hc]
    have h1 : skipPaths.any (matchesSkipPath (ascii "/api/v1/auth/login")) = false := by decide
    have h2 : ascii "/api/v1/auth/login" ≠ ascii "/api/v1/schools" := by decide
    simp [h1, h2]
  · intro c hc
    unfold shouldSkipTenantResolution
    have h : skipPaths.any (matchesSkipPath c.path) = true := by
      simp only [List.mem_cons, List.mem_singleton, List.not_mem_nil, or_false] at hc
      rcases hc with h | h | h | h | h | h <;> rw [h] <;> decide
    rw [if_pos h]
  · intro c rest hc
    unfold shouldSkipTenantResolution
    have h : skipPaths.any (matchesSkipPath c.path) = true := by
      rw [List.any_eq_true]
      refine ⟨ascii "/api/v1/schools/", by decide, ?_⟩
      rw [hc]
      cases rest with
      | nil => simp [matchesSkipPath]
      | cons x xs =>
          have hlast : (ascii "/api/v1/schools/").getD
              ((ascii "/api/v1/schools/").length - 1) 0 = 47 := by decide
          have hpos : (ascii "/api/v1/schools/").length > 0 := by decide
          unfold matchesSkipPath
          simp only [Bool.or_eq_true, Bool.and_eq_true, decide_eq_true_eq]
          refine Or.inr ⟨⟨⟨hpos, hlast⟩, ?_⟩, List.take_left _ _⟩
          simp only [List.length_append, List.length_cons]
          omega
    rw [if_pos h]

/-- C16: for every request that is not exempt and resolves to a tenant code, if
no row of `schools` with that code has status `active` (there is no row with the
code, or there are only inactive or suspended ones), the resolver answers 404
"School not found or inactive"; the manager is untouched and the only call made is
the query, so `GetConnection` is not called, and the outcome is not `c.Next()`.
Two tables without an active row for the code give the same answer and the same
effects: a missing record and an inactive one cannot be told apart. -/
theorem resolver_not_found (G : AEAD) (env : Env) (cfg : TenantResolverConfig) (w : World)
    (c : Request) (schools₁ schools₂ : List SchoolRow)
    (hskip : shouldSkipTenantResolution c = false) (hcode : extractTenantCode c ≠ [])
    (h₁ : ∀ r ∈ schools₁, r.code = extractTenantCode c → r.status ≠ ascii "active")
    (h₂ : ∀ r ∈ schools₂, r.code = extractTenantCode c → r.status ≠ ascii "active") :
    NewTenantResolver G env cfg schools₁ w c
      = (.respond 404
          [(ascii "error", ascii "School not found or inactive"),
           (ascii "tenant_code", extractTenantCode c)],
          cfg.TenantManager,
          w.log (.queryRow cfg.MainDB credentialsSQL [extractTenantCode c] false)) ∧
    NewTenantResolver G env cfg schools₂ w c = NewTenantResolver G env cfg schools₁ w c := by
  have key : ∀ schools : List SchoolRow,
      (∀ r ∈ schools, r.code = extractTenantCode c → r.status ≠ ascii "active") →
      NewTenantResolver G env cfg schools w c
        = (.respond 404
            [(ascii "error", ascii "School not found or inactive"),
             (ascii "tenant_code", extractTenantCode c)],
            cfg.TenantManager,
            w.log (.queryRow cfg.MainDB credentialsSQL [extractTenantCode c] false)) := by
    intro schools hs
    have hq : queryCredentials schools (extractTenantCode c) = none := by
      unfold queryCredentials
      rw [Option.map_eq_none', List.find?_eq_none]
      intro r hr
      simp only [decide_eq_true_eq, not_and]
      exact fun hc => hs r hr hc
    unfold NewTenantResolver
    rw [hskip]
    simp only [Bool.false_eq_true, if_false, if_neg hcode, hq, Option.isSome_none]
  exact ⟨key schools₁ h₁, (key schools₂ h₂).trans (key schools₁ h₁).symm⟩

theorem resolver_not_found_witness :
    NewTenantResolver sumAEAD (exampleEnv (fun _ => true) (fun _ _ => true)) exampleConfig
        [exampleRow (ascii "postgres") 5432 (ascii "school_eis_db") (ascii "suspended")]
        (exampleWorld 1) (exampleRequestTo (ascii "eis") [] [])
      = NewTenantResolver sumAEAD (exampleEnv (fun _ => true) (fun _ _ => true)) exampleConfig
          [] (exampleWorld 1) (exampleRequestTo (ascii "eis") [] []) :=
  (resolver_not_found sumAEAD (exampleEnv (fun _ => true) (fun _ _ => true)) exampleConfig
    (exampleWorld 1) (exampleRequestTo (ascii "eis") [] []) []
    [exampleRow (ascii "postgres") 5432 (ascii "school_eis_db") (ascii "suspended")]
    (by decide) (by decide) (by decide) (by decide)).2

set_option maxRecDepth 100000 in
/-- C17 as stated fails.  The record of `eis` stores the host `tenant-db-7`, the
port 6543 and the database name `custom_db`, and the resolver is configured with
the host `postgres` and the port 5432: the connection is made with the DSN of the
configured host and port and of the database `school_eis_db`, and no DSN of the
host, port and database name of the record is ever used. -/
theorem resolver_ignores_record_host :
    Event.parseConfig (connDSN (ascii "school_eis_user") (ascii "pwd") (ascii "postgres") 5432
        (ascii "school_eis_db")) ∈
      (NewTenantResolver sumAEAD (exampleEnv (fun _ => true) (fun _ _ => true)) exampleConfig
        [exampleRow (ascii "tenant-db-7") 6543 (ascii "custom_db") (ascii "active")]
        (exampleWorld 1) (exampleRequestTo (ascii "eis") [] [])).2.2.trace ∧
    Event.parseConfig (connDSN (ascii "school_eis_user") (ascii "pwd") (ascii "tenant-db-7") 6543
        (ascii "custom_db")) ∉
      (NewTenantResolver sumAEAD (exampleEnv (fun _ => true) (fun _ _ => true)) exampleConfig
        [exampleRow (ascii "tenant-db-7") 6543 (ascii "custom_db") (ascii "active")]
        (exampleWorld 1) (exampleRequestTo (ascii "eis") [] [])).2.2.trace := by
  decide

/-- C17, amended: on a control-plane hit the resolver calls `GetConnection` with
the host and the port of its own configuration (`cfg.DBHost`, `cfg.DBPort`), the
database name `school_<code>_db` formed from the tenant code, and the `db_user`
and encrypted `db_password` of the record; the `db_host`, `db_port` and `db_name` of
the record are not read.  Its outcome is 500 when `GetConnection` fails and
`c.Next()` with the code and the pool otherwise. -/
theorem resolver_hit (G : AEAD) (env : Env) (cfg : TenantResolverConfig) (w : World)
    (c : Request) (schools : List SchoolRow) (row : SchoolRow)
    (hskip : shouldSkipTenantResolution c = false) (hcode : extractTenantCode c ≠ [])
    (hrow : schools.find? (fun r => r.code = extractTenantCode c ∧ r.status = ascii "active")
      = some row) :
    (NewTenantResolver G env cfg schools w c).2
      = (cfg.TenantManager.GetConnection G env
          (w.log (.queryRow cfg.MainDB credentialsSQL [extractTenantCode c] true))
          (extractTenantCode c) cfg.DBHost cfg.DBPort
          (ascii "school_" ++ extractTenantCode c ++ ascii "_db")
          row.db_user row.db_password).2 ∧
    (NewTenantResolver G env cfg schools w c).1
      = (match (cfg.TenantManager.GetConnection G env
          (w.log (.queryRow cfg.MainDB credentialsSQL [extractTenantCode c] true))
          (extractTenantCode c) cfg.DBHost cfg.DBPort
          (ascii "school_" ++ extractTenantCode c ++ ascii "_db")
          row.db_user row.db_password).1 with
        | (_, some _) =>
          .respond 500
            [(ascii "error", ascii "Failed to connect to tenant database"),
             (ascii "tenant_code", extractTenantCode c)]
        | (tenantDB, none) => .next (some (extractTenantCode c, tenantDB))) := by
  have hq : queryCredentials schools (extractTenantCode c)
      = some (row.db_user, row.db_password) := by
    simp only [queryCredentials, hrow, Option.map_some']
  unfold NewTenantResolver
  rw [hskip]
  simp only [Bool.false_eq_true, if_false, if_neg hcode, hq, Option.isSome_some]
  rcases cfg.TenantManager.GetConnection G env
      (w.log (.queryRow cfg.MainDB credentialsSQL [extractTenantCode c] true))
      (extractTenantCode c) cfg.DBHost cfg.DBPort
      (ascii "school_" ++ extractTenantCode c ++ ascii "_db")
      row.db_user row.db_password with ⟨⟨p, _ | e⟩, tm, w'⟩ <;> simp

set_option maxRecDepth 100000 in
theorem resolver_hit_witness :
    (NewTenantResolver sumAEAD (exampleEnv (fun _ => true) (fun _ _ => true)) exampleConfig
        [exampleRow (ascii "tenant-db-7") 6543 (ascii "custom_db") (ascii "active")]
        (exampleWorld 1) (exampleRequestTo (ascii "eis") [] [])).2
      = (exampleConfig.TenantManager.GetConnection sumAEAD
          (exampleEnv (fun _ => true) (fun _ _ => true))
          ((exampleWorld 1).log (.queryRow 0 credentialsSQL [ascii "eis"] true))
          (ascii "eis") (ascii "postgres") 5432 (ascii "school_eis_db")
          (ascii "school_eis_user") exampleBlob).2 :=
  (resolver_hit sumAEAD (exampleEnv (fun _ => true) (fun _ _ => true)) exampleConfig
    (exampleWorld 1) (exampleRequestTo (ascii "eis") [] [])
    [exampleRow (ascii "tenant-db-7") 6543 (ascii "custom_db") (ascii "active")]
    (exampleRow (ascii "tenant-db-7") 6543 (ascii "custom_db") (ascii "active"))
    (by decide) (by decide) (by decide)).1

/-! ## Password complexity: claim C21 -/

/-- C21 fails on the code for a password with a character outside ASCII.  The
password `Aé1!xyz` has seven characters, of which `é` takes two bytes in UTF-8:
`len(password)` counts eight bytes, the length check passes and the function returns
nil, whatever the range tables beyond Latin-1 hold.  The same password written with
`e` has seven bytes and is rejected as shorter than 8 characters. -/
theorem validatePassword_counts_bytes (U : UnicodeTables) :
    ValidatePasswordComplexity U (ascii "A" ++ [0xC3, 0xA9] ++ ascii "1!xyz") = none ∧
    rangeRunes 8 (ascii "A" ++ [0xC3, 0xA9] ++ ascii "1!xyz")
      = [0x41, 0xE9, 0x31, 0x21, 0x78, 0x79, 0x7A] ∧
    ValidatePasswordComplexity U (ascii "Ae1!xyz")
      = some { Message := ascii "Password must be at least 8 characters long" } := by
  refine ⟨rfl, by decide, rfl⟩

/-! ## Rate limiter: claim C22 -/

theorem grantedTimes_append (log : List Decision) (d : Decision) (ip : Bytes) :
    grantedTimes (log ++ [d]) ip =
      grantedTimes log ip ++ (if d.ip = ip ∧ d.allowed = true then [d.time] else []) := by
  unfold grantedTimes
  rw [List.filter_append, List.map_append]
  by_cases h : d.ip = ip ∧ d.allowed = true
  · simp [h]
  · rw [if_neg h, List.filter_cons_of_neg (by simpa using h)]
    simp

/-- The bound on a window that holds the newest granted time. -/
theorem window_bound (L W now lo hi : Int) (G old st : List Time)
    (hperm : G.Perm (old ++ st)) (hold : ∀ a ∈ old, a + W ≤ now)
    (hlen : (st.length : Int) ≤ L) (hw : hi - lo < W) (hnow : now ≤ hi) :
    ((G.filter (fun t => lo ≤ t ∧ t ≤ hi)).length : Int) ≤ L := by
  have h1 := (hperm.filter (fun t => decide (lo ≤ t ∧ t ≤ hi))).length_eq
  rw [h1, List.filter_append, List.length_append]
  have h2 : old.filter (fun t => decide (lo ≤ t ∧ t ≤ hi)) = [] := by
    rw [List.filter_eq_nil_iff]
    intro a ha
    have h0 : (a : Int) + W ≤ now := hold a ha
    simp only [decide_eq_true_eq, not_and, not_le]
    intro h
    omega
  rw [h2]
  have h3 := List.length_filter_le (fun t => decide (lo ≤ t ∧ t ≤ hi)) st
  simp only [List.length_nil, zero_add]
  omega

theorem windowInv_mono (L W T T' : Int) (G st : List Time) (h : WindowInv L W T G st)
    (hT : T ≤ T') : WindowInv L W T' G st := by
  obtain ⟨⟨old, hperm, hold⟩, hle, hlen, hlast, hq⟩ := h
  refine ⟨⟨old, hperm, ?_⟩, ?_, hlen, hlast, hq⟩
  · intro a ha
    have h0 : (a : Int) + W ≤ T := hold a ha
    exact le_trans h0 hT
  · intro a ha
    exact le_trans (hle a ha) hT

theorem windowInv_forget (L W T : Int) (G st : List Time) (h : WindowInv L W T G st)
    (hst : ∀ a ∈ st, a + W ≤ T) (hL : 0 ≤ L) : WindowInv L W T G [] := by
  obtain ⟨⟨old, hperm, hold⟩, _, _, _, hq⟩ := h
  refine ⟨⟨old ++ st, by simpa using hperm, ?_⟩, by simp, by simpa using hL, by simp, hq⟩
  intro a ha
  rcases List.mem_append.mp ha with h1 | h1
  · exact hold a h1
  · exact hst a h1

theorem windowInv_grant (L W T now : Int) (G st : List Time) (h : WindowInv L W T G st)
    (hT : T ≤ now)
    (hvalid : ((st.filter (fun reqTime => now - W < reqTime)).length : Int) < L) :
    WindowInv L W now (G ++ [now]) (st.filter (fun reqTime => now - W < reqTime) ++ [now]) := by
  obtain ⟨⟨old, hperm, hold⟩, hle, _, _, hq⟩ := h
  have hperm' : (G ++ [now]).Perm
      ((old ++ st.filter (fun reqTime => !decide (now - W < reqTime))) ++
        (st.filter (fun reqTime => now - W < reqTime) ++ [now])) := by
    have h1 : st.Perm (st.filter (fun reqTime => !decide (now - W < reqTime)) ++
        st.filter (fun reqTime => decide (now - W < reqTime))) := by
      have := List.filter_append_perm (fun reqTime => decide (now - W < reqTime)) st
      exact (this.symm).trans List.perm_append_comm
    have h2 : (old ++ st).Perm (old ++ (st.filter (fun reqTime => !decide (now - W < reqTime)) ++
        st.filter (fun reqTime => decide (now - W < reqTime)))) := List.Perm.append_left old h1
    have h3 := (hperm.trans h2).append_right [now]
    simpa [List.append_assoc] using h3
  have hold' : ∀ a ∈ old ++ st.filter (fun reqTime => !decide (now - W < reqTime)),
      a + W ≤ now := by
    intro a ha
    rcases List.mem_append.mp ha with h1 | h1
    · have h0 : (a : Int) + W ≤ T := hold a h1
      exact le_trans h0 hT
    · have h0 := (List.mem_filter.mp h1).2
      simp only [Bool.not_eq_true', decide_eq_false_iff_not, not_lt] at h0
      linarith
  have hlen' : (((st.filter (fun reqTime => now - W < reqTime)) ++ [now]).length : Int) ≤ L := by
    rw [List.length_append]
    simp only [List.length_singleton, Nat.cast_add, Nat.cast_one]
    omega
  have hle' : ∀ a ∈ st.filter (fun reqTime => now - W < reqTime) ++ [now], a ≤ now := by
    intro a ha
    rcases List.mem_append.mp ha with h1 | h1
    · exact le_trans (hle a (List.mem_filter.mp h1).1) hT
    · rw [List.mem_singleton.mp h1]
  refine ⟨⟨_, hperm', hold'⟩, hle', hlen', ?_, ?_⟩
  · intro l hl a ha
    rw [List.getLast?_append] at hl
    simp only [List.getLast?_singleton, Option.or_some, Option.some.injEq] at hl
    subst hl
    exact hle' a ha
  · intro lo hi hw
    by_cases hnow : now ≤ hi
    · exact window_bound L W now lo hi _ _ _ hperm' hold' hlen' hw hnow
    · have := hq lo hi hw
      rw [List.filter_append, List.filter_cons_of_neg (by simp; intro _; omega)]
      simpa using this

theorem Allow_limit_window (rl : RateLimiter) (now : Time) (ip : Bytes) :
    (rl.Allow now ip).2.limit = rl.limit ∧ (rl.Allow now ip).2.window = rl.window := by
  unfold RateLimiter.Allow
  cases rl.visitors ip with
  | none => exact ⟨rfl, rfl⟩
  | some visitor =>
      simp only
      split_ifs <;> exact ⟨rfl, rfl⟩

theorem Allow_visitors_ne (rl : RateLimiter) (now : Time) (ip k : Bytes) (h : k ≠ ip) :
    (rl.Allow now ip).2.visitors k = rl.visitors k := by
  unfold RateLimiter.Allow
  cases rl.visitors ip with
  | none => simp only [setVisitor, if_neg h]
  | some visitor =>
      simp only
      split_ifs <;> simp only [setVisitor, if_neg h]

/-- One event keeps the invariant of an IP. -/
theorem limiter_step_inv (ip : Bytes) (L W T : Int) (s : RateLimiter × List Decision)
    (e : LimiterEvent) (hL : 1 ≤ L) (h : LimiterInv ip L W T s) (hT : T ≤ e.time)
    (hc : e.isCleanup = true → W ≤ 24 * hour) :
    LimiterInv ip L W e.time (RateLimiter.step s e) := by
  obtain ⟨hlim, hwin, hinv⟩ := h
  cases e with
  | allow now ip' =>
      simp only [LimiterEvent.time] at hT ⊢
      have hlw := Allow_limit_window s.1 now ip'
      refine ⟨hlw.1.trans hlim, hlw.2.trans hwin, ?_⟩
      simp only [RateLimiter.step]
      rw [grantedTimes_append]
      by_cases hip : ip' = ip
      · subst hip
        simp only [true_and]
        unfold RateLimiter.Allow
        cases hv : s.1.visitors ip' with
        | none =>
            have hst : storedRequests s.1 ip' = [] := by simp only [storedRequests, hv]
            rw [hst] at hinv
            have := windowInv_grant L W T now _ [] hinv hT (by simpa using hL)
            simpa [storedRequests, setVisitor] using this
        | some visitor =>
            have hst : storedRequests s.1 ip' = visitor.requests := by
              simp only [storedRequests, hv]
            rw [hst] at hinv
            simp only
            by_cases hb : now < visitor.blockedUntil
            · simp only [hb, if_true, Bool.false_eq_true, if_false, List.append_nil]
              rw [hst]
              exact windowInv_mono L W T now _ _ hinv hT
            · simp only [hb, if_false]
              by_cases hx : (↑(List.filter (fun reqTime => decide (now - s.1.window < reqTime))
                  visitor.requests).length : Int) ≥ s.1.limit
              · simp only [hx, if_true, Bool.false_eq_true, if_false, List.append_nil]
                simp only [storedRequests, setVisitor, if_true]
                exact windowInv_mono L W T now _ _ hinv hT
              · simp only [hx, if_false, if_true]
                simp only [storedRequests, setVisitor, if_true]
                rw [hwin]
                rw [hwin, hlim] at hx
                exact windowInv_grant L W T now _ _ hinv hT (not_le.mp hx)
      · have hne : ip ≠ ip' := fun h => hip h.symm
        have hvis := Allow_visitors_ne s.1 now ip' ip hne
        have hst : storedRequests (s.1.Allow now ip').2 ip = storedRequests s.1 ip := by
          simp only [storedRequests, hvis]
        rw [hst]
        simp only [hip, false_and, if_false, List.append_nil]
        exact windowInv_mono L W T now _ _ hinv hT
  | cleanup now =>
      simp only [LimiterEvent.time] at hT ⊢
      have hW : W ≤ 24 * hour := hc rfl
      refine ⟨hlim, hwin, ?_⟩
      simp only [RateLimiter.step, RateLimiter.cleanup, storedRequests]
      have hinv' := windowInv_mono L W T now _ _ hinv hT
      cases hv : s.1.visitors ip with
      | none =>
          simp only [storedRequests, hv] at hinv'
          simpa [Option.filter] using hinv'
      | some visitor =>
          simp only [storedRequests, hv] at hinv'
          by_cases hs : visitor.stale now = true
          · simp only [Option.filter, hs, Bool.not_true, Bool.false_eq_true, if_false]
            refine windowInv_forget L W now _ _ hinv' ?_ (by omega)
            intro a ha
            unfold Visitor.stale at hs
            cases hl : visitor.requests.getLast? with
            | none =>
                rw [List.getLast?_eq_none_iff] at hl
                rw [hl] at ha
                exact absurd ha (List.not_mem_nil _)
            | some last =>
                rw [hl] at hs
                simp only [Bool.and_eq_true, decide_eq_true_eq] at hs
                have h1 : (a : Int) ≤ last := hinv'.2.2.2.1 last hl a ha
                have h2 : (last : Int) < now - 24 * hour := hs.1
                linarith
          · simp only [Option.filter, hs, Bool.not_false, if_true]
            simpa using hinv'

/-- A run keeps the invariant of an IP. -/
theorem limiter_run_inv (ip : Bytes) (L W : Int) (hL : 1 ≤ L) (es : List LimiterEvent) :
    ∀ (s : RateLimiter × List Decision) (T : Int), LimiterInv ip L W T s →
      List.Chain (fun a b : Int => a ≤ b) T (es.map LimiterEvent.time) →
      (∀ e ∈ es, e.isCleanup = true → W ≤ 24 * hour) →
      ∃ T', LimiterInv ip L W T' (es.foldl RateLimiter.step s) := by
  induction es with
  | nil => intro s T h _ _; exact ⟨T, h⟩
  | cons e es ih =>
      intro s T h hch hc
      simp only [List.map_cons, List.chain_cons] at hch
      simp only [List.foldl_cons]
      exact ih _ e.time
        (limiter_step_inv ip L W T s e hL h hch.1 (hc e (List.mem_cons_self _ _)))
        hch.2 (fun e' he' => hc e' (List.mem_cons_of_mem _ he'))

theorem limiter_init_inv (ip : Bytes) (L W T : Int) (hL : 1 ≤ L) :
    LimiterInv ip L W T (NewRateLimiter L W, []) := by
  refine ⟨rfl, rfl,
    ⟨[], by simp [grantedTimes, storedRequests, NewRateLimiter], by simp⟩, ?_, ?_, ?_, ?_⟩
  · simp [storedRequests, NewRateLimiter]
  · simp only [storedRequests, NewRateLimiter, List.length_nil]; omega
  · simp [storedRequests, NewRateLimiter]
  · intro lo hi _
    simp only [grantedTimes, List.filter_nil, List.map_nil, List.length_nil]
    omega

/-- C22 as stated fails.  Under `AuthRateLimiter` (5 requests, 15 minutes) an IP
calls `Allow` at 0, 1, 2, 3 and 4 seconds and again at 15 minutes: the request of
time 0 is not after the cutoff `now - window`, so it no longer counts, and all six
calls return true, although their times lie in the interval from 0 to 15 minutes,
whose length is the window.  And a limiter with limit 0 allows the first call of
an IP, which is not checked against the limit. -/
theorem allow_closed_window_exceeds_limit :
    (granted (AuthRateLimiter.run
        [.allow 0 (ascii "10.0.0.7"), .allow (1 * second) (ascii "10.0.0.7"),
         .allow (2 * second) (ascii "10.0.0.7"), .allow (3 * second) (ascii "10.0.0.7"),
         .allow (4 * second) (ascii "10.0.0.7"), .allow (15 * minute) (ascii "10.0.0.7")]).2
        (ascii "10.0.0.7") 0 (15 * minute) = 6 ∧
      AuthRateLimiter.limit = 5 ∧ 15 * minute - 0 = AuthRateLimiter.window) ∧
    (granted ((NewRateLimiter 0 (15 * minute)).run [.allow 0 (ascii "10.0.0.7")]).2
        (ascii "10.0.0.7") 0 0 = 1) := by
  decide

/-- C22, amended: for every rate limiter with limit `L` of at least 1 and window
`W`, every run of `Allow` calls (of any IPs) and ticks of the cleanup goroutine at
non-decreasing times, and every IP, at most `L` of the calls of that IP whose times
lie in one span shorter than `W` (from `lo` to `hi` with `hi - lo < W`) return true;
if the cleanup ticks during the run, `W` is taken to be at most the 24 hours after
which it deletes a visitor. -/
theorem allow_window_bound (L W : Int) (es : List LimiterEvent) (ip : Bytes) (lo hi : Time)
    (hL : 1 ≤ L) (hsorted : (es.map LimiterEvent.time).Pairwise (fun a b => a ≤ b))
    (hclean : ∀ e ∈ es, e.isCleanup = true → W ≤ 24 * hour)
    (hspan : hi - lo < W) :
    (granted ((NewRateLimiter L W).run es).2 ip lo hi : Int) ≤ L := by
  have hchain : ∃ T, List.Chain (fun a b : Int => a ≤ b) T (es.map LimiterEvent.time) := by
    cases es with
    | nil => exact ⟨0, List.Chain.nil⟩
    | cons e es =>
        refine ⟨e.time, ?_⟩
        have h1 : List.Chain (fun a b : Int => a ≤ b) e.time (es.map LimiterEvent.time) :=
          List.Pairwise.chain hsorted
        exact List.Chain.cons (le_refl _) h1
  obtain ⟨T, hT⟩ := hchain
  obtain ⟨T', _, _, hinv⟩ :=
    limiter_run_inv ip L W hL es _ T (limiter_init_inv ip L W T hL) hT hclean
  exact hinv.2.2.2.2 lo hi hspan

theorem allow_window_bound_witness :
    (1 : Int) ≤ 5 ∧
    (([.allow 0 (ascii "10.0.0.7"), .allow (1 * second) (ascii "10.0.0.7"),
       .allow (2 * second) (ascii "10.0.0.7"), .allow (3 * second) (ascii "10.0.0.7"),
       .allow (4 * second) (ascii "10.0.0.7"), .cleanup (10 * minute),
       .allow (15 * minute) (ascii "10.0.0.7")] : List LimiterEvent).map
      LimiterEvent.time).Pairwise (fun a b => a ≤ b) ∧
    15 * minute - 1 * second < 15 * minute ∧
    (granted (AuthRateLimiter.run
        [.allow 0 (ascii "10.0.0.7"), .allow (1 * second) (ascii "10.0.0.7"),
         .allow (2 * second) (ascii "10.0.0.7"), .allow (3 * second) (ascii "10.0.0.7"),
         .allow (4 * second) (ascii "10.0.0.7"), .cleanup (10 * minute),
         .allow (15 * minute) (ascii "10.0.0.7")]).2
        (ascii "10.0.0.7") (1 * second) (15 * minute) : Int) ≤ 5 :=
  ⟨by decide, by decide, by decide,
   allow_window_bound 5 (15 * minute)
     [.allow 0 (ascii "10.0.0.7"), .allow (1 * second) (ascii "10.0.0.7"),
      .allow (2 * second) (ascii "10.0.0.7"), .allow (3 * second) (ascii "10.0.0.7"),
      .allow (4 * second) (ascii "10.0.0.7"), .cleanup (10 * minute),
      .allow (15 * minute) (ascii "10.0.0.7")]
     (ascii "10.0.0.7") (1 * second) (15 * minute)
     (by decide) (by decide) (fun _ _ _ => by decide) (by decide)⟩

/-! ## Pool eviction and configuration: claims C23 and C24 -/

set_option maxRecDepth 100000 in
/-- C23 fails on the code.  The cache holds pool 3 for `eis` and its ping fails:
`GetConnection` deletes the entry, creates pool 4, caches and returns it, and the
calls it made are the failed ping, the decryption, the DSN parse, the pool creation
and the ping of pool 4.  Pool 3 is never closed.  `CloseConnection`, which also
removes an entry, does close its pool. -/
theorem getConnection_leaves_dead_pool_open :
    ((exampleManager [(ascii "eis", 3)]).GetConnection sumAEAD
        (exampleEnv (fun p => decide (p ≠ 3)) (fun _ _ => true)) (exampleWorld 4)
        (ascii "eis") (ascii "postgres") 5432 (ascii "school_eis_db") (ascii "school_eis_user")
        exampleBlob).1 = (some 4, none) ∧
    ((exampleManager [(ascii "eis", 3)]).GetConnection sumAEAD
        (exampleEnv (fun p => decide (p ≠ 3)) (fun _ _ => true)) (exampleWorld 4)
        (ascii "eis") (ascii "postgres") 5432 (ascii "school_eis_db") (ascii "school_eis_user")
        exampleBlob).2.1.dbConnections = [(ascii "eis", 4)] ∧
    ((exampleManager [(ascii "eis", 3)]).GetConnection sumAEAD
        (exampleEnv (fun p => decide (p ≠ 3)) (fun _ _ => true)) (exampleWorld 4)
        (ascii "eis") (ascii "postgres") 5432 (ascii "school_eis_db") (ascii "school_eis_user")
        exampleBlob).2.2.trace
      = [Event.ping 3 false,
         Event.decrypt exampleBlob,
         Event.parseConfig (connDSN (ascii "school_eis_user") (ascii "pwd") (ascii "postgres") 5432
            (ascii "school_eis_db")),
         Event.newWithConfig
           { dsn := connDSN (ascii "school_eis_user") (ascii "pwd") (ascii "postgres") 5432
                (ascii "school_eis_db"),
             MaxConns := 10, MinConns := 1, MaxConnLifetime := 1800 * second,
             ConnectTimeout := 5 * second } (some 4),
         Event.ping 4 true] ∧
    Event.close 3 ∉
      ((exampleManager [(ascii "eis", 3)]).GetConnection sumAEAD
        (exampleEnv (fun p => decide (p ≠ 3)) (fun _ _ => true)) (exampleWorld 4)
        (ascii "eis") (ascii "postgres") 5432 (ascii "school_eis_db") (ascii "school_eis_user")
        exampleBlob).2.2.trace ∧
    ((exampleManager [(ascii "eis", 3)]).CloseConnection (exampleWorld 4) (ascii "eis")).2.trace
      = [Event.close 3] := by
  decide

/-- The events that `dial` adds to the trace; a pool it creates has the
configuration that `GetConnection` sets. -/
theorem dial_trace (G : AEAD) (env : Env) (tm : TenantManager) (w : World)
    (host : Bytes) (port : Int) (dbName user enc : Bytes) :
    ∃ s, (tm.dial G env w host port dbName user enc).2.trace = w.trace ++ s ∧
      (∀ cfg p, Event.newWithConfig cfg p ∈ s →
        cfg.MaxConns = tm.maxOpenConns ∧ cfg.MinConns = 1 ∧
        cfg.MaxConnLifetime = tm.connMaxLifetime ∧ cfg.ConnectTimeout = tm.connectionTimeout) ∧
      (∀ e ∈ s, e.isEncrypt = false) := by
  unfold TenantManager.dial
  rcases hd : tm.cipher.Decrypt G enc with ⟨password, _ | err⟩
  · simp only
    cases hp : env.parseConfig (connDSN user password host port dbName) with
    | none =>
        refine ⟨_, by simp only [World.log, List.append_assoc]; rfl, ?_, ?_⟩
        · intro cfg p h; simp at h
        · intro e he; simp at he; rcases he with rfl | rfl <;> rfl
    | some config =>
        simp only
        by_cases hn : env.newWithConfig { config with
            MaxConns := tm.maxOpenConns, MinConns := 1,
            MaxConnLifetime := tm.connMaxLifetime, ConnectTimeout := tm.connectionTimeout } = true
        · rw [if_pos hn]
          by_cases hping : env.ping w.nextPool = true
          · simp only [World.log, hping, if_true]
            refine ⟨_, by simp only [List.append_assoc]; rfl, ?_, ?_⟩
            · intro cfg p h
              simp at h
              obtain ⟨rfl, _⟩ := h
              exact ⟨rfl, rfl, rfl, rfl⟩
            · intro e he; simp at he; rcases he with rfl | rfl | rfl | rfl <;> rfl
          · simp only [World.log, hping]
            refine ⟨_, by simp only [Bool.false_eq_true, if_false, List.append_assoc]; rfl, ?_, ?_⟩
            · intro cfg p h
              simp at h
              obtain ⟨rfl, _⟩ := h
              exact ⟨rfl, rfl, rfl, rfl⟩
            · intro e he; simp at he; rcases he with rfl | rfl | rfl | rfl | rfl <;> rfl
        · rw [if_neg hn]
          refine ⟨_, by simp only [World.log, List.append_assoc]; rfl, ?_, ?_⟩
          · intro cfg p h
            simp at h
            obtain ⟨rfl, _⟩ := h
            exact ⟨rfl, rfl, rfl, rfl⟩
          · intro e he; simp at he; rcases he with rfl | rfl | rfl <;> rfl
  · refine ⟨_, by simp only [World.log]; rfl, ?_, ?_⟩
    · intro cfg p h; simp at h
    · intro e he; simp at he; subst he; rfl

/-- The events that `GetConnection` adds to the trace. -/
theorem GetConnection_trace (G : AEAD) (env : Env) (tm : TenantManager) (w : World)
    (code host : Bytes) (port : Int) (dbName user enc : Bytes) :
    ∃ s, (tm.GetConnection G env w code host port dbName user enc).2.2.trace = w.trace ++ s ∧
      (∀ cfg p, Event.newWithConfig cfg p ∈ s →
        cfg.MaxConns = tm.maxOpenConns ∧ cfg.MinConns = 1 ∧
        cfg.MaxConnLifetime = tm.connMaxLifetime ∧ cfg.ConnectTimeout = tm.connectionTimeout) ∧
      (∀ e ∈ s, e.isEncrypt = false) := by
  have hconn : ∀ (tm' : TenantManager) (w' : World),
      (tm'.connect G env w' code host port dbName user enc).2.2
        = (tm'.dial G env w' host port dbName user enc).2 := by
    intro tm' w'
    unfold TenantManager.connect
    split
    · next pool w1 heq => rw [heq]
    · next r w1 _ heq => rw [heq]
  unfold TenantManager.GetConnection
  cases hc : mapGet tm.dbConnections code with
  | none =>
      simp only
      rw [hconn]
      exact dial_trace G env tm w host port dbName user enc
  | some conn =>
      simp only
      by_cases hp : env.ping conn = true
      · simp only [hp, if_true]
        refine ⟨[Event.ping conn true], rfl, ?_, ?_⟩
        · intro cfg p h; simp at h
        · intro e he; simp at he; subst he; rfl
      · simp only [hp, Bool.false_eq_true, if_false]
        rw [hconn]
        obtain ⟨s, hs, hcfg, henc⟩ := dial_trace G env
          { tm with dbConnections := mapDelete tm.dbConnections code }
          (w.log (.ping conn false)) host port dbName user enc
        have hp' : env.ping conn = false := by simpa using hp
        refine ⟨Event.ping conn false :: s, ?_, ?_, ?_⟩
        · rw [hs]
          simp [World.log]
        · intro cfg p h
          simp only [List.mem_cons, reduceCtorEq, false_or] at h
          exact hcfg cfg p h
        · intro e he
          rcases List.mem_cons.mp he with rfl | h
          · rfl
          · exact henc e h

/-- The manager that `NewTenantManager` returns. -/
theorem NewTenantManager_eq (encryptionKey : Bytes) (maxOpenConns maxIdleConns connMaxLifetime : Int)
    (postgresPassword : Bytes) :
    NewTenantManager encryptionKey maxOpenConns maxIdleConns connMaxLifetime postgresPassword
      = (some { cipher := (NewCipher encryptionKey).1
                dbConnections := []
                maxOpenConns := maxOpenConns
                maxIdleConns := maxIdleConns
                connMaxLifetime := connMaxLifetime
                connectionTimeout := 5 * second
                postgresPassword := postgresPassword }, none) := by
  simp [NewTenantManager, NewCipher]

set_option maxRecDepth 100000 in
/-- C24 as stated fails.  The manager that `NewTenantManager` builds from
`maxIdleConns = 2` creates its pool with `MinConns = 1` and a connect timeout of
5 seconds; built from `maxIdleConns = 7` it creates the pool with the very same
configuration.  `NewTenantManager` has no parameter for the timeout. -/
theorem pool_config_ignores_maxIdleConns :
    (NewTenantManager (ascii "tenant-secret") 10 2 (1800 * second) (ascii "postgres")).1
      = some (exampleManager []) ∧
    (exampleManager []).maxIdleConns = 2 ∧
    Event.newWithConfig
        { dsn := connDSN (ascii "school_eis_user") (ascii "pwd") (ascii "postgres") 5432
            (ascii "school_eis_db"),
          MaxConns := 10, MinConns := 1, MaxConnLifetime := 1800 * second,
          ConnectTimeout := 5 * second } (some 4) ∈
      ((exampleManager []).GetConnection sumAEAD
        (exampleEnv (fun _ => true) (fun _ _ => true)) (exampleWorld 4)
        (ascii "eis") (ascii "postgres") 5432 (ascii "school_eis_db") (ascii "school_eis_user")
        exampleBlob).2.2.trace ∧
    (∃ tm, (NewTenantManager (ascii "tenant-secret") 10 7 (1800 * second) (ascii "postgres")).1
        = some tm ∧
      Event.newWithConfig
        { dsn := connDSN (ascii "school_eis_user") (ascii "pwd") (ascii "postgres") 5432
            (ascii "school_eis_db"),
          MaxConns := 10, MinConns := 1, MaxConnLifetime := 1800 * second,
          ConnectTimeout := 5 * second } (some 4) ∈
        (tm.GetConnection sumAEAD
          (exampleEnv (fun _ => true) (fun _ _ => true)) (exampleWorld 4)
          (ascii "eis") (ascii "postgres") 5432 (ascii "school_eis_db") (ascii "school_eis_user")
          exampleBlob).2.2.trace) := by
  refine ⟨by decide, by decide, by decide, ⟨_, rfl, by decide⟩⟩

/-- C24, amended: every pool that `GetConnection` creates on a manager built by
`NewTenantManager`, whatever its cache holds, is created with max connections
`maxOpenConns` and max connection lifetime `connMaxLifetime` as they were supplied
to `NewTenantManager`, the minimum connection count 1 (`maxIdleConns` is stored and
not read) and the connect timeout of 5 seconds that `NewTenantManager` sets. -/
theorem getConnection_pool_config (G : AEAD) (env : Env) (encryptionKey : Bytes)
    (maxOpenConns maxIdleConns connMaxLifetime : Int) (postgresPassword : Bytes)
    (tm : TenantManager) (cache : PoolMap) (w : World) (a : CallArgs)
    (cfg : PoolConfig) (p : Option Pool)
    (hnew : NewTenantManager encryptionKey maxOpenConns maxIdleConns connMaxLifetime
      postgresPassword = (some tm, none))
    (hev : Event.newWithConfig cfg p ∈
      (({ tm with dbConnections := cache }).GetConnection G env w a.schoolCode a.host a.port
        a.dbName a.user a.encryptedPassword).2.2.trace.drop w.trace.length) :
    cfg.MaxConns = maxOpenConns ∧ cfg.MinConns = 1 ∧ cfg.MaxConnLifetime = connMaxLifetime ∧
      cfg.ConnectTimeout = 5 * second := by
  rw [NewTenantManager_eq] at hnew
  obtain ⟨s, hs, hcfg, _⟩ := GetConnection_trace G env { tm with dbConnections := cache } w
    a.schoolCode a.host a.port a.dbName a.user a.encryptedPassword
  rw [hs, List.drop_left] at hev
  have h := hcfg cfg p hev
  simp only [Prod.mk.injEq, Option.some.injEq, and_true] at hnew
  subst hnew
  exact h

set_option maxRecDepth 100000 in
theorem getConnection_pool_config_witness :
    NewTenantManager (ascii "tenant-secret") 10 2 (1800 * second) (ascii "postgres")
      = (some (exampleManager []), none) ∧
    Event.newWithConfig
        { dsn := connDSN (ascii "school_eis_user") (ascii "pwd") (ascii "postgres") 5432
            (ascii "school_eis_db"),
          MaxConns := 10, MinConns := 1, MaxConnLifetime := 1800 * second,
          ConnectTimeout := 5 * second } (some 4) ∈
      (({ exampleManager [] with dbConnections := [(ascii "eis", 3)] }).GetConnection sumAEAD
        (exampleEnv (fun _ => true) (fun _ _ => true)) (exampleWorld 4)
        (ascii "abc") (ascii "postgres") 5432 (ascii "school_eis_db") (ascii "school_eis_user")
        exampleBlob).2.2.trace.drop (exampleWorld 4).trace.length ∧
    ((10 : Int) = 10 ∧ (1 : Int) = 1 ∧ 1800 * second = 1800 * second ∧
      5 * second = 5 * second) :=
  ⟨by decide, by decide,
   getConnection_pool_config sumAEAD (exampleEnv (fun _ => true) (fun _ _ => true))
     (ascii "tenant-secret") 10 2 (1800 * second) (ascii "postgres") (exampleManager [])
     [(ascii "eis", 3)] (exampleWorld 4)
     { exampleArgs with schoolCode := ascii "abc" }
     { dsn := connDSN (ascii "school_eis_user") (ascii "pwd") (ascii "postgres") 5432
          (ascii "school_eis_db"),
       MaxConns := 10, MinConns := 1, MaxConnLifetime := 1800 * second,
       ConnectTimeout := 5 * second } (some 4)
     (by decide) (by decide)⟩

/-! ## Hosts `localhost:port`: claim C25 -/

theorem rangeRunes_ascii (fuel : Nat) (b : Byte) (rest : Bytes) (h : b.val < 0x80) :
    rangeRunes (fuel + 1) (b :: rest) = b.val :: rangeRunes fuel rest := by
  simp only [rangeRunes, decodeRune_ascii b rest h, List.drop_succ_cons, List.drop_zero]

/-- When a host starts with ASCII bytes other than `.` and `:` followed by a `:`,
the loop of `extractSubdomain` collects exactly those bytes. -/
theorem label_of_ascii_prefix (pre rest : Bytes) :
    ∀ fuel, pre.length < fuel → (∀ b ∈ pre, b.val < 0x80 ∧ b.val ≠ 46 ∧ b.val ≠ 58) →
    stringOfRunes ((rangeRunes fuel (pre ++ 58 :: rest)).takeWhile
      (fun c => !(c = 46 || c = 58))) = pre := by
  induction pre with
  | nil =>
      intro fuel hf _
      obtain ⟨f, rfl⟩ : ∃ f, fuel = f + 1 := ⟨fuel - 1, by simp at hf; omega⟩
      rw [List.nil_append, rangeRunes_ascii f 58 rest (by decide)]
      rfl
  | cons b pre ih =>
      intro fuel hf hpre
      obtain ⟨f, rfl⟩ : ∃ f, fuel = f + 1 := ⟨fuel - 1, by simp at hf; omega⟩
      obtain ⟨hb, h46, h58⟩ := hpre b (List.mem_cons_self _ _)
      rw [List.cons_append, rangeRunes_ascii f b _ hb, List.takeWhile_cons]
      have e1 : (!(decide (b.val = 46) || decide (b.val = 58))) = true := by simp [h46, h58]
      simp only [e1, if_true, stringOfRunes, List.flatMap_cons]
      have henc : encodeRune b.val = [b] := by
        simp only [encodeRune]
        rw [if_pos hb, toByte_val b _ rfl]
      rw [henc, List.singleton_append]
      congr 1
      exact ih f (by simp at hf; omega) (fun c hc => hpre c (List.mem_cons_of_mem _ hc))

set_option maxRecDepth 8000 in
/-- C25 fails on the code.  For every host of the form `localhost:port`, whatever
the bytes after the colon are, `extractSubdomain` returns `localhost`, not the empty
string: the guard under the comment "For localhost:port, return empty" compares the
host with `localhost` alone, so the loop runs and collects the bytes before the
colon.  So it is for `localhost:3000`. -/
theorem extractSubdomain_localhost_port (port : Bytes) :
    extractSubdomain (ascii "localhost:" ++ port) = ascii "localhost" ∧
    extractSubdomain (ascii "localhost:3000") = ascii "localhost" := by
  refine ⟨?_, by decide⟩
  have hl : ascii "localhost:" ++ port = ascii "localhost" ++ 58 :: port := by
    have : ascii "localhost:" = ascii "localhost" ++ [58] := by decide
    rw [this, List.append_assoc]; rfl
  have hlab := label_of_ascii_prefix (ascii "localhost") port
    (ascii "localhost" ++ 58 :: port).length (by simp) (by decide)
  unfold extractSubdomain
  rw [hl]
  simp only [hlab]
  have h1 : ¬ (ascii "localhost" ++ 58 :: port = [] ∨
      ascii "localhost" ++ 58 :: port = ascii "localhost") := by
    intro h
    rcases h with h | h
    · exact absurd (congrArg List.length h) (by simp)
    · exact absurd (congrArg List.length h) (by simp)
  have h2 : ¬ (ascii "localhost" ++ 58 :: port = ascii "localhost" ∨
      ((ascii "localhost" ++ 58 :: port).length > 0 ∧
        (ascii "localhost" ++ 58 :: port).head? = some 91)) := by
    intro h
    rcases h with h | h
    · exact absurd (congrArg List.length h) (by simp)
    · have : (ascii "localhost" ++ 58 :: port).head? = some 108 := rfl
      rw [this] at h
      exact absurd h.2 (by decide)
  rw [if_neg h1, if_neg h2]
  have h3 : ¬ (ascii "localhost" = ascii "www" ∨ ascii "localhost" = ascii "api" ∨
      ascii "localhost" = []) := by decide
  rw [if_neg h3]

/-! ## Encryption and provisioning: claim C26 -/

/-- The events that `CreateTenantDatabase` adds to the trace: the encryption
first, and no other encryption. -/
theorem CreateTenantDatabase_trace (G : AEAD) (env : Env) (tm : TenantManager) (w : World)
    (mainDB : Pool) (code dbName dbUser dbPassword : Bytes) :
    ∃ s, (tm.CreateTenantDatabase G env w mainDB code dbName dbUser dbPassword).2.trace
        = w.trace ++ Event.encrypt dbPassword :: s ∧
      ∀ e ∈ s, e.isEncrypt = false := by
  unfold TenantManager.CreateTenantDatabase Cipher.encryptRand
  rcases henc : tm.cipher.Encrypt G (env.rand w.rndReads) dbPassword with ⟨blob, _ | err⟩
  · simp only [World.log]
    split_ifs <;>
      exact ⟨_, by simp only [List.append_assoc, List.cons_append, List.nil_append]; rfl,
        by simp [Event.isEncrypt]⟩
  · exact ⟨[], by simp [World.log], by simp⟩

/-- The events that `DropTenantDatabase` adds to the trace. -/
theorem DropTenantDatabase_trace (env : Env) (tm : TenantManager) (w : World) (mainDB : Pool)
    (code dbName : Bytes) :
    ∃ s, (tm.DropTenantDatabase env w mainDB code dbName).2.2.trace = w.trace ++ s ∧
      ∀ e ∈ s, e.isEncrypt = false := by
  rw [DropTenantDatabase_eq]
  cases mapGet tm.dbConnections code with
  | none => exact ⟨_, by simp only [List.append_assoc]; rfl, by simp [Event.isEncrypt]⟩
  | some conn => exact ⟨_, by simp only [List.append_assoc]; rfl, by simp [Event.isEncrypt]⟩

set_option maxRecDepth 100000 in
/-- C26 as stated fails.  In a tenant creation where every step succeeds, the first
three calls are the `Encrypt` of `CreateSchool`, the `Encrypt` at the start of
`CreateTenantDatabase` and only then the statement that creates the role.  And when
the `CREATE DATABASE` fails, so that provisioning never succeeds, both encryptions
have been made all the same. -/
theorem createSchool_encrypts_before_create_role :
    (exampleHandler.CreateSchool sumAEAD (exampleEnv (fun _ => true) (fun _ _ => true))
        (exampleWorld 1) exampleRequest).2.2.trace.take 3
      = [Event.encrypt (ascii "s3cr3t"),
         Event.encrypt (ascii "s3cr3t"),
         Event.exec 0 (createUserSQL (ascii "school_eis_user") (ascii "s3cr3t")) true] ∧
    ((exampleHandler.CreateSchool sumAEAD
        (exampleEnv (fun _ => true) (fun _ sql => decide (sql ≠ createDBSQL (ascii "school_eis_db"))))
        (exampleWorld 1) exampleRequest).1 = .error 500 (ascii "Failed to create database") ∧
      (exampleHandler.CreateSchool sumAEAD
        (exampleEnv (fun _ => true) (fun _ sql => decide (sql ≠ createDBSQL (ascii "school_eis_db"))))
        (exampleWorld 1) exampleRequest).2.2.trace
      = [Event.encrypt (ascii "s3cr3t"),
         Event.encrypt (ascii "s3cr3t"),
         Event.exec 0 (createUserSQL (ascii "school_eis_user") (ascii "s3cr3t")) true,
         Event.exec 0 (createDBSQL (ascii "school_eis_db")) false]) := by
  decide

/-- C26, amended: during tenant creation the plaintext database password is
encrypted before provisioning, not after it.  The calls that `CreateSchool` makes
split into a first part that holds only reads of the random source and calls of the
cipher's `Encrypt`, and a second part, from the first provisioning call on, that
holds no call of `Encrypt`; whenever the second part is not empty, the first part
holds exactly two `Encrypt` calls of the same plaintext (the one of `CreateSchool`
and the one at the start of `CreateTenantDatabase`). -/
theorem createSchool_encrypts_first (G : AEAD) (env : Env) (h : SchoolHandler) (w : World)
    (req : CreateSchoolRequest) :
    ∃ pre post, (h.CreateSchool G env w req).2.2.trace = w.trace ++ pre ++ post ∧
      (∀ e ∈ pre, e.isEncrypt = true ∨ e.isRandRead = true) ∧
      (∀ e ∈ post, e.isEncrypt = false) ∧
      (post ≠ [] → ∃ p, pre.filter Event.isEncrypt = [Event.encrypt p, Event.encrypt p]) := by
  have hg : ∃ g, (if req.DBPassword = [] then generateRandomPassword env w 16
      else (req.DBPassword, w)).2.trace = w.trace ++ g ∧ ∀ e ∈ g, e.isRandRead = true ∧
        e.isEncrypt = false := by
    split
    · unfold generateRandomPassword World.readRand
      split <;> rename_i hh <;> simp only [Prod.mk.injEq] at hh <;> obtain ⟨_, rfl⟩ := hh <;>
        exact ⟨[Event.randRead 16], rfl, by simp [Event.isRandRead, Event.isEncrypt]⟩
    · exact ⟨[], by simp, by simp⟩
  generalize hr : h.CreateSchool G env w req = r
  unfold SchoolHandler.CreateSchool at hr
  simp only at hr
  generalize (if req.DBPassword = [] then generateRandomPassword env w 16
      else (req.DBPassword, w)) = pw at hr hg
  generalize (if req.DBUser = [] then ascii "school_" ++ req.Code ++ ascii "_user"
      else req.DBUser) = dbUser at hr
  obtain ⟨g, hgt, hgr⟩ := hg
  have hfilter : g.filter Event.isEncrypt = [] := by
    rw [List.filter_eq_nil_iff]
    intro e he
    simp [(hgr e he).2]
  have hw2 : (h.tenantManager.EncryptPassword G env pw.2 pw.1).2.trace
      = w.trace ++ (g ++ [Event.encrypt pw.1]) := by
    simp [TenantManager.EncryptPassword, Cipher.encryptRand, World.log, hgt]
  have hpre1 : ∀ e ∈ g ++ [Event.encrypt pw.1], e.isEncrypt = true ∨ e.isRandRead = true := by
    intro e he
    rcases List.mem_append.mp he with h1 | h1
    · exact Or.inr (hgr e h1).1
    · rw [List.mem_singleton.mp h1]; exact Or.inl rfl
  have hpre2 : ∀ e ∈ g ++ [Event.encrypt pw.1, Event.encrypt pw.1],
      e.isEncrypt = true ∨ e.isRandRead = true := by
    intro e he
    rcases List.mem_append.mp he with h1 | h1
    · exact Or.inr (hgr e h1).1
    · simp only [List.mem_cons, List.mem_singleton, List.mem_nil_iff, or_false, or_self] at h1
      rw [h1]; exact Or.inl rfl
  have hfil2 : (g ++ [Event.encrypt pw.1, Event.encrypt pw.1]).filter Event.isEncrypt
      = [Event.encrypt pw.1, Event.encrypt pw.1] := by
    rw [List.filter_append, hfilter]
    rfl
  -- what remains once the database has been created adds no encryption
  have hrest : ∀ (w3 : World) (s3 : List Event), w3.trace = w.trace ++
      (g ++ [Event.encrypt pw.1, Event.encrypt pw.1]) ++ s3 → (∀ e ∈ s3, e.isEncrypt = false) →
      ∀ (w' : World) (t : List Event), w'.trace = w3.trace ++ t → (∀ e ∈ t, e.isEncrypt = false) →
      ∃ pre post, w'.trace = w.trace ++ pre ++ post ∧
        (∀ e ∈ pre, e.isEncrypt = true ∨ e.isRandRead = true) ∧
        (∀ e ∈ post, e.isEncrypt = false) ∧
        (post ≠ [] → ∃ p, pre.filter Event.isEncrypt = [Event.encrypt p, Event.encrypt p]) := by
    intro w3 s3 h3 hs3 w' t ht hts
    refine ⟨g ++ [Event.encrypt pw.1, Event.encrypt pw.1], s3 ++ t, ?_, hpre2, ?_,
      fun _ => ⟨pw.1, hfil2⟩⟩
    · rw [ht, h3]; simp only [List.append_assoc]
    · intro e he
      rcases List.mem_append.mp he with h1 | h1
      · exact hs3 e h1
      · exact hts e h1
  split at hr
  · next w2 henc =>
    subst hr
    rw [henc] at hw2
    simp only at hw2
    exact ⟨g ++ [Event.encrypt pw.1], [], by simp [hw2], hpre1, by simp, fun hne => absurd rfl hne⟩
  · next enc w2 henc =>
    rw [henc] at hw2
    simp only at hw2
    obtain ⟨s3, hs3, hs3e⟩ := CreateTenantDatabase_trace G env h.tenantManager w2 h.db req.Code
      (ascii "school_" ++ req.Code ++ ascii "_db") dbUser pw.1
    have hw3 : (h.tenantManager.CreateTenantDatabase G env w2 h.db req.Code
        (ascii "school_" ++ req.Code ++ ascii "_db") dbUser pw.1).2.trace
        = w.trace ++ (g ++ [Event.encrypt pw.1, Event.encrypt pw.1]) ++ s3 := by
      rw [hs3, hw2]; simp only [List.append_assoc, List.cons_append, List.nil_append,
        List.singleton_append]
    split at hr
    · next w3 hcreate =>
      subst hr
      rw [hcreate] at hw3
      exact hrest w3 s3 hw3 hs3e w3 [] (by simp) (by simp)
    · next w3 hcreate =>
      rw [hcreate] at hw3
      simp only at hw3
      obtain ⟨s4, hs4, _, hs4e⟩ := GetConnection_trace G env h.tenantManager w3 req.Code
        (ascii "postgres") 5432 (ascii "school_" ++ req.Code ++ ascii "_db") dbUser enc
      split at hr
      · next tm w4 hconn =>
        rw [hconn] at hs4
        simp only at hs4
        obtain ⟨s5, hs5, hs5e⟩ := DropTenantDatabase_trace env tm w4 h.db req.Code
          (ascii "school_" ++ req.Code ++ ascii "_db")
        subst hr
        refine hrest w3 s3 hw3 hs3e _ (s4 ++ s5) ?_ ?_
        · simp only
          rw [hs5, hs4, List.append_assoc]
        · intro e he
          rcases List.mem_append.mp he with h1 | h1
          · exact hs4e e h1
          · exact hs5e e h1
      · next tenantDB tm w4 hconn =>
        rw [hconn] at hs4
        simp only at hs4
        split at hr
        · obtain ⟨s5, hs5, hs5e⟩ := DropTenantDatabase_trace env tm
            (w4.log (.migrate tenantDB (env.migrate tenantDB))) h.db req.Code
            (ascii "school_" ++ req.Code ++ ascii "_db")
          subst hr
          refine hrest w3 s3 hw3 hs3e _
            (s4 ++ Event.migrate tenantDB (env.migrate tenantDB) :: s5) ?_ ?_
          · simp only
            rw [hs5]
            simp only [World.log, hs4, List.append_assoc, List.singleton_append]
          · intro e he
            rcases List.mem_append.mp he with h1 | h1
            · exact hs4e e h1
            · rcases List.mem_cons.mp h1 with h2 | h2
              · rw [h2]; rfl
              · exact hs5e e h2
        · split at hr
          · obtain ⟨s5, hs5, hs5e⟩ := DropTenantDatabase_trace env tm
              ((w4.log (.migrate tenantDB (env.migrate tenantDB))).log
                (.insertSchool h.db
                  (insertArgs req (ascii "school_" ++ req.Code ++ ascii "_db") dbUser enc)
                  (env.insert h.db
                    (insertArgs req (ascii "school_" ++ req.Code ++ ascii "_db") dbUser enc))))
              h.db req.Code (ascii "school_" ++ req.Code ++ ascii "_db")
            subst hr
            refine hrest w3 s3 hw3 hs3e _
              (s4 ++ Event.migrate tenantDB (env.migrate tenantDB) ::
                Event.insertSchool h.db
                  (insertArgs req (ascii "school_" ++ req.Code ++ ascii "_db") dbUser enc)
                  (env.insert h.db
                    (insertArgs req (ascii "school_" ++ req.Code ++ ascii "_db") dbUser enc))
                :: s5) ?_ ?_
            · simp only
              rw [hs5]
              simp only [World.log, hs4, List.append_assoc, List.singleton_append,
                List.cons_append, List.nil_append]
            · intro e he
              rcases List.mem_append.mp he with h1 | h1
              · exact hs4e e h1
              · rcases List.mem_cons.mp h1 with h2 | h2
                · rw [h2]; rfl
                · rcases List.mem_cons.mp h2 with h3 | h3
                  · rw [h3]; rfl
                  · exact hs5e e h3
          · subst hr
            refine hrest w3 s3 hw3 hs3e _
              (s4 ++ [Event.migrate tenantDB (env.migrate tenantDB),
                Event.insertSchool h.db
                  (insertArgs req (ascii "school_" ++ req.Code ++ ascii "_db") dbUser enc)
                  (env.insert h.db
                    (insertArgs req (ascii "school_" ++ req.Code ++ ascii "_db") dbUser enc))])
              ?_ ?_
            · simp only [World.log, hs4, List.append_assoc, List.singleton_append,
                List.cons_append, List.nil_append]
            · intro e he
              rcases List.mem_append.mp he with h1 | h1
              · exact hs4e e h1
              · simp only [List.mem_cons, List.mem_singleton, List.mem_nil_iff, or_false] at h1
                rcases h1 with h2 | h2 <;> rw [h2] <;> rfl

/-! ## Provisioning steps and generated passwords: claims C27 and C28 -/

/-- C27: `CreateTenantDatabase`, once the password is encrypted, executes in this
order the statement that creates the role if it is absent (a `DO` block with
`CREATE USER` under `IF NOT EXISTS`), the statement
`CREATE DATABASE "<dbName>" ENCODING 'UTF8' TEMPLATE template0;`, the grant of all
privileges on the database, the connection to the new database as the superuser
`postgres` and on it the grants on the schema and the default privileges; the
texts sent are those written out here.  The result of each step is checked: when a
step fails the function returns the error of that step and the trace ends with the
failed call (and, for the schema grants, the deferred close of the superuser
connection); no later step is executed.  When all succeed the function returns
nil. -/
theorem createTenantDatabase_steps (G : AEAD) (env : Env) (tm : TenantManager) (w : World)
    (mainDB : Pool) (code dbName dbUser dbPassword : Bytes) :
    (createUserSQL dbUser dbPassword
      = ascii "\n\t\tDO $$\n\t\tBEGIN\n\t\t\tIF NOT EXISTS (SELECT FROM pg_catalog.pg_roles WHERE rolname = '"
        ++ dbUser ++ ascii "') THEN\n\t\t\t\tCREATE USER \"" ++ dbUser
        ++ ascii "\" WITH PASSWORD '" ++ dbPassword
        ++ ascii "';\n\t\t\tEND IF;\n\t\tEND\n\t\t$$;\n\t" ∧
    createDBSQL dbName
      = ascii "CREATE DATABASE \"" ++ dbName ++ ascii "\" ENCODING 'UTF8' TEMPLATE template0;" ∧
    grantSQL dbName dbUser
      = ascii "GRANT ALL PRIVILEGES ON DATABASE \"" ++ dbName ++ ascii "\" TO \"" ++ dbUser
        ++ ascii "\";" ∧
    tenantDSN tm.postgresPassword dbName
      = ascii "postgres://postgres:" ++ tm.postgresPassword ++ ascii "@postgres:5432/" ++ dbName
        ++ ascii "?sslmode=disable" ∧
    schemaSQL dbUser
      = ascii "\n\t\tGRANT ALL ON SCHEMA public TO \"" ++ dbUser
        ++ ascii "\";\n\t\tGRANT ALL PRIVILEGES ON ALL TABLES IN SCHEMA public TO \"" ++ dbUser
        ++ ascii "\";\n\t\tGRANT ALL PRIVILEGES ON ALL SEQUENCES IN SCHEMA public TO \"" ++ dbUser
        ++ ascii "\";\n\t\tALTER DEFAULT PRIVILEGES IN SCHEMA public GRANT ALL ON TABLES TO \""
        ++ dbUser
        ++ ascii "\";\n\t\tALTER DEFAULT PRIVILEGES IN SCHEMA public GRANT ALL ON SEQUENCES TO \""
        ++ dbUser ++ ascii "\";\n\t") ∧
    (∀ err, (tm.cipher.Encrypt G (env.rand w.rndReads) dbPassword).2 = some err →
      (tm.CreateTenantDatabase G env w mainDB code dbName dbUser dbPassword).1
        = some (.encryptPassword err) ∧
      (tm.CreateTenantDatabase G env w mainDB code dbName dbUser dbPassword).2.trace
        = w.trace ++ [.encrypt dbPassword]) ∧
    ((tm.cipher.Encrypt G (env.rand w.rndReads) dbPassword).2 = none →
      (env.exec mainDB (createUserSQL dbUser dbPassword) = false →
        (tm.CreateTenantDatabase G env w mainDB code dbName dbUser dbPassword).1
          = some .createUser ∧
        (tm.CreateTenantDatabase G env w mainDB code dbName dbUser dbPassword).2.trace
          = w.trace ++ [.encrypt dbPassword,
              .exec mainDB (createUserSQL dbUser dbPassword) false]) ∧
      (env.exec mainDB (createUserSQL dbUser dbPassword) = true →
        (env.exec mainDB (createDBSQL dbName) = false →
          (tm.CreateTenantDatabase G env w mainDB code dbName dbUser dbPassword).1
            = some .createDatabase ∧
          (tm.CreateTenantDatabase G env w mainDB code dbName dbUser dbPassword).2.trace
            = w.trace ++ [.encrypt dbPassword,
                .exec mainDB (createUserSQL dbUser dbPassword) true,
                .exec mainDB (createDBSQL dbName) false]) ∧
        (env.exec mainDB (createDBSQL dbName) = true →
          (env.exec mainDB (grantSQL dbName dbUser) = false →
            (tm.CreateTenantDatabase G env w mainDB code dbName dbUser dbPassword).1
              = some .grantDatabase ∧
            (tm.CreateTenantDatabase G env w mainDB code dbName dbUser dbPassword).2.trace
              = w.trace ++ [.encrypt dbPassword,
                  .exec mainDB (createUserSQL dbUser dbPassword) true,
                  .exec mainDB (createDBSQL dbName) true,
                  .exec mainDB (grantSQL dbName dbUser) false]) ∧
          (env.exec mainDB (grantSQL dbName dbUser) = true →
            (env.newPool (tenantDSN tm.postgresPassword dbName) = false →
              (tm.CreateTenantDatabase G env w mainDB code dbName dbUser dbPassword).1
                = some .connectTenant ∧
              (tm.CreateTenantDatabase G env w mainDB code dbName dbUser dbPassword).2.trace
                = w.trace ++ [.encrypt dbPassword,
                    .exec mainDB (createUserSQL dbUser dbPassword) true,
                    .exec mainDB (createDBSQL dbName) true,
                    .exec mainDB (grantSQL dbName dbUser) true,
                    .newPool (tenantDSN tm.postgresPassword dbName) none]) ∧
            (env.newPool (tenantDSN tm.postgresPassword dbName) = true →
              (tm.CreateTenantDatabase G env w mainDB code dbName dbUser dbPassword).1
                = (if env.exec w.nextPool (schemaSQL dbUser) then none else some .grantSchema) ∧
              (tm.CreateTenantDatabase G env w mainDB code dbName dbUser dbPassword).2.trace
                = w.trace ++ [.encrypt dbPassword,
                    .exec mainDB (createUserSQL dbUser dbPassword) true,
                    .exec mainDB (createDBSQL dbName) true,
                    .exec mainDB (grantSQL dbName dbUser) true,
                    .newPool (tenantDSN tm.postgresPassword dbName) (some w.nextPool),
                    .exec w.nextPool (schemaSQL dbUser) (env.exec w.nextPool (schemaSQL dbUser)),
                    .close w.nextPool]))))) := by
  refine ⟨⟨rfl, rfl, rfl, ?_, rfl⟩, ?_⟩
  · have h : ascii "@" ++ ascii "postgres" ++ ascii ":" ++ itoa 5432 ++ ascii "/"
        = ascii "@postgres:5432/" := by decide
    simp only [tenantDSN, List.append_assoc] at h ⊢
    rw [← h]
    simp only [List.append_assoc]
  unfold TenantManager.CreateTenantDatabase Cipher.encryptRand
  rcases henc : tm.cipher.Encrypt G (env.rand w.rndReads) dbPassword with ⟨blob, _ | err⟩
  · refine ⟨fun err h => (by cases h), fun _ => ⟨?_, ?_⟩⟩
    · intro h1
      simp [h1, World.log]
    · intro h1
      refine ⟨?_, ?_⟩
      · intro h2
        simp [h1, h2, World.log]
      · intro h2
        refine ⟨?_, ?_⟩
        · intro h3
          simp [h1, h2, h3, World.log]
        · intro h3
          refine ⟨?_, ?_⟩
          · intro h4
            simp [h1, h2, h3, h4, World.log]
          · intro h4
            by_cases h5 : env.exec w.nextPool (schemaSQL dbUser) = true
            · simp [h1, h2, h3, h4, h5, World.log]
            · simp [h1, h2, h3, h4, h5, World.log]
  · refine ⟨fun err' h => ?_, fun h => (by cases h)⟩
    simp only [Option.some.injEq] at h
    subst h
    simp [World.log]

theorem urlChar_mem : ∀ n : Fin 64, encodeURL.getD n.val 0 ∈ encodeURL ∧
    encodeURL.getD n.val 0 ≠ padChar := by
  decide

/-- The first `len(src)` characters of a padded base64 text are characters of the
alphabet, and the text has at least that many characters. -/
theorem encodeWith_prefix (enc : Nat → Byte) (bs : Bytes) :
    bs.length ≤ (encodeWith enc bs).length ∧
    ∀ c ∈ (encodeWith enc bs).take bs.length, ∃ n, n < 64 ∧ c = enc n := by
  induction bs using encodeWith.induct enc with
  | case1 => simp [encodeWith]
  | case2 a =>
      refine ⟨by simp [encodeWith], ?_⟩
      intro c hc
      simp only [encodeWith, List.length_singleton, List.take_succ_cons, List.take_zero,
        List.mem_singleton] at hc
      exact ⟨a.val / 4, by omega, hc⟩
  | case3 a b =>
      refine ⟨by simp [encodeWith], ?_⟩
      intro c hc
      simp only [encodeWith, List.length_cons, List.length_singleton, List.take_succ_cons,
        List.take_zero, List.mem_cons, List.mem_singleton, List.length_nil, List.mem_nil_iff,
        or_false] at hc
      rcases hc with rfl | rfl
      · exact ⟨a.val / 4, by omega, rfl⟩
      · exact ⟨a.val % 4 * 16 + b.val / 16, by omega, rfl⟩
  | case4 a b c rest ih =>
      obtain ⟨hlen, hmem⟩ := ih
      refine ⟨by simp only [encodeWith, List.length_cons]; omega, ?_⟩
      intro x hx
      simp only [encodeWith, List.length_cons, List.take_succ_cons, List.mem_cons] at hx
      rcases hx with rfl | rfl | rfl | hx
      · exact ⟨a.val / 4, by omega, rfl⟩
      · exact ⟨a.val % 4 * 16 + b.val / 16, by omega, rfl⟩
      · exact ⟨b.val % 16 * 4 + c.val / 64, by omega, rfl⟩
      · cases hr : rest.length with
        | zero => rw [hr] at hx; simp at hx
        | succ k =>
            rw [hr, List.take_succ_cons, List.mem_cons] at hx
            rcases hx with rfl | hx
            · exact ⟨c.val % 64, by omega, rfl⟩
            · exact hmem x (List.take_subset_take_left _ (by omega) hx)

/-- C28: for every length `n`, when the read of `n` bytes from the random source
succeeds, the slice `[:n]` that `generateRandomPassword(n)` takes of the base64 text
is in range (the text has at least `n` characters), and the result has exactly `n`
characters, each of them from the URL-safe alphabet `A-Z`, `a-z`, `0-9`, `-`, `_`
and none of them the padding character `=`.  `CreateSchool` calls it with 16. -/
theorem generateRandomPassword_chars (env : Env) (w : World) (n : Nat) (bytes : Bytes)
    (hrand : readFull (env.rand w.rndReads) n = some bytes) :
    n ≤ (urlEncodeToString bytes).length ∧
    (generateRandomPassword env w n).1 = (urlEncodeToString bytes).take n ∧
    (generateRandomPassword env w n).1.length = n ∧
    ∀ c ∈ (generateRandomPassword env w n).1, c ∈ encodeURL ∧ c ≠ padChar := by
  have hlen : bytes.length = n := by
    unfold readFull at hrand
    cases hsrc : env.rand w.rndReads with
    | none => rw [hsrc] at hrand; cases hrand
    | some bs =>
        rw [hsrc] at hrand
        simp only at hrand
        split_ifs at hrand with hle
        cases hrand
        simp [List.length_take, hle]
  have hres : (generateRandomPassword env w n).1 = (urlEncodeToString bytes).take n := by
    simp only [generateRandomPassword, World.readRand, hrand]
  obtain ⟨h1, h2⟩ := encodeWith_prefix (fun n => encodeURL.getD n 0) bytes
  rw [hlen] at h1 h2
  refine ⟨h1, hres, ?_, ?_⟩
  · rw [hres, List.length_take]
    exact Nat.min_eq_left h1
  · intro c hc
    rw [hres] at hc
    obtain ⟨k, hk, rfl⟩ := h2 c hc
    exact urlChar_mem ⟨k, hk⟩

set_option maxRecDepth 100000 in
theorem generateRandomPassword_chars_witness :
    readFull ((exampleEnv (fun _ => true) (fun _ _ => true)).rand (exampleWorld 0).rndReads) 16
      = some (ascii "0123456789abcdef") ∧
    (generateRandomPassword (exampleEnv (fun _ => true) (fun _ _ => true)) (exampleWorld 0) 16).1
      = ascii "MDEyMzQ1Njc4OWFi" ∧
    (generateRandomPassword (exampleEnv (fun _ => true) (fun _ _ => true))
      (exampleWorld 0) 16).1.length = 16 :=
  ⟨by decide, by decide,
   (generateRandomPassword_chars (exampleEnv (fun _ => true) (fun _ _ => true)) (exampleWorld 0)
      16 (ascii "0123456789abcdef") (by decide)).2.2.1⟩

/-! ## The cache never holds a closed pool: claim C29 -/

theorem closed_log (w : World) (e : Event) (p : Pool) :
    (w.log e).closed p ↔ w.closed p ∨ e = .close p := by
  simp [World.closed, World.log, eq_comm]

/-- How `dial` changes the world: it creates at most one pool, and the only pool it
may close is the one it created and does not return. -/
theorem dial_frame (G : AEAD) (env : Env) (tm : TenantManager) (w : World)
    (host : Bytes) (port : Int) (dbName user enc : Bytes) :
    ((tm.dial G env w host port dbName user enc).1 = (some w.nextPool, none) ∧
      (tm.dial G env w host port dbName user enc).2.nextPool = w.nextPool + 1 ∧
      ∀ p, (tm.dial G env w host port dbName user enc).2.closed p → w.closed p) ∨
    ((∃ e, (tm.dial G env w host port dbName user enc).1 = (none, some e)) ∧
      w.nextPool ≤ (tm.dial G env w host port dbName user enc).2.nextPool ∧
      ∀ p, (tm.dial G env w host port dbName user enc).2.closed p →
        w.closed p ∨ (p = w.nextPool ∧
          (tm.dial G env w host port dbName user enc).2.nextPool = w.nextPool + 1)) := by
  unfold TenantManager.dial
  rcases hd : tm.cipher.Decrypt G enc with ⟨password, _ | err⟩
  · simp only
    cases hp : env.parseConfig (connDSN user password host port dbName) with
    | none =>
        right
        refine ⟨⟨_, rfl⟩, le_refl _, ?_⟩
        intro p h
        simp only [closed_log, reduceCtorEq, or_false] at h
        exact Or.inl h
    | some config =>
        simp only
        by_cases hn : env.newWithConfig { config with
            MaxConns := tm.maxOpenConns, MinConns := 1,
            MaxConnLifetime := tm.connMaxLifetime, ConnectTimeout := tm.connectionTimeout } = true
        · rw [if_pos hn]
          by_cases hping : env.ping w.nextPool = true
          · left
            simp only [World.log, World.closed, hping, if_true]
            refine ⟨trivial, trivial, ?_⟩
            intro p h
            simpa using h
          · right
            simp only [World.log, World.closed, hping, Bool.false_eq_true, if_false]
            refine ⟨⟨_, rfl⟩, by simp, ?_⟩
            intro p h
            simp only [List.append_assoc, List.mem_append, List.mem_singleton, List.mem_cons,
              reduceCtorEq, Event.close.injEq, List.mem_nil_iff, or_false, false_or] at h
            rcases h with h | h
            · left; exact h
            · right; exact ⟨h, trivial⟩
        · rw [if_neg hn]
          right
          refine ⟨⟨_, rfl⟩, le_refl _, ?_⟩
          intro p h
          simp only [closed_log, reduceCtorEq, or_false] at h
          exact Or.inl h
  · right
    refine ⟨⟨_, rfl⟩, le_refl _, ?_⟩
    intro p h
    simp only [closed_log, reduceCtorEq, or_false] at h
    exact Or.inl h

theorem mem_mapDelete (m : PoolMap) (k : Bytes) (e : Bytes × Pool) (h : e ∈ mapDelete m k) :
    e ∈ m ∧ e.1 ≠ k := by
  simp only [mapDelete, List.mem_filter, decide_eq_true_eq] at h
  exact h

theorem nodup_mapDelete (m : PoolMap) (k : Bytes) (h : (m.map Prod.snd).Nodup) :
    ((mapDelete m k).map Prod.snd).Nodup :=
  h.sublist ((List.filter_sublist m).map Prod.snd)

/-- Deleting an entry keeps the invariant. -/
theorem cacheInv_delete (tm : TenantManager) (w : World) (k : Bytes) (h : CacheInv tm w) :
    CacheInv { tm with dbConnections := mapDelete tm.dbConnections k } w :=
  ⟨fun e he => h.1 e (mem_mapDelete _ _ _ he).1, h.2.1, nodup_mapDelete _ _ h.2.2⟩

/-- A call that is not a close keeps the invariant. -/
theorem cacheInv_log (tm : TenantManager) (w : World) (e : Event) (h : CacheInv tm w)
    (he : ∀ p, e ≠ .close p) : CacheInv tm (w.log e) := by
  refine ⟨fun x hx => ⟨(h.1 x hx).1, ?_⟩, ?_, h.2.2⟩
  · intro hc
    rcases (closed_log w e x.2).mp hc with h1 | h1
    · exact (h.1 x hx).2 h1
    · exact he _ h1
  · intro p hc
    rcases (closed_log w e p).mp hc with h1 | h1
    · exact h.2.1 p h1
    · exact absurd h1 (he p)

/-- Closing the pool cached under a code and deleting the entry keeps the
invariant. -/
theorem cacheInv_close (tm : TenantManager) (w : World) (k : Bytes) (conn : Pool)
    (h : CacheInv tm w) (hc : mapGet tm.dbConnections k = some conn) :
    CacheInv { tm with dbConnections := mapDelete tm.dbConnections k } (w.log (.close conn)) := by
  have hmem := mem_of_mapGet _ _ _ hc
  refine ⟨?_, ?_, nodup_mapDelete _ _ h.2.2⟩
  · intro e he
    obtain ⟨hem, hek⟩ := mem_mapDelete _ _ _ he
    refine ⟨(h.1 e hem).1, ?_⟩
    intro hcl
    rcases (closed_log w _ e.2).mp hcl with h1 | h1
    · exact (h.1 e hem).2 h1
    · have h2 : conn = e.2 := Event.close.inj h1
      have h3 : e = (k, conn) :=
        List.inj_on_of_nodup_map h.2.2 hem hmem h2.symm
      exact hek (by rw [h3])
  · intro p hcl
    rcases (closed_log w _ p).mp hcl with h1 | h1
    · exact h.2.1 p h1
    · have h2 : conn = p := Event.close.inj h1
      rw [← h2]
      exact (h.1 _ hmem).1

theorem cacheInv_connect (G : AEAD) (env : Env) (tm : TenantManager) (w : World)
    (code host : Bytes) (port : Int) (dbName user enc : Bytes) (h : CacheInv tm w) :
    CacheInv (tm.connect G env w code host port dbName user enc).2.1
      (tm.connect G env w code host port dbName user enc).2.2 := by
  have hlt : ∀ x ∈ tm.dbConnections, (x.2 : Nat) < w.nextPool := fun x hx => (h.1 x hx).1
  have hcl0 : ∀ p : Nat, w.closed p → p < w.nextPool := h.2.1
  unfold TenantManager.connect
  rcases dial_frame G env tm w host port dbName user enc with ⟨hr, hn, hcl⟩ | ⟨⟨e, hr⟩, hn, hcl⟩
  · rcases hd : tm.dial G env w host port dbName user enc with ⟨r, w'⟩
    rw [hd] at hr hn hcl
    simp only at hr hn hcl
    subst hr
    simp only
    refine ⟨?_, ?_, ?_⟩
    · intro x hx
      simp only [mapSet, List.mem_append, List.mem_singleton] at hx
      rcases hx with hx | hx
      · have hxm := (mem_mapDelete _ _ _ hx).1
        have h1 := hlt x hxm
        exact ⟨Nat.lt_of_lt_of_le h1 (by omega), fun hc => (h.1 x hxm).2 (hcl _ hc)⟩
      · subst hx
        refine ⟨Nat.lt_of_lt_of_le (Nat.lt_succ_self _) (by omega), fun hc => ?_⟩
        exact absurd (hcl0 _ (hcl _ hc)) (Nat.lt_irrefl _)
    · intro p hc
      have h1 := hcl0 p (hcl p hc)
      exact Nat.lt_of_lt_of_le h1 (by omega)
    · simp only [mapSet, List.map_append, List.map_cons, List.map_nil]
      rw [List.nodup_append]
      refine ⟨nodup_mapDelete _ _ h.2.2, List.nodup_singleton _, ?_⟩
      intro p hp1 hp2
      simp only [List.mem_singleton] at hp2
      subst hp2
      obtain ⟨x, hx, hxp⟩ := List.mem_map.mp hp1
      have h1 := hlt x (mem_mapDelete _ _ _ hx).1
      rw [hxp] at h1
      exact absurd h1 (Nat.lt_irrefl _)
  · rcases hd : tm.dial G env w host port dbName user enc with ⟨r, w'⟩
    rw [hd] at hr hn hcl
    simp only at hr hn hcl
    subst hr
    simp only
    refine ⟨?_, ?_, h.2.2⟩
    · intro x hx
      have h1 := hlt x hx
      refine ⟨Nat.lt_of_lt_of_le h1 hn, fun hc => ?_⟩
      rcases hcl _ hc with h2 | ⟨h2, _⟩
      · exact (h.1 x hx).2 h2
      · rw [h2] at h1
        exact absurd h1 (Nat.lt_irrefl _)
    · intro p hc
      rcases hcl p hc with h1 | ⟨h1, h2⟩
      · exact Nat.lt_of_lt_of_le (hcl0 p h1) hn
      · rw [h1, h2]
        exact Nat.lt_succ_self _

theorem cacheInv_GetConnection (G : AEAD) (env : Env) (tm : TenantManager) (w : World)
    (code host : Bytes) (port : Int) (dbName user enc : Bytes) (h : CacheInv tm w) :
    CacheInv (tm.GetConnection G env w code host port dbName user enc).2.1
      (tm.GetConnection G env w code host port dbName user enc).2.2 := by
  unfold TenantManager.GetConnection
  cases hc : mapGet tm.dbConnections code with
  | none => exact cacheInv_connect G env tm w code host port dbName user enc h
  | some conn =>
      simp only
      by_cases hp : env.ping conn = true
      · simp only [hp, if_true]
        exact cacheInv_log tm w _ h (fun p hp' => by cases hp')
      · simp only [hp, Bool.false_eq_true, if_false]
        exact cacheInv_connect G env _ _ code host port dbName user enc
          (cacheInv_log _ _ _ (cacheInv_delete tm w code h) (fun p hp' => by cases hp'))

theorem cacheInv_CloseConnection (tm : TenantManager) (w : World) (code : Bytes)
    (h : CacheInv tm w) :
    CacheInv (tm.CloseConnection w code).1 (tm.CloseConnection w code).2 := by
  unfold TenantManager.CloseConnection
  cases hc : mapGet tm.dbConnections code with
  | none => exact h
  | some conn => exact cacheInv_close tm w code conn h hc

theorem closeEach_nextPool (m : PoolMap) (w : World) : (closeEach m w).nextPool = w.nextPool := by
  induction m generalizing w with
  | nil => rfl
  | cons e m ih =>
      obtain ⟨k, p⟩ := e
      simp only [closeEach]
      rw [ih]
      rfl

theorem cacheInv_CloseAllConnections (tm : TenantManager) (w : World) (h : CacheInv tm w) :
    CacheInv (tm.CloseAllConnections w).1 (tm.CloseAllConnections w).2 := by
  unfold TenantManager.CloseAllConnections
  refine ⟨fun e he => by simp at he, ?_, by simp⟩
  intro p hc
  simp only [World.closed, closeEach_trace, List.mem_append, List.mem_map] at hc
  rw [closeEach_nextPool]
  rcases hc with h1 | ⟨e, he, hep⟩
  · exact h.2.1 p h1
  · have h2 : e.2 = p := Event.close.inj hep
    rw [← h2]
    exact (h.1 e he).1

theorem cacheInv_DropTenantDatabase (env : Env) (tm : TenantManager) (w : World)
    (mainDB : Pool) (code dbName : Bytes) (h : CacheInv tm w) :
    CacheInv (tm.DropTenantDatabase env w mainDB code dbName).2.1
      (tm.DropTenantDatabase env w mainDB code dbName).2.2 := by
  have hkey : CacheInv (tm.CloseConnection w code).1
      ((tm.CloseConnection w code).2.log
        (.exec mainDB (dropDBSQL dbName) (env.exec mainDB (dropDBSQL dbName)))) :=
    cacheInv_log _ _ _ (cacheInv_CloseConnection tm w code h) (fun p hp => by cases hp)
  unfold TenantManager.DropTenantDatabase
  unfold TenantManager.CloseConnection at hkey
  cases hc : mapGet tm.dbConnections code with
  | none =>
      rw [hc] at hkey
      by_cases he : env.exec mainDB (dropDBSQL dbName) = true <;> simpa [he] using hkey
  | some conn =>
      rw [hc] at hkey
      by_cases he : env.exec mainDB (dropDBSQL dbName) = true <;> simpa [he] using hkey

theorem cacheInv_call (G : AEAD) (s : TenantManager × World) (c : Env × ManagerCall)
    (h : CacheInv s.1 s.2) :
    CacheInv (TenantManager.call G s c).1 (TenantManager.call G s c).2 := by
  obtain ⟨env, op⟩ := c
  cases op with
  | getConnection a => exact cacheInv_GetConnection G env s.1 s.2 _ _ _ _ _ _ h
  | closeConnection code => exact cacheInv_CloseConnection s.1 s.2 code h
  | closeAllConnections => exact cacheInv_CloseAllConnections s.1 s.2 h
  | dropTenantDatabase mainDB code dbName =>
      exact cacheInv_DropTenantDatabase env s.1 s.2 mainDB code dbName h

theorem cacheInv_calls (G : AEAD) (cs : List (Env × ManagerCall)) :
    ∀ s : TenantManager × World, CacheInv s.1 s.2 →
      CacheInv (cs.foldl (TenantManager.call G) s).1 (cs.foldl (TenantManager.call G) s).2 := by
  induction cs with
  | nil => intro s h; exact h
  | cons c cs ih => intro s h; exact ih _ (cacheInv_call G s c h)

/-- C29: on a manager built by `NewTenantManager`, in a world where every pool that
was closed exists, after any series of `GetConnection`, `CloseConnection`,
`CloseAllConnections` and `DropTenantDatabase` calls run one after the other, each
with whatever answers its environment gives, no pool stored in the cache has been
closed.  As this holds after every call of every series, a pool that a call closes
is not in the cache when the call returns: its entry was removed by that call or it
was never inserted. -/
theorem cached_pools_are_open (G : AEAD) (encryptionKey : Bytes)
    (maxOpenConns maxIdleConns connMaxLifetime : Int) (postgresPassword : Bytes)
    (tm : TenantManager) (w : World) (cs : List (Env × ManagerCall))
    (hnew : NewTenantManager encryptionKey maxOpenConns maxIdleConns connMaxLifetime
      postgresPassword = (some tm, none))
    (hw : ∀ p, w.closed p → p < w.nextPool) :
    (∀ e ∈ (tm.calls G w cs).1.dbConnections, ¬ (tm.calls G w cs).2.closed e.2) ∧
    (∀ code p, mapGet (tm.calls G w cs).1.dbConnections code = some p →
      ¬ (tm.calls G w cs).2.closed p) := by
  have hempty : tm.dbConnections = [] := by
    simp only [NewTenantManager, NewCipher, Prod.mk.injEq, Option.some.injEq, and_true] at hnew
    rw [← hnew]
  have h0 : CacheInv tm w := ⟨fun e he => by rw [hempty] at he; simp at he, hw, by simp [hempty]⟩
  have h := cacheInv_calls G cs (tm, w) h0
  refine ⟨fun e he => (h.1 e he).2, fun code p hc => ?_⟩
  exact (h.1 _ (mem_of_mapGet _ _ _ hc)).2

set_option maxRecDepth 100000 in
theorem cached_pools_are_open_witness :
    NewTenantManager (ascii "tenant-secret") 10 2 (1800 * second) (ascii "postgres")
      = (some (exampleManager []), none) ∧
    (∀ p, (exampleWorld 4).closed p → p < (exampleWorld 4).nextPool) ∧
    ((exampleManager []).calls sumAEAD (exampleWorld 4)
        [(exampleEnv (fun _ => true) (fun _ _ => true), .getConnection exampleArgs),
         (exampleEnv (fun p => decide (p ≠ 4)) (fun _ _ => true), .getConnection exampleArgs),
         (exampleEnv (fun _ => true) (fun _ _ => true), .closeAllConnections),
         (exampleEnv (fun _ => true) (fun _ _ => true), .getConnection exampleArgs)]).1.dbConnections
      = [(ascii "eis", 6)] ∧
    ¬ ((exampleManager []).calls sumAEAD (exampleWorld 4)
        [(exampleEnv (fun _ => true) (fun _ _ => true), .getConnection exampleArgs),
         (exampleEnv (fun p => decide (p ≠ 4)) (fun _ _ => true), .getConnection exampleArgs),
         (exampleEnv (fun _ => true) (fun _ _ => true), .closeAllConnections),
         (exampleEnv (fun _ => true) (fun _ _ => true), .getConnection exampleArgs)]).2.closed 6 :=
  ⟨by decide, fun p hp => absurd hp (List.not_mem_nil _), by decide,
   (cached_pools_are_open sumAEAD (ascii "tenant-secret") 10 2 (1800 * second) (ascii "postgres")
      (exampleManager []) (exampleWorld 4)
      [(exampleEnv (fun _ => true) (fun _ _ => true), .getConnection exampleArgs),
       (exampleEnv (fun p => decide (p ≠ 4)) (fun _ _ => true), .getConnection exampleArgs),
       (exampleEnv (fun _ => true) (fun _ _ => true), .closeAllConnections),
       (exampleEnv (fun _ => true) (fun _ _ => true), .getConnection exampleArgs)]
      (by decide) (fun p hp => absurd hp (List.not_mem_nil _))).2 (ascii "eis") 6 (by decide)⟩

/-! ## The cache after a failed `GetConnection`: claim C30 -/

/-- C30: when `GetConnection` returns an error, whichever of its steps failed (the
decryption, the DSN parse, the pool creation or the first ping), then if
`tenantCode` was not cached the manager, and so the cache, is as it was before the
call; and if `tenantCode` was cached, its pool did not answer the ping and the only
change is that the entry of `tenantCode` is gone: the cache has no entry for it and
every other code has the entry it had. -/
theorem getConnection_failure_cache (G : AEAD) (env : Env) (tm : TenantManager) (w : World)
    (code host : Bytes) (port : Int) (dbName user enc : Bytes)
    (herr : (tm.GetConnection G env w code host port dbName user enc).1.2 ≠ none) :
    (mapGet tm.dbConnections code = none →
      (tm.GetConnection G env w code host port dbName user enc).2.1 = tm) ∧
    (∀ conn, mapGet tm.dbConnections code = some conn →
      env.ping conn = false ∧
      (tm.GetConnection G env w code host port dbName user enc).2.1
        = { tm with dbConnections := mapDelete tm.dbConnections code } ∧
      mapGet (tm.GetConnection G env w code host port dbName user enc).2.1.dbConnections code
        = none ∧
      ∀ k, k ≠ code →
        mapGet (tm.GetConnection G env w code host port dbName user enc).2.1.dbConnections k
          = mapGet tm.dbConnections k) := by
  have hconn : ∀ (tm' : TenantManager) (w' : World),
      (tm'.connect G env w' code host port dbName user enc).1.2 ≠ none →
      (tm'.connect G env w' code host port dbName user enc).2.1 = tm' := by
    intro tm' w' h
    rcases connect_cases G env tm' w' code host port dbName user enc with ⟨w1, h', _⟩ | ⟨e, w1, h'⟩
    · rw [h'] at h; exact absurd rfl h
    · rw [h']
  constructor
  · intro hc
    simp only [TenantManager.GetConnection, hc] at herr ⊢
    exact hconn tm w herr
  · intro conn hc
    by_cases hp : env.ping conn = true
    · simp [TenantManager.GetConnection, hc, hp] at herr
    · have hp' : env.ping conn = false := by simpa using hp
      simp only [TenantManager.GetConnection, hc, hp', Bool.false_eq_true, if_false] at herr ⊢
      have h := hconn _ _ herr
      rw [h]
      exact ⟨trivial, rfl, mapGet_mapDelete_self _ _, fun k hk => mapGet_mapDelete_ne _ _ _ hk⟩

set_option maxRecDepth 100000 in
theorem getConnection_failure_cache_witness :
    ((exampleManager [(ascii "abc", 2), (ascii "eis", 3)]).GetConnection sumAEAD
        (exampleEnv (fun p => decide (p < 3)) (fun _ _ => true)) (exampleWorld 4)
        (ascii "eis") (ascii "postgres") 5432 (ascii "school_eis_db") (ascii "school_eis_user")
        exampleBlob).1 = (none, some .pingDatabase) ∧
    ((exampleManager [(ascii "abc", 2), (ascii "eis", 3)]).GetConnection sumAEAD
        (exampleEnv (fun p => decide (p < 3)) (fun _ _ => true)) (exampleWorld 4)
        (ascii "eis") (ascii "postgres") 5432 (ascii "school_eis_db") (ascii "school_eis_user")
        exampleBlob).2.1 = exampleManager [(ascii "abc", 2)] :=
  ⟨by decide,
   ((getConnection_failure_cache sumAEAD (exampleEnv (fun p => decide (p < 3)) (fun _ _ => true))
      (exampleManager [(ascii "abc", 2), (ascii "eis", 3)]) (exampleWorld 4)
      (ascii "eis") (ascii "postgres") 5432 (ascii "school_eis_db") (ascii "school_eis_user")
      exampleBlob (by decide)).2 3 (by decide)).2.1.trans (by decide)⟩

end Tenant
